import Mathlib

/-!
Portfolio site script (`script.js`): contact form, visibility observers, counters,
portfolio filter, theme, rate limiters, smooth scroll, navigation highlighting,
start-up

A shallow embedding of the parts of `script.js` that the form pipeline, the
intersection observers, the counter animation, the portfolio filter, the theme
toggle, `throttle` and `debounce`, `smoothScrollTo`, `updateActiveNavOnScroll`,
the class `FormValidator`, the `DOMContentLoaded` wiring and the submit listeners
of the contact form consist of, followed by the properties established about
them.

Conventions of the embedding:

* JavaScript strings are Lean `String`s; a regular expression literal is a value
  of `Regex` mirroring the literal token by token, and `Regex.test` decides
  membership of the whole string (both patterns are anchored with `^` and `$`).
* The DOM is explicit state (`Page`, `Gallery`, `ThemeState`, ...); a function
  with side effects takes the state and returns the new state, and a function
  that can throw returns `Except` or the exception next to the state it leaves.
* `Math.random` and the browser (timers, animation frames, intersection reports,
  events) are inputs. Time is in milliseconds.
* The counter animation computes in double precision (`JsNumber`,
  `roundToDouble`); the numbers of the scroll animation are exact rationals.
* The selector text that `updateActiveNavOnScroll` builds from a section id is
  read as the CSS tokenizer reads it (`readNavSelector`).
-/

namespace Portfolio

/-! ## JavaScript string primitives -/

/-- Characters matched by `\s` in a JavaScript regular expression; the same set is
what `String.prototype.trim` strips (WhiteSpace and LineTerminator). -/
def isJsSpace (c : Char) : Bool :=
  c.toNat = 0x09 || c.toNat = 0x0A || c.toNat = 0x0B || c.toNat = 0x0C || c.toNat = 0x0D ||
  c.toNat = 0x20 || c.toNat = 0xA0 || c.toNat = 0x1680 ||
  (0x2000 ≤ c.toNat && c.toNat ≤ 0x200A) ||
  c.toNat = 0x2028 || c.toNat = 0x2029 || c.toNat = 0x202F || c.toNat = 0x205F ||
  c.toNat = 0x3000 || c.toNat = 0xFEFF

/-- Drop trailing characters satisfying `p`. -/
def dropTrailing (p : Char → Bool) : List Char → List Char
  | [] => []
  | c :: cs =>
    match dropTrailing p cs with
    | [] => if p c then [] else [c]
    | r => c :: r

/-- Models `String.prototype.trim`: strip whitespace from both ends. -/
def jsTrim (s : String) : String :=
  ⟨dropTrailing isJsSpace (s.data.dropWhile isJsSpace)⟩

/-! ## Regular expressions -/

/-- Regular expressions over characters, with character classes as predicates. -/
inductive Regex where
  | nothing : Regex
  | eps : Regex
  | cls (p : Char → Bool) : Regex
  | seq (a b : Regex) : Regex
  | alt (a b : Regex) : Regex
  | star (a : Regex) : Regex

namespace Regex

/-- Pattern `a+`. -/
def plus (a : Regex) : Regex := seq a (star a)

/-- Pattern `a?`. -/
def opt (a : Regex) : Regex := alt eps a

/-- Pattern `a{0,n}`. -/
def upTo : Nat → Regex → Regex
  | 0, _ => eps
  | n + 1, a => opt (seq a (upTo n a))

/-- Does the expression accept the empty string? -/
def nullable : Regex → Bool
  | nothing => false
  | eps => true
  | cls _ => false
  | seq a b => nullable a && nullable b
  | alt a b => nullable a || nullable b
  | star _ => true

/-- Brzozowski derivative with respect to one character. -/
def deriv : Regex → Char → Regex
  | nothing, _ => nothing
  | eps, _ => nothing
  | cls p, c => if p c then eps else nothing
  | seq a b, c => if nullable a then alt (seq (deriv a c) b) (deriv b c) else seq (deriv a c) b
  | alt a b, c => alt (deriv a c) (deriv b c)
  | star a, c => seq (deriv a c) (star a)

/-- Whole-input match of a character list. -/
def matchList : Regex → List Char → Bool
  | r, [] => nullable r
  | r, c :: cs => matchList (deriv r c) cs

/-- Models `/^r$/.test(s)`. -/
def test (r : Regex) (s : String) : Bool := matchList r s.data

/-- The language of an expression, defined on the structure of the expression. -/
inductive Matches : Regex → List Char → Prop
  | eps : Matches eps []
  | cls {p : Char → Bool} {c : Char} : p c = true → Matches (cls p) [c]
  | seq {a b : Regex} {s t : List Char} : Matches a s → Matches b t → Matches (seq a b) (s ++ t)
  | altL {a b : Regex} {s : List Char} : Matches a s → Matches (alt a b) s
  | altR {a b : Regex} {s : List Char} : Matches b s → Matches (alt a b) s
  | starNil {a : Regex} : Matches (star a) []
  | starCons {a : Regex} {s t : List Char} :
      Matches a s → Matches (star a) t → Matches (star a) (s ++ t)

end Regex

/-- Character class `[^\s@]`. -/
def notSpaceAt (c : Char) : Bool := !(isJsSpace c) && c != '@'

/-- Character class `[1-9]`. -/
def isDigit19 (c : Char) : Bool := '1'.toNat ≤ c.toNat && c.toNat ≤ '9'.toNat

/-- Character class `\d` (without the `u`/`v` flag: ASCII digits only). -/
def isDigit (c : Char) : Bool := '0'.toNat ≤ c.toNat && c.toNat ≤ '9'.toNat

/-- Character class `[\s\-\(\)]`. -/
def isPhoneSeparator (c : Char) : Bool := isJsSpace c || c == '-' || c == '(' || c == ')'

/-- Pattern `/^[^\s@]+@[^\s@]+\.[^\s@]+$/`. -/
def emailRegex : Regex :=
  .seq (.plus (.cls notSpaceAt))
    (.seq (.cls (· == '@'))
      (.seq (.plus (.cls notSpaceAt))
        (.seq (.cls (· == '.')) (.plus (.cls notSpaceAt)))))

/-- Pattern `/^[\+]?[1-9][\d]{0,15}$/`. -/
def phoneRegex : Regex :=
  .seq (.opt (.cls (· == '+'))) (.seq (.cls isDigit19) (.upTo 15 (.cls isDigit)))

/-- Models `value.replace(/[\s\-\(\)]/g, '')`. -/
def stripPhoneSeparators (s : String) : String :=
  ⟨s.data.filter (fun c => !(isPhoneSeparator c))⟩

/-! ## Contact form: page state -/

/-- A form control of the contact form. -/
structure Field where
  /-- The `name` attribute. -/
  name : String
  /-- Whether the control carries the `required` attribute. -/
  required : Bool
  /-- The current `value`. -/
  value : String
  /-- The value `form.reset()` restores. -/
  defaultValue : String
  /-- Whether the control carries the class `is-invalid`. -/
  invalid : Bool
deriving DecidableEq

/-- An element of class `form-message` (a form notice). -/
structure Notice where
  /-- Identity of the element (notices are created, never reused). -/
  id : Nat
  /-- The `type` argument of `showFormMessage`: `success` or `error`. -/
  kind : String
  /-- The message text. -/
  message : String
deriving DecidableEq

/-- The submit button with the two optional children `setButtonLoading` looks up. -/
structure Button where
  /-- Class `btn-loading` on the button itself. -/
  loadingClass : Bool
  /-- The `disabled` property. -/
  disabled : Bool
  /-- Class `d-none` on the `.btn-text` child, when there is such a child. -/
  textHidden : Option Bool
  /-- Class `d-none` on the `.btn-loading` child, when there is such a child. -/
  spinnerHidden : Option Bool
deriving DecidableEq

/-- The part of the document the contact form code reads and writes. -/
structure Page where
  /-- Controls of the form, in document order. -/
  fields : List Field
  /-- Elements that `getElementById(name + 'Error')` can find: id and text content. -/
  errorElements : List (String × String)
  /-- Result of `form.querySelector('button[type="submit"]')`. -/
  submitButton : Option Button
  /-- Elements of class `form-message`, in document order. -/
  notices : List Notice
  /-- Identity given to the next notice created. -/
  nextNoticeId : Nat
  /-- Pending 5000 ms timers, each removing the notice with the given identity. -/
  removalTimers : List Nat
  /-- How many times `simulateFormSubmission` has been called. -/
  sendsStarted : Nat
deriving DecidableEq

/-- An exception thrown by the script. -/
inductive JsError where
  /-- Property access on `null`, a call of a non-function, iteration of a non-iterable. -/
  | typeError : JsError
  /-- A `DOMException` of the storage (quota exceeded, storage not available). -/
  | domException : JsError
  /-- The `SyntaxError` of `querySelector` for a text that is not a selector. -/
  | syntaxError : JsError
deriving DecidableEq

/-- How the promise of `simulateFormSubmission` settles (`Math.random() > 0.1` or not). -/
inductive SendOutcome where
  | resolved : SendOutcome
  | rejected : SendOutcome
deriving DecidableEq

/-! ## Contact form: validation -/

/-- Own properties of the object literal `labels` in `getFieldLabel`. -/
def labels : List (String × String) :=
  [("firstName", "First Name"), ("lastName", "Last Name"), ("email", "Email Address"),
   ("phone", "Phone Number"), ("subject", "Subject"), ("message", "Message")]

/-- Properties the object literal `labels` inherits from `Object.prototype`, each
with the text a template literal makes of its value (all of them are truthy). The
text of a built-in function is the usual `function name() { [native code] }`. -/
def inheritedLabels : List (String × String) :=
  [("constructor", "function Object() \x7b [native code] \x7d"),
   ("__proto__", "[object Object]"),
   ("hasOwnProperty", "function hasOwnProperty() \x7b [native code] \x7d"),
   ("isPrototypeOf", "function isPrototypeOf() \x7b [native code] \x7d"),
   ("propertyIsEnumerable", "function propertyIsEnumerable() \x7b [native code] \x7d"),
   ("toLocaleString", "function toLocaleString() \x7b [native code] \x7d"),
   ("toString", "function toString() \x7b [native code] \x7d"),
   ("valueOf", "function valueOf() \x7b [native code] \x7d"),
   ("__defineGetter__", "function __defineGetter__() \x7b [native code] \x7d"),
   ("__defineSetter__", "function __defineSetter__() \x7b [native code] \x7d"),
   ("__lookupGetter__", "function __lookupGetter__() \x7b [native code] \x7d"),
   ("__lookupSetter__", "function __lookupSetter__() \x7b [native code] \x7d")]

/-- Models `getFieldLabel(fieldName)`, as the text it contributes to a template literal:
`labels[fieldName] || fieldName`, where the property lookup follows the prototype
chain of the object literal. -/
def getFieldLabel (fieldName : String) : String :=
  match labels.lookup fieldName with
  | some label => label
  | none =>
    match inheritedLabels.lookup fieldName with
    | some text => text
    | none => fieldName

/-- Truthiness of a string: non-empty. -/
def truthy (s : String) : Bool := !s.data.isEmpty

/-- The pure part of `validateField`: the final `isValid` and `errorMessage`. -/
def validateFieldResult (field : Field) : Bool × String :=
  let value := jsTrim field.value
  let fieldName := field.name
  let s0 : Bool × String := (true, "")
  -- Check if required field is empty
  let s1 := if field.required && !truthy value then
      (false, getFieldLabel fieldName ++ " is required.") else s0
  -- Email validation
  let s2 := if fieldName == "email" && truthy value then
      (if !emailRegex.test value then (false, "Please enter a valid email address.") else s1)
    else s1
  -- Phone validation (optional)
  let s3 := if fieldName == "phone" && truthy value then
      (if !phoneRegex.test (stripPhoneSeparators value) then
        (false, "Please enter a valid phone number.") else s2)
    else s2
  s3

/-- Set the text of the first element with the given id, if there is one
(`getElementById` followed by an assignment to `textContent`). -/
def setTextContent (id text : String) : List (String × String) → List (String × String)
  | [] => []
  | e :: es => if e.1 == id then (e.1, text) :: es else e :: setTextContent id text es

/-- Models `showFieldError(field, message)`, the field being the `i`-th control. -/
def showFieldError (i : Nat) (message : String) (p : Page) : Page :=
  match p.fields[i]? with
  | none => p
  | some f =>
    { p with
      fields := p.fields.set i { f with invalid := true }
      errorElements := setTextContent (f.name ++ "Error") message p.errorElements }

/-- Models `clearFieldError(field)`, the field being the `i`-th control. -/
def clearFieldError (i : Nat) (p : Page) : Page :=
  match p.fields[i]? with
  | none => p
  | some f =>
    { p with
      fields := p.fields.set i { f with invalid := false }
      errorElements := setTextContent (f.name ++ "Error") "" p.errorElements }

/-- Models `validateField(field)`, the field being the `i`-th control: the returned
`isValid` and the page with the error shown or cleared. -/
def validateField (i : Nat) (p : Page) : Bool × Page :=
  match p.fields[i]? with
  | none => (true, p)
  | some f =>
    let r := validateFieldResult f
    if r.1 then (true, clearFieldError i p) else (false, showFieldError i r.2 p)

/-- Positions of the controls selected by `form.querySelectorAll('[required]')`. -/
def requiredFields (p : Page) : List Nat :=
  (List.range p.fields.length).filter (fun i => (p.fields[i]?.map Field.required).getD false)

/-- The body of the `forEach` in `validateContactForm`, over the given positions. -/
def validateEach : List Nat → Bool × Page → Bool × Page
  | [], acc => acc
  | i :: is, (isValid, p) =>
    let r := validateField i p
    validateEach is (if !r.1 then false else isValid, r.2)

/-- Models `validateContactForm(form)`. -/
def validateContactForm (p : Page) : Bool × Page :=
  validateEach (requiredFields p) (true, p)

/-! ## Contact form: submission -/

/-- Models `setButtonLoading(button, isLoading)` on the submit button of the form; the
first statement dereferences the button, which throws when there is none. -/
def setButtonLoading (isLoading : Bool) (p : Page) : Except JsError Page :=
  match p.submitButton with
  | none => .error .typeError
  | some b =>
    if isLoading then
      .ok { p with submitButton := some (Button.mk true true
        (b.textHidden.map (fun _ => true)) (b.spinnerHidden.map (fun _ => false))) }
    else
      .ok { p with submitButton := some (Button.mk false false
        (b.textHidden.map (fun _ => false)) (b.spinnerHidden.map (fun _ => true))) }

/-- Models `showFormMessage(type, message)`: remove every existing notice, insert the new
one and schedule its removal. -/
def showFormMessage (kind message : String) (p : Page) : Page :=
  { p with
    notices := [{ id := p.nextNoticeId, kind := kind, message := message }]
    nextNoticeId := p.nextNoticeId + 1
    removalTimers := p.removalTimers ++ [p.nextNoticeId] }

/-- Models `simulateFormSubmission(formData)`: the call itself only starts the timer. -/
def simulateFormSubmission (p : Page) : Page :=
  { p with sendsStarted := p.sendsStarted + 1 }

/-- Models `form.reset()`. -/
def formReset (p : Page) : Page :=
  { p with fields := p.fields.map (fun f => { f with value := f.defaultValue }) }

/-- The notice text on success. -/
def successText : String := "Thank you! Your message has been sent successfully."

/-- The notice text on failure. -/
def errorText : String := "Sorry, there was an error sending your message. Please try again."

/-- Models `handleContactFormSubmit(e)` run to completion, `outcome` being how the
simulated send settles. `.error` is an exception escaping the handler. -/
def handleContactFormSubmit (outcome : SendOutcome) (p : Page) : Except JsError Page :=
  let v := validateContactForm p
  if !v.1 then .ok v.2
  else
    match setButtonLoading true v.2 with
    | .error e => .error e
    | .ok p2 =>
      let p3 := simulateFormSubmission p2
      let p4 := match outcome with
        | .resolved => formReset (showFormMessage "success" successText p3)
        | .rejected => showFormMessage "error" errorText p3
      setButtonLoading false p4

/-! ## Visibility observers

The seven observers of the script (`initializeSkills`, `initializeProgressBars`,
`initializeLazyLoading`, `initializeProgressCircles`, `createAnimationObserver`,
`initializeAdvancedImageLoading`, `initializeAdvancedScrollEffects`) share one
callback shape: for each entry, if it is intersecting, run the effect on the
target and unobserve the target. Elements are identified by numbers. -/

/-- An `IntersectionObserverEntry`, reduced to the two properties the callbacks read. -/
structure Entry where
  /-- The element the entry reports on. -/
  target : Nat
  /-- The `isIntersecting` flag. -/
  isIntersecting : Bool
deriving DecidableEq

/-- One `IntersectionObserver` together with a log of the runs of its effect. -/
structure Observer where
  /-- The observation targets, in the order of the `observe` calls. -/
  targets : List Nat
  /-- The log: the target of every run of the one-shot effect, in order. -/
  triggered : List Nat
deriving DecidableEq

/-- Models `observer.observe(target)`; observing an observed target changes nothing. -/
def Observer.observe (target : Nat) (o : Observer) : Observer :=
  if target ∈ o.targets then o else { o with targets := o.targets ++ [target] }

/-- Models `observer.unobserve(target)`. -/
def Observer.unobserve (target : Nat) (o : Observer) : Observer :=
  { o with targets := o.targets.filter (fun t => t != target) }

/-- The effect of a callback (set the progress width, load the image, add the
class, start the skill bars and counters), recorded in the log. -/
def Observer.runEffect (target : Nat) (o : Observer) : Observer :=
  { o with triggered := o.triggered ++ [target] }

/-- The callback given to `new IntersectionObserver`:
`entries.forEach(entry => { if (entry.isIntersecting) { effect; unobserve } })`. -/
def observerCallback : List Entry → Observer → Observer
  | [], o => o
  | entry :: entries, o =>
    observerCallback entries
      (if entry.isIntersecting then (o.runEffect entry.target).unobserve entry.target else o)

/-- Models `new IntersectionObserver(callback)` followed by `observe` on each of the
given elements, in order. -/
def newObserver (elements : List Nat) : Observer :=
  elements.foldl (fun o element => o.observe element) { targets := [], triggered := [] }

/-- Models `initializeProgressBars`: a new observer observing every progress bar. -/
def initializeProgressBars (progressBars : List Nat) : Observer :=
  newObserver progressBars

/-- Models `initializeSkills`: a new observer observing the skills section, if there is one. -/
def initializeSkills (skillsSection : Option Nat) : Observer :=
  match skillsSection with
  | some element => newObserver [element]
  | none => newObserver []

/-- One intersection notification. The browser reports, for each element, nothing
or the new `isIntersecting` flag; the observer receives the reports about its
current observation targets as one batch of entries, at most one entry for each
target, and the batch is delivered before the next one is computed. -/
def notify (report : Nat → Option Bool) (o : Observer) : Observer :=
  observerCallback (o.targets.filterMap (fun t => (report t).map (fun b => Entry.mk t b))) o

/-- A sequence of intersection notifications, in order. -/
def notifyAll : List (Nat → Option Bool) → Observer → Observer
  | [], o => o
  | report :: reports, o => notifyAll reports (notify report o)

/-! ## JavaScript numbers

The counter animation adds up a fraction that has no exact binary representation,
so its numbers are doubles: a rational is rounded to the nearest double, ties to
the even significand, after every operation. -/

/-- A value of the Number type: a finite double, given by the rational it denotes,
`Infinity`, `-Infinity` or `NaN`. The two zeros are one value, which is rendered
as `0`. -/
inductive JsNumber where
  | finite (value : ℚ) : JsNumber
  | posInf : JsNumber
  | negInf : JsNumber
  | nan : JsNumber
deriving DecidableEq

/-- The distance between neighbouring doubles around `q`: `2 ^ (e - 52)` where
`2 ^ e ≤ |q| < 2 ^ (e + 1)`, and `2 ^ -1074` below the normal range. -/
def quantum (q : ℚ) : ℚ := (2 : ℚ) ^ (max (Int.log 2 |q|) (-1022) - 52)

/-- The integer nearest to `q`; of two nearest integers the even one. -/
def roundTiesToEven (q : ℚ) : ℤ :=
  let f := ⌊q⌋
  let r := q - f
  if r < 1 / 2 then f
  else if 1 / 2 < r then f + 1
  else if f % 2 = 0 then f else f + 1

/-- The multiple of `quantum q` nearest to `q`, ties to even: the double nearest
to `q` when the exponent range is unbounded above. -/
def nearestDouble (q : ℚ) : ℚ := (roundTiesToEven (q / quantum q) : ℚ) * quantum q

/-- The result of an arithmetic operation whose exact value is `q`: the nearest
double, or an infinity when that reaches `2 ^ 1024`. -/
def roundToDouble (q : ℚ) : JsNumber :=
  let r : ℚ := nearestDouble q
  if (2 : ℚ) ^ (1024 : ℕ) ≤ r then .posInf
  else if r ≤ -(2 : ℚ) ^ (1024 : ℕ) then .negInf
  else .finite r

/-- The operator `+` on numbers. -/
def JsNumber.add : JsNumber → JsNumber → JsNumber
  | .finite a, .finite b => roundToDouble (a + b)
  | .nan, _ => .nan
  | _, .nan => .nan
  | .posInf, .negInf => .nan
  | .negInf, .posInf => .nan
  | .posInf, _ => .posInf
  | _, .posInf => .posInf
  | .negInf, _ => .negInf
  | _, .negInf => .negInf

/-- The operator `/` on numbers; a zero divisor counts as `+0`. -/
def JsNumber.div : JsNumber → JsNumber → JsNumber
  | .finite a, .finite b =>
    if b = 0 then (if a = 0 then .nan else if 0 < a then .posInf else .negInf)
    else roundToDouble (a / b)
  | .nan, _ => .nan
  | _, .nan => .nan
  | .finite _, _ => .finite 0
  | .posInf, .finite b => if 0 ≤ b then .posInf else .negInf
  | .negInf, .finite b => if 0 ≤ b then .negInf else .posInf
  | _, _ => .nan

/-- The operator `>=` on numbers. -/
def JsNumber.ge : JsNumber → JsNumber → Bool
  | .nan, _ => false
  | _, .nan => false
  | .posInf, _ => true
  | _, .negInf => true
  | .finite a, .finite b => decide (b ≤ a)
  | .finite _, .posInf => false
  | .negInf, _ => false

/-- Models `Math.floor`. -/
def JsNumber.floor : JsNumber → JsNumber
  | .finite a => .finite (⌊a⌋ : ℤ)
  | x => x

/-! ## Counter animation -/

/-- The state of one counter of `animateCounters`. -/
structure Counter where
  /-- The variable `current`. -/
  current : JsNumber
  /-- Whether the interval timer is still running (`clearInterval` not yet called). -/
  timerActive : Bool
  /-- The successive values assigned to `counter.textContent`, oldest first. -/
  rendered : List JsNumber
deriving DecidableEq

/-- Constant `duration`. -/
def duration : JsNumber := .finite 2000

/-- Constant `increment = target / (duration / 16)`. -/
def increment (target : JsNumber) : JsNumber := target.div (duration.div (.finite 16))

/-- The state right after `setInterval`: `current = 0`, nothing rendered yet. -/
def counterStart : Counter := { current := .finite 0, timerActive := true, rendered := [] }

/-- One firing of the interval callback; a cleared timer does not fire. -/
def tick (target : JsNumber) (c : Counter) : Counter :=
  if c.timerActive then
    let current := c.current.add (increment target)
    if current.ge target then
      { current := target, timerActive := false, rendered := c.rendered ++ [target.floor] }
    else
      { current := current, timerActive := true, rendered := c.rendered ++ [current.floor] }
  else c

/-- The counter after `n` periods of the interval timer, `target` being the value
of `parseInt(counter.getAttribute('data-count'))`. -/
def runTicks (target : JsNumber) : Nat → Counter
  | 0 => counterStart
  | n + 1 => tick target (runTicks target n)

/-! ## Vocabulary of the properties -/

/-- The part of a string before its first `@`. -/
def localPart (s : List Char) : List Char := s.takeWhile (fun c => c != '@')

/-- The part of a string after its first `@`. -/
def domainPart (s : List Char) : List Char := (s.dropWhile (fun c => c != '@')).drop 1

/-- The verdict `validateField` reaches on the `i`-th control (`true` when there
is no such control). -/
def fieldVerdict (p : Page) (i : Nat) : Bool :=
  (validateField i p).1

/-- The page with every per-field error marker blanked: the `is-invalid` classes
and the texts of the error elements. Two pages with the same image differ in
their error markers only. -/
def Page.eraseMarkers (p : Page) : Page :=
  { p with
    fields := p.fields.map (fun f => { f with invalid := false })
    errorElements := p.errorElements.map (fun e => (e.1, "")) }

/-! ## Portfolio filter -/

/-- Models `haystack.includes(needle)` on strings: `needle` occurs as a substring. -/
def includes (haystack needle : List Char) : Bool :=
  haystack.tails.any (fun rest => needle.isPrefixOf rest)

/-- The string a value read from an attribute becomes when a string is needed:
a missing attribute is `null`, which converts to `null` spelled out. -/
def attrText (v : Option String) : String :=
  match v with
  | some s => s
  | none => "null"

/-- An element of class `portfolio-item`. -/
structure PortfolioItem where
  /-- The attribute `data-category` (`none` when the element has no such attribute). -/
  category : Option String
  /-- Whether the element carries the class `hide`. -/
  hide : Bool
  /-- The inline style `display`. -/
  display : String
deriving DecidableEq

/-- An element of class `filter-btn`. -/
structure FilterButton where
  /-- The attribute `data-filter` (`none` when the element has no such attribute). -/
  dataFilter : Option String
  /-- Whether the element carries the class `active`. -/
  active : Bool
deriving DecidableEq

/-- The part of the document and of the globals the portfolio filter reads and writes. -/
structure Gallery where
  /-- The global `portfolioItems`, in document order. -/
  portfolioItems : List PortfolioItem
  /-- The global `currentFilter`. -/
  currentFilter : Option String
  /-- Pending 300 ms hide timers, oldest first; each names the position of its item. -/
  hideTimers : List Nat
  /-- Number of pending 400 ms timers that call `AOS.refresh`. -/
  refreshTimers : Nat
  /-- The elements of class `filter-btn`, in document order. -/
  filterButtons : List FilterButton
deriving DecidableEq

/-- The test `filter === 'all' || itemCategories.includes(filter)` of
`filterPortfolio`; it throws when the item has no `data-category` and the filter
is not `all`. -/
def filterAccepts (filter : Option String) (item : PortfolioItem) : Except JsError Bool :=
  if filter = some "all" then .ok true
  else
    match item.category with
    | none => .error .typeError
    | some itemCategories => .ok (includes itemCategories.data (attrText filter).data)

/-- The body of the `forEach` of `filterPortfolio` over the items from position
`i` on: the items as updated and the positions for which a hide timer is set. -/
def filterItems (filter : Option String) :
    Nat → List PortfolioItem → Except JsError (List PortfolioItem × List Nat)
  | _, [] => .ok ([], [])
  | i, item :: items =>
    match filterAccepts filter item with
    | .error e => .error e
    | .ok accepted =>
      match filterItems filter (i + 1) items with
      | .error e => .error e
      | .ok (items', timers) =>
        if accepted then .ok ({ item with hide := false, display := "block" } :: items', timers)
        else .ok ({ item with hide := true } :: items', i :: timers)

/-- Models `filterPortfolio(filter)`. -/
def filterPortfolio (filter : Option String) (g : Gallery) : Except JsError Gallery :=
  match filterItems filter 0 g.portfolioItems with
  | .error e => .error e
  | .ok (items, timers) =>
    .ok { g with
      currentFilter := filter
      portfolioItems := items
      hideTimers := g.hideTimers ++ timers
      refreshTimers := g.refreshTimers + 1 }

/-- The callback of a hide timer for the item at position `i`:
`if (item.classList.contains('hide')) item.style.display = 'none'`. -/
def hideIfHidden (i : Nat) (items : List PortfolioItem) : List PortfolioItem :=
  match items[i]? with
  | none => items
  | some item => if item.hide then items.set i { item with display := "none" } else items

/-- The oldest pending hide timer fires. -/
def fireHideTimer (g : Gallery) : Gallery :=
  match g.hideTimers with
  | [] => g
  | i :: timers => { g with portfolioItems := hideIfHidden i g.portfolioItems, hideTimers := timers }

/-- Every given hide timer fires, oldest first. -/
def fireAll : List Nat → List PortfolioItem → List PortfolioItem
  | [], items => items
  | i :: timers, items => fireAll timers (hideIfHidden i items)

/-- The hide delay has elapsed: every pending hide timer has fired. -/
def settle (g : Gallery) : Gallery :=
  { g with portfolioItems := fireAll g.hideTimers g.portfolioItems, hideTimers := [] }

/-- Models `updateActiveFilter(activeButton)`, the button being the `k`-th one. -/
def updateActiveFilter (k : Nat) (g : Gallery) : Gallery :=
  { g with
    filterButtons :=
      (g.filterButtons.map (fun btn => { btn with active := false })).modify
        (fun btn => { btn with active := true }) k }

/-- The click listener `initializePortfolio` puts on the `k`-th filter button. -/
def clickFilterButton (k : Nat) (g : Gallery) : Except JsError Gallery :=
  match g.filterButtons[k]? with
  | none => .ok g
  | some button =>
    match filterPortfolio button.dataFilter g with
    | .error e => .error e
    | .ok g1 => .ok (updateActiveFilter k g1)

/-- A `data-category` value read as a set of tags: the maximal runs of characters
other than whitespace, `current` being the run read so far. -/
def tagsFrom : List Char → List Char → List (List Char)
  | [], current => if current.isEmpty then [] else [current]
  | c :: cs, current =>
    if isJsSpace c then
      (if current.isEmpty then tagsFrom cs [] else current :: tagsFrom cs [])
    else tagsFrom cs (current ++ [c])

/-- The category set of an item: the tags of its `data-category` value. -/
def categoryTags (category : String) : List String :=
  (tagsFrom category.data []).map String.mk

/-! ## Theme -/

/-- The globals and the part of the document and of the browser the theme code
reads and writes. -/
structure ThemeState where
  /-- The global `currentTheme`. -/
  currentTheme : String
  /-- The attribute `data-theme` of the document element (`none`: not set). -/
  dataTheme : Option String
  /-- The entry `theme` of `localStorage` (`none`: no such entry). -/
  storedTheme : Option String
  /-- Whether `localStorage.setItem` throws (quota exceeded, storage not available). -/
  storageFails : Bool
  /-- The element `.theme-toggle`: `none` when there is none, `some none` when it
  has no `i` child, otherwise the `className` of its `i` child. -/
  toggleIcon : Option (Option String)
  /-- Number of pending 100 ms timers that call `AOS.refresh`. -/
  refreshTimers : Nat
deriving DecidableEq

/-- The start-up read `localStorage.getItem('theme') || 'light'` of line 2. -/
def startupTheme (storedTheme : Option String) : String :=
  match storedTheme with
  | some v => if truthy v then v else "light"
  | none => "light"

/-- Models `updateThemeToggle()`: the state it leaves and the exception it throws, if any. -/
def updateThemeToggle (s : ThemeState) : ThemeState × Option JsError :=
  match s.toggleIcon with
  | none => (s, none)
  | some none => (s, some .typeError)
  | some (some _) =>
    if s.currentTheme = "dark" then ({ s with toggleIcon := some (some "fas fa-sun") }, none)
    else ({ s with toggleIcon := some (some "fas fa-moon") }, none)

/-- Models `toggleTheme()`: the state it leaves and the exception it throws, if any. -/
def toggleTheme (s : ThemeState) : ThemeState × Option JsError :=
  let s1 := { s with currentTheme := if s.currentTheme = "light" then "dark" else "light" }
  let s2 := { s1 with dataTheme := some s1.currentTheme }
  if s2.storageFails then (s2, some .domException)
  else
    let s3 := { s2 with storedTheme := some s2.currentTheme }
    match updateThemeToggle s3 with
    | (s4, some e) => (s4, some e)
    | (s4, none) => ({ s4 with refreshTimers := s4.refreshTimers + 1 }, none)

/-- Models `JSON.stringify(value)` for a string without characters that need
escaping: the string between double quotes. -/
def jsonStringify (value : String) : String :=
  String.singleton (Char.ofNat 34) ++ value ++ String.singleton (Char.ofNat 34)

/-- Models `StorageManager.set('theme', value)`, the sibling of the write in
`toggleTheme`: the `try`/`catch` turns a failing write into a no-op. -/
def storageManagerSet (value : String) (s : ThemeState) : ThemeState × Option JsError :=
  if s.storageFails then (s, none) else ({ s with storedTheme := some (jsonStringify value) }, none)

/-! ## Rate limiters

Time is counted in milliseconds. A timer set at time `t` with delay `d` is due
at `t + d`; it fires when it is due, before any call made at that time. -/

/-- The state of one function returned by `throttle(func, limit)`. -/
structure Throttle where
  /-- The captured variable `inThrottle` (`undefined` counts as `false`). -/
  inThrottle : Bool
  /-- The due times of the pending timers `() => inThrottle = false`. -/
  timers : List Nat
  /-- The log: the time of every run of `func`, oldest first. -/
  executions : List Nat
deriving DecidableEq

/-- The state right after `throttle(func, limit)` returns. -/
def Throttle.fresh : Throttle := { inThrottle := false, timers := [], executions := [] }

/-- Time passes until `now`: every timer that is due fires. -/
def Throttle.advance (now : Nat) (s : Throttle) : Throttle :=
  if s.timers.any (fun due => due ≤ now) then
    { s with inThrottle := false, timers := s.timers.filter (fun due => now < due) }
  else s

/-- One call of the returned function at time `now`. -/
def Throttle.call (limit now : Nat) (s : Throttle) : Throttle :=
  if !s.inThrottle then
    { inThrottle := true, timers := s.timers ++ [now + limit],
      executions := s.executions ++ [now] }
  else s

/-- The calls made at the given times, in order, each after time has passed until it. -/
def throttleRun (limit : Nat) : List Nat → Throttle → Throttle
  | [], s => s
  | t :: ts, s => throttleRun limit ts ((s.advance t).call limit t)

/-- For each of the calls made at the given times, whether it runs `func`: whether
`inThrottle` is false when the call arrives. -/
def throttleDecisions (limit : Nat) : List Nat → Throttle → List Bool
  | [], _ => []
  | t :: ts, s =>
    (!(s.advance t).inThrottle) :: throttleDecisions limit ts ((s.advance t).call limit t)

/-- The times of the calls that run `func`, given the time and the decision of each call. -/
def executedTimes : List Nat → List Bool → List Nat
  | t :: ts, b :: bs => if b then t :: executedTimes ts bs else executedTimes ts bs
  | _, _ => []

/-- The state of one function returned by `debounce(func, wait, immediate)`; `α`
is the type of the arguments of a call. -/
structure Debounce (α : Type) where
  /-- The captured variable `timeout`: the pending timer, as its due time and the
  arguments its `later` closes over (`none`: `undefined` or `null`). -/
  timeout : Option (Nat × α)
  /-- The log: time and arguments of every run of `func`, oldest first. -/
  executions : List (Nat × α)

/-- The state right after `debounce(func, wait, immediate)` returns. -/
def Debounce.fresh {α : Type} : Debounce α := { timeout := none, executions := [] }

/-- Time passes until `now`: the pending timer fires if it is due, running `later`. -/
def Debounce.advance {α : Type} (immediate : Bool) (now : Nat) (s : Debounce α) : Debounce α :=
  match s.timeout with
  | none => s
  | some (due, args) =>
    if due ≤ now then
      { timeout := none,
        executions := if !immediate then s.executions ++ [(due, args)] else s.executions }
    else s

/-- One call of the returned function at time `now` with the given arguments. -/
def Debounce.call {α : Type} (wait : Nat) (immediate : Bool) (now : Nat) (args : α)
    (s : Debounce α) : Debounce α :=
  let callNow := immediate && s.timeout.isNone
  { timeout := some (now + wait, args),
    executions := if callNow then s.executions ++ [(now, args)] else s.executions }

/-- The calls made at the given times with the given arguments, in order, each
after time has passed until it. -/
def debounceRun {α : Type} (wait : Nat) (immediate : Bool) :
    List (Nat × α) → Debounce α → Debounce α
  | [], s => s
  | c :: cs, s => debounceRun wait immediate cs ((s.advance immediate c.1).call wait immediate c.1 c.2)

/-- The state of a throttled function whose last run of `func` was at time `last`
(`none`: no run yet), with the given log. -/
def Throttle.after (limit : Nat) (last : Option Nat) (log : List Nat) : Throttle :=
  match last with
  | none => { inThrottle := false, timers := [], executions := log }
  | some e => { inThrottle := true, timers := [e + limit], executions := log }

/-- Whether a call at time `t` comes at least `limit` after the last run of `func`. -/
def spacedFrom (limit : Nat) (last : Option Nat) (t : Nat) : Bool :=
  match last with
  | none => true
  | some e => decide (e + limit ≤ t)

/-! ## Smooth scroll -/

/-- Models `easeInOutQuad(t, b, c, d)`, over exact rationals, for a duration `d`
other than zero (with `d = 0` the divisions of the source give `NaN` or an
infinity). -/
def easeInOutQuad (t b c d : ℚ) : ℚ :=
  let t := t / (d / 2)
  if t < 1 then c / 2 * t * t + b
  else
    let t := t - 1;
    -c / 2 * (t * (t - 2) - 1) + b

/-- The variables of one `smoothScrollTo` call and what it has done so far. -/
structure ScrollAnimation where
  /-- The variable `startTime` (`none`: `null`). -/
  startTime : Option ℚ
  /-- The successive positions given to `window.scrollTo`, oldest first. -/
  scrolled : List ℚ
  /-- Whether a frame has been requested and not yet run. -/
  frameRequested : Bool

/-- Models `animation(currentTime)`, the frame callback of `smoothScrollTo`. -/
def animation (offsetTop pageYOffset duration currentTime : ℚ) (s : ScrollAnimation) :
    ScrollAnimation :=
  let targetPosition := offsetTop - 80
  let startPosition := pageYOffset
  let distance := targetPosition - startPosition
  let startTime := match s.startTime with
    | none => currentTime
    | some t => t
  let timeElapsed := currentTime - startTime
  let run := easeInOutQuad timeElapsed startPosition distance duration
  { startTime := some startTime
    scrolled := s.scrolled ++ [run]
    frameRequested := decide (timeElapsed < duration) }

/-- The browser runs the requested frames at the given timestamps, in order; a
timestamp is used only while a frame is requested. -/
def runFrames (offsetTop pageYOffset duration : ℚ) : List ℚ → ScrollAnimation → ScrollAnimation
  | [], s => s
  | t :: ts, s =>
    if s.frameRequested then
      runFrames offsetTop pageYOffset duration ts (animation offsetTop pageYOffset duration t s)
    else s

/-- Models `smoothScrollTo(target, duration)` followed by the frames the browser
runs at the given timestamps. -/
def smoothScrollTo (offsetTop pageYOffset duration : ℚ) (frames : List ℚ) : ScrollAnimation :=
  runFrames offsetTop pageYOffset duration frames
    { startTime := none, scrolled := [], frameRequested := true }

/-! ## Navigation highlighting -/

/-- An element `section[id]`. -/
structure PageSection where
  /-- The property `offsetTop`. -/
  offsetTop : ℤ
  /-- The property `offsetHeight`. -/
  offsetHeight : ℤ
  /-- The attribute `id`. -/
  id : String
deriving DecidableEq

/-- An element of class `nav-link`. -/
structure NavLink where
  /-- The attribute `href`. -/
  href : String
  /-- Whether the element carries the class `active`. -/
  active : Bool
deriving DecidableEq

/-- Models `updateActiveNavLink(activeLink)`, the link being the `k`-th one. -/
def updateActiveNavLink (k : Nat) (links : List NavLink) : List NavLink :=
  (links.map (fun link => { link with active := false })).modify
    (fun link => { link with active := true }) k

/-- Position of the first occurrence of `x`. -/
def firstIndexOf (x : String) : List String → Option Nat
  | [] => none
  | y :: ys => if y = x then some 0 else (firstIndexOf x ys).map (fun k => k + 1)

/-- The quotation mark, U+0022. -/
def quotationMark : Char := Char.ofNat 34

/-- The backslash, U+005C. -/
def reverseSolidus : Char := Char.ofNat 92

/-- The replacement character, U+FFFD. -/
def replacementCharacter : Char := Char.ofNat 65533

/-- Preprocessing of the text given to the CSS tokenizer: CR LF, CR and FF become
LF, and U+0000 becomes U+FFFD. The flag tells whether the previous character was
CR. -/
def cssPreprocess : Bool → List Char → List Char
  | _, [] => []
  | afterCR, c :: cs =>
    if c = Char.ofNat 13 then Char.ofNat 10 :: cssPreprocess true cs
    else if c = Char.ofNat 10 then
      (if afterCR then cssPreprocess false cs else Char.ofNat 10 :: cssPreprocess false cs)
    else if c = Char.ofNat 12 then Char.ofNat 10 :: cssPreprocess false cs
    else if c = Char.ofNat 0 then replacementCharacter :: cssPreprocess false cs
    else c :: cssPreprocess false cs

/-- CSS whitespace after preprocessing: newline, tab, space. -/
def isCssWhitespace (c : Char) : Bool :=
  c = Char.ofNat 10 || c = Char.ofNat 9 || c = ' '

/-- The value of a hexadecimal digit. -/
def hexDigit (c : Char) : Option Nat :=
  if '0'.toNat ≤ c.toNat ∧ c.toNat ≤ '9'.toNat then some (c.toNat - '0'.toNat)
  else if 'a'.toNat ≤ c.toNat ∧ c.toNat ≤ 'f'.toNat then some (c.toNat - 'a'.toNat + 10)
  else if 'A'.toNat ≤ c.toNat ∧ c.toNat ≤ 'F'.toNat then some (c.toNat - 'A'.toNat + 10)
  else none

/-- The character a hexadecimal escape stands for: U+FFFD for zero, for a
surrogate and for a number above U+10FFFF. -/
def escapedCodePoint (v : Nat) : Char :=
  if v = 0 ∨ (55296 ≤ v ∧ v ≤ 57343) ∨ 1114111 < v then replacementCharacter else Char.ofNat v

/-- Where the tokenizer is inside a string: at an ordinary position, right after a
backslash, or inside a hexadecimal escape with so many digits and this value. -/
inductive StringMode where
  | plain : StringMode
  | escape : StringMode
  | hex (digits value : Nat) : StringMode

/-- How a double-quoted CSS string ends. -/
inductive CssString where
  /-- The closing quote was found; `rest` is the text after it. -/
  | closed (value rest : List Char) : CssString
  /-- The text ended inside the string. -/
  | unterminated (value : List Char) : CssString
  /-- A newline inside the string (a bad string). -/
  | bad : CssString
deriving DecidableEq

/-- Consumes a double-quoted CSS string token whose opening quote has been read:
the string ends at the first quotation mark that is not escaped; a newline that is
not escaped makes it a bad string; a backslash followed by a newline is skipped, a
backslash followed by one to six hexadecimal digits and at most one whitespace
character stands for that code point, and a backslash followed by another
character stands for that character. -/
def consumeString : StringMode → List Char → List Char → CssString
  | .plain, value, [] => .unterminated value
  | .plain, value, c :: cs =>
    if c = quotationMark then .closed value cs
    else if c = Char.ofNat 10 then .bad
    else if c = reverseSolidus then consumeString .escape value cs
    else consumeString .plain (value ++ [c]) cs
  | .escape, value, [] => .unterminated value
  | .escape, value, c :: cs =>
    if c = Char.ofNat 10 then consumeString .plain value cs
    else
      match hexDigit c with
      | some d => consumeString (.hex 1 d) value cs
      | none => consumeString .plain (value ++ [c]) cs
  | .hex _ v, value, [] => .unterminated (value ++ [escapedCodePoint v])
  | .hex n v, value, c :: cs =>
    match hexDigit c with
    | some d =>
      if n < 6 then consumeString (.hex (n + 1) (16 * v + d)) value cs
      else consumeString .plain (value ++ [escapedCodePoint v, c]) cs
    | none =>
      if isCssWhitespace c then consumeString .plain (value ++ [escapedCodePoint v]) cs
      else if c = quotationMark then .closed (value ++ [escapedCodePoint v]) cs
      else if c = reverseSolidus then consumeString .escape (value ++ [escapedCodePoint v]) cs
      else consumeString .plain (value ++ [escapedCodePoint v, c]) cs

/-- What the selector text of `updateActiveNavOnScroll` says. -/
inductive NavSelector where
  /-- The text selects the elements of class `nav-link` whose `href` is `value`. -/
  | hrefEquals (value : String) : NavSelector
  /-- The text is not a selector: `querySelector` throws a `SyntaxError`. -/
  | invalid : NavSelector
  /-- The text is outside the part of the selector language that is read here. -/
  | unread : NavSelector
deriving DecidableEq

/-- Reads the selector text that the template literal of `updateActiveNavOnScroll`
builds: `.nav-link[href=`, a quotation mark, `#`, the section id as it is, a
quotation mark and `]`. The id is not escaped, so the string that opens before `#`
ends where the tokenizer finds its end. If that is the quotation mark of the
template, the text asks for `href` to equal the value of the string. If the string
is bad, the text is not a selector. If the string ends at a quotation mark inside
the id, what follows must go on with the attribute selector: when the next
character after whitespace can start neither `]` nor the flag `i` or `s` nor a
comment, the text is not a selector; the other texts, and a string that the text
ends in, are not read here. -/
def readNavSelector (sectionId : String) : NavSelector :=
  match consumeString .plain []
      (cssPreprocess false ('#' :: sectionId.data ++ [quotationMark, ']'])) with
  | .closed value rest =>
    if rest = [']'] then .hrefEquals (String.mk value)
    else
      match rest.dropWhile isCssWhitespace with
      | [] => .unread
      | c :: _ =>
        if c ∈ [']', 'i', 'I', 's', 'S', reverseSolidus, '/'] then .unread else .invalid
  | .unterminated _ => .unread
  | .bad => .invalid

/-- How a call of `document.querySelector` with the selector text ends. -/
inductive Lookup where
  /-- It returned the `k`-th link. -/
  | found (k : Nat) : Lookup
  /-- It returned `null`. -/
  | missing : Lookup
  /-- It threw. -/
  | throws (e : JsError) : Lookup
  /-- The selector text is not read here. -/
  | unread : Lookup
deriving DecidableEq

/-- Models the call of `document.querySelector` in `updateActiveNavOnScroll`: the
first link that the selector text selects. -/
def findNavLink (sectionId : String) (links : List NavLink) : Lookup :=
  match readNavSelector sectionId with
  | .hrefEquals value =>
    match firstIndexOf value (links.map NavLink.href) with
    | some k => .found k
    | none => .missing
  | .invalid => .throws .syntaxError
  | .unread => .unread

/-- The test `scrollPos >= sectionTop && scrollPos < sectionTop + sectionHeight`
with `scrollPos = scrollY + 100`. -/
def spanContains (scrollY : ℤ) (s : PageSection) : Bool :=
  decide (scrollY + 100 ≥ s.offsetTop) && decide (scrollY + 100 < s.offsetTop + s.offsetHeight)

/-- How a run of `updateActiveNavOnScroll` ends. -/
inductive NavResult where
  /-- It returned, leaving the links so. -/
  | returned (links : List NavLink) : NavResult
  /-- An exception left it, the links being so. -/
  | threw (e : JsError) (links : List NavLink) : NavResult
  /-- It met a selector text that is not read here. -/
  | unread : NavResult
deriving DecidableEq

/-- The body of the `forEach` of `updateActiveNavOnScroll` for one section. -/
def navStep (scrollY : ℤ) (links : List NavLink) (s : PageSection) : NavResult :=
  if spanContains scrollY s then
    match findNavLink s.id links with
    | .found k => .returned (updateActiveNavLink k links)
    | .missing => .returned links
    | .throws e => .threw e links
    | .unread => .unread
  else .returned links

/-- The `forEach` over the sections: it goes on to the next section unless the
body threw. -/
def forEachSection (scrollY : ℤ) : List PageSection → List NavLink → NavResult
  | [], links => .returned links
  | s :: sections, links =>
    match navStep scrollY links s with
    | .returned links1 => forEachSection scrollY sections links1
    | .threw e links1 => .threw e links1
    | .unread => .unread

/-- Models `updateActiveNavOnScroll()`. -/
def updateActiveNavOnScroll (scrollY : ℤ) (sections : List PageSection)
    (links : List NavLink) : NavResult :=
  forEachSection scrollY sections links

/-- Whether a text stands for itself inside a double-quoted CSS string: it has no
quotation mark, no backslash, no line feed, carriage return or form feed and no
U+0000. -/
def cssPlain (s : String) : Bool :=
  s.data.all (fun c => c != quotationMark && c != reverseSolidus && c != Char.ofNat 10 &&
    c != Char.ofNat 13 && c != Char.ofNat 12 && c != Char.ofNat 0)

/-! ## The class `FormValidator` -/

/-- A validator given to `addRule`: `(value, field) => boolean`. -/
abbrev Rule := String → Field → Bool

/-- An instance of `FormValidator`, as the own properties of its two maps. -/
structure FormValidator where
  /-- The map `this.rules`: field name to array of validators. -/
  rules : List (String × List Rule)
  /-- The map `this.messages`: field name to message. -/
  messages : List (String × String)

/-- What `showError` and `clearError` write for one field. -/
structure Feedback where
  /-- Whether the field carries the class `is-invalid`. -/
  invalid : Bool
  /-- The text of the `.invalid-feedback` element next to the field (`none`: no
  such element). -/
  feedback : Option String
deriving DecidableEq

/-- The state right after the constructor: `this.rules = {}`, `this.messages = {}`. -/
def FormValidator.new : FormValidator := { rules := [], messages := [] }

/-- Set key `k` of a map to `v`. -/
def assocSet {β : Type} (k : String) (v : β) : List (String × β) → List (String × β)
  | [] => [(k, v)]
  | e :: es => if e.1 = k then (k, v) :: es else e :: assocSet k v es

/-- Models `addRule(fieldName, validator, message)`. For a name that the maps
inherit from `Object.prototype`, `this.rules[fieldName]` is the inherited member
and `push` is not a function. -/
def FormValidator.addRule (fieldName : String) (validator : Rule) (message : String)
    (v : FormValidator) : Except JsError FormValidator :=
  match v.rules.lookup fieldName with
  | some rules =>
    .ok { rules := assocSet fieldName (rules ++ [validator]) v.rules
          messages := assocSet fieldName message v.messages }
  | none =>
    if (inheritedLabels.lookup fieldName).isSome then .error .typeError
    else
      .ok { rules := assocSet fieldName [validator] v.rules
            messages := assocSet fieldName message v.messages }

/-- The loop `for (let rule of rules) if (!rule(value, field)) ...`: the position
of the first rule that rejects, if any. -/
def firstFailing (value : String) (field : Field) : List Rule → Option Nat
  | [] => none
  | rule :: rules =>
    if !rule value field then some 0
    else (firstFailing value field rules).map (fun k => k + 1)

/-- Models `showError(field, message)`. -/
def showError (message : String) (_shown : Feedback) : Feedback :=
  { invalid := true, feedback := some message }

/-- Models `clearError(field)`. -/
def clearError (shown : Feedback) : Feedback :=
  { invalid := false, feedback := shown.feedback.map (fun _ => "") }

/-- Models `validateField(field)` of `FormValidator`: the returned value, what is
shown for the field afterwards, and how many rules were evaluated. -/
def FormValidator.validateField (v : FormValidator) (field : Field) (shown : Feedback) :
    Except JsError (Bool × Feedback × Nat) :=
  let fieldName := field.name
  let value := jsTrim field.value
  match v.rules.lookup fieldName with
  | none =>
    if (inheritedLabels.lookup fieldName).isSome then .error .typeError
    else .ok (true, shown, 0)
  | some rules =>
    match firstFailing value field rules with
    | some k =>
      .ok (false, showError ((v.messages.lookup fieldName).getD "undefined") shown, k + 1)
    | none => .ok (true, clearError shown, rules.length)

/-! ## Portfolio filter: calls interleaved with timers -/

/-- What happens to the portfolio over time: a call of `filterPortfolio`, or the
firing of one of the pending hide timers (the `k`-th one). -/
inductive FilterEvent where
  | call (filter : Option String) : FilterEvent
  | fire (k : Nat) : FilterEvent
deriving DecidableEq

/-- The `k`-th pending hide timer fires, if there is one. -/
def fireTimerAt (k : Nat) (g : Gallery) : Gallery :=
  match g.hideTimers[k]? with
  | none => g
  | some i =>
    { g with portfolioItems := hideIfHidden i g.portfolioItems,
             hideTimers := g.hideTimers.eraseIdx k }

/-- The given events happen, in order. -/
def runFilterEvents : List FilterEvent → Gallery → Except JsError Gallery
  | [], g => .ok g
  | .call filter :: events, g =>
    match filterPortfolio filter g with
    | .error e => .error e
    | .ok g1 => runFilterEvents events g1
  | .fire k :: events, g => runFilterEvents events (fireTimerAt k g)

/-- The state the filter `filter` calls for on an item whose `data-category` is
`c`: visible, or hidden and out of the layout. -/
def settledItem (filter : Option String) (c : String) : PortfolioItem :=
  if decide (filter = some "all") || includes c.data (attrText filter).data then
    { category := some c, hide := false, display := "block" }
  else { category := some c, hide := true, display := "none" }

/-- The items are as the filter `filter` calls for, up to hide timers that have
not fired yet; `orig` is a list of the same items at an earlier time (it tells the
`data-category` of each). -/
def AwaitsTimers (filter : Option String) (orig : List PortfolioItem) (g : Gallery) : Prop :=
  ∀ (i : Nat) (item : PortfolioItem) (c : String),
    orig[i]? = some item → item.category = some c →
    ∃ it, g.portfolioItems[i]? = some it ∧ it.category = some c ∧
      ((decide (filter = some "all") || includes c.data (attrText filter).data) = true →
        it.hide = false ∧ it.display = "block") ∧
      ((decide (filter = some "all") || includes c.data (attrText filter).data) = false →
        it.hide = true ∧ (it.display = "none" ∨ i ∈ g.hideTimers))

/-! ## Start-up -/

/-- The value of `document.readyState`. -/
inductive ReadyState where
  | loading : ReadyState
  | interactive : ReadyState
  | complete : ReadyState
deriving DecidableEq

/-- The `DOMContentLoaded` listeners the script registers. -/
inductive ReadyListener where
  /-- The function of lines 8-10, which calls `initializeApp`. -/
  | callsInitializeApp : ReadyListener
  /-- The function of lines 1424-1430, which sets up the advanced features. -/
  | advancedFeatures : ReadyListener
  /-- The function `initializeApp` itself, registered in line 1447. -/
  | initializeApp : ReadyListener
deriving DecidableEq

/-- The document, as far as start-up is concerned. -/
structure Document where
  /-- The property `readyState`. -/
  readyState : ReadyState
  /-- Whether `DOMContentLoaded` has been dispatched. -/
  contentLoadedDispatched : Bool
  /-- The `DOMContentLoaded` listeners, in the order of registration. -/
  listeners : List ReadyListener
  /-- How many times `initializeApp` has been called. -/
  initializeAppCalls : Nat
  /-- How many times the advanced features have been set up. -/
  advancedFeaturesCalls : Nat
deriving DecidableEq

/-- Models `document.addEventListener('DOMContentLoaded', listener)`: a listener
that is already registered is not registered again. -/
def Document.addEventListener (listener : ReadyListener) (d : Document) : Document :=
  if listener ∈ d.listeners then d else { d with listeners := d.listeners ++ [listener] }

/-- Models one call of `initializeApp()`. -/
def Document.initializeApp (d : Document) : Document :=
  { d with initializeAppCalls := d.initializeAppCalls + 1 }

/-- The top-level statements of the script that concern start-up, in order: lines
8-10, lines 1424-1430 and lines 1446-1450. -/
def evaluateScript (d : Document) : Document :=
  let d1 := d.addEventListener .callsInitializeApp
  let d2 := d1.addEventListener .advancedFeatures
  if d2.readyState = .loading then d2.addEventListener .initializeApp
  else d2.initializeApp

/-- One listener runs. -/
def runReadyListener (d : Document) (listener : ReadyListener) : Document :=
  match listener with
  | .callsInitializeApp => d.initializeApp
  | .advancedFeatures => { d with advancedFeaturesCalls := d.advancedFeaturesCalls + 1 }
  | .initializeApp => d.initializeApp

/-- The browser dispatches `DOMContentLoaded`, unless it has done so before: the
document is `interactive` and every registered listener runs, in order. -/
def dispatchContentLoaded (d : Document) : Document :=
  if d.contentLoadedDispatched then d
  else
    d.listeners.foldl runReadyListener
      { d with readyState := .interactive, contentLoadedDispatched := true }

/-- A page load in which the script is evaluated in the given state of the
document and the page then becomes ready. -/
def pageLoad (readyState : ReadyState) (contentLoadedDispatched : Bool) : Document :=
  dispatchContentLoaded (evaluateScript
    { readyState := readyState, contentLoadedDispatched := contentLoadedDispatched,
      listeners := [], initializeAppCalls := 0, advancedFeaturesCalls := 0 })

/-! ## The observers of a loaded page

Every run of `initializeApp` and of the listener that sets up the advanced
features creates its observers afresh, so an element can be watched by several
observers with the same callback. -/

/-- Models `initializeLazyLoading`: a new observer observing every `img[data-src]`. -/
def initializeLazyLoading (lazyImages : List Nat) : Observer :=
  newObserver lazyImages

/-- Models `createAnimationObserver`: a new observer observing every `[data-animate]`. -/
def createAnimationObserver (animatedElements : List Nat) : Observer :=
  newObserver animatedElements

/-- Models `initializeAdvancedImageLoading`: a new observer observing every
`img[data-src]`. -/
def initializeAdvancedImageLoading (images : List Nat) : Observer :=
  newObserver images

/-- Models the observer of `initializeAdvancedScrollEffects`: a new observer
observing every `[data-reveal]`. -/
def initializeAdvancedScrollEffects (revealElements : List Nat) : Observer :=
  newObserver revealElements

/-- The function that created an observer; it fixes the callback and the options
(root margin and thresholds). -/
inductive ObserverKind where
  | skills : ObserverKind
  | progressBars : ObserverKind
  | lazyLoading : ObserverKind
  | animation : ObserverKind
  | advancedImageLoading : ObserverKind
  | reveal : ObserverKind
deriving DecidableEq

/-- What the selectors of these functions find while the page starts up. -/
structure WatchedElements where
  /-- The element `document.getElementById('about')`, if there is one. -/
  skillsSection : Option Nat
  /-- The elements `.progress-bar[data-progress]`. -/
  progressBars : List Nat
  /-- The elements `img[data-src]`. -/
  lazyImages : List Nat
  /-- The elements `[data-animate]`. -/
  animatedElements : List Nat
  /-- The elements `[data-reveal]`. -/
  revealElements : List Nat

/-- The elements that an observer of the given kind is told to observe. -/
def WatchedElements.watchedBy (w : WatchedElements) : ObserverKind → List Nat
  | .skills => w.skillsSection.toList
  | .progressBars => w.progressBars
  | .lazyLoading => w.lazyImages
  | .animation => w.animatedElements
  | .advancedImageLoading => w.lazyImages
  | .reveal => w.revealElements

/-- An observer of the page with the function that created it. -/
structure PageObserver where
  kind : ObserverKind
  observer : Observer
deriving DecidableEq

/-- The observers one run of `initializeApp` creates, in order: `initializeSkills`
(which creates one only if the section exists), `initializeProgressBars` (called
by `initializeScrollEffects`) and `initializeLazyLoading`. -/
def initializeAppObservers (w : WatchedElements) : List PageObserver :=
  (match w.skillsSection with
    | some element => [PageObserver.mk .skills (initializeSkills (some element))]
    | none => []) ++
  [PageObserver.mk .progressBars (initializeProgressBars w.progressBars),
    PageObserver.mk .lazyLoading (initializeLazyLoading w.lazyImages)]

/-- The observers the listener of lines 1424-1430 creates, in order. -/
def advancedFeaturesObservers (w : WatchedElements) : List PageObserver :=
  [PageObserver.mk .animation (createAnimationObserver w.animatedElements),
    PageObserver.mk .advancedImageLoading (initializeAdvancedImageLoading w.lazyImages),
    PageObserver.mk .reveal (initializeAdvancedScrollEffects w.revealElements)]

/-- The observers a `DOMContentLoaded` listener creates when it runs. -/
def listenerObservers (w : WatchedElements) : ReadyListener → List PageObserver
  | .callsInitializeApp => initializeAppObservers w
  | .advancedFeatures => advancedFeaturesObservers w
  | .initializeApp => initializeAppObservers w

/-- The observers that exist after the page load `pageLoad readyState
contentLoadedDispatched`, in the order of their creation: those of the call of
`initializeApp` that the script makes itself when the document is not loading any
more, then those of the listeners that `DOMContentLoaded` runs. No intersection
is reported before start-up is over, so every run finds the same elements. -/
def pageLoadObservers (w : WatchedElements) (readyState : ReadyState)
    (contentLoadedDispatched : Bool) : List PageObserver :=
  let d := evaluateScript
    { readyState := readyState, contentLoadedDispatched := contentLoadedDispatched,
      listeners := [], initializeAppCalls := 0, advancedFeaturesCalls := 0 }
  (List.replicate d.initializeAppCalls (initializeAppObservers w)).flatten ++
    (if contentLoadedDispatched then [] else (d.listeners.map (listenerObservers w)).flatten)

/-- One round of intersection reports. The browser computes the intersections for
every observer with the options of that observer; observers created by the same
function have the same options and have observed the same elements since
start-up, so what is reported to one of them is reported to each. -/
def notifyPage (report : ObserverKind → Nat → Option Bool) (observers : List PageObserver) :
    List PageObserver :=
  observers.map (fun o => { o with observer := notify (report o.kind) o.observer })

/-- A sequence of rounds of intersection reports, in order. -/
def notifyPageAll :
    List (ObserverKind → Nat → Option Bool) → List PageObserver → List PageObserver
  | [], observers => observers
  | report :: reports, observers => notifyPageAll reports (notifyPage report observers)

/-- How many times the effect that the observers of a kind have in their callback
has run for an element. -/
def effectRuns (kind : ObserverKind) (t : Nat) (observers : List PageObserver) : Nat :=
  ((observers.filter (fun o => o.kind = kind)).map
    (fun o => o.observer.triggered.count t)).sum

/-! ## Submit event on the contact form -/

/-- Models `value.length`: the number of UTF-16 code units of the string. -/
def jsLength (s : String) : Nat :=
  (s.data.map (fun c => if c.toNat < 0x10000 then 1 else 2)).sum

/-- The rules `initializeAdvancedForms` registers on its new `FormValidator`. -/
def initializeAdvancedForms : Except JsError FormValidator := do
  let v ← FormValidator.new.addRule "firstName" (fun value _ => decide (jsLength value ≥ 2))
    "First name must be at least 2 characters"
  let v ← v.addRule "lastName" (fun value _ => decide (jsLength value ≥ 2))
    "Last name must be at least 2 characters"
  let v ← v.addRule "email" (fun value _ => emailRegex.test value)
    "Please enter a valid email address"
  let v ← v.addRule "subject" (fun value _ => decide (jsLength value ≥ 5))
    "Subject must be at least 5 characters"
  v.addRule "message" (fun value _ => decide (jsLength value ≥ 10))
    "Message must be at least 10 characters"

/-- The contact form as both of its submit listeners see it: the page, and for
each control the text of the `.invalid-feedback` element next to it (`none`: no
such element). -/
structure ContactFormDom where
  /-- The page of `handleContactFormSubmit`. -/
  page : Page
  /-- The feedback elements of `FormValidator`, one for each control. -/
  feedback : List (Option String)

/-- The part of `handleContactFormSubmit(e)` that runs before the `await`: the
page it leaves, whether a send has been started, and the exception if it threw. -/
def handleContactFormSubmitStart (p : Page) : Page × Bool × Option JsError :=
  let v := validateContactForm p
  if !v.1 then (v.2, false, none)
  else
    match setButtonLoading true v.2 with
    | .error e => (v.2, false, some e)
    | .ok p2 => (simulateFormSubmission p2, true, none)

/-- The part of `handleContactFormSubmit(e)`, and of the `onSubmit` that
`initializeAdvancedForms` installs, that runs once the send has settled. -/
def sendSettled (outcome : SendOutcome) (p : Page) : Except JsError Page :=
  setButtonLoading false
    (match outcome with
      | .resolved => formReset (showFormMessage "success" successText p)
      | .rejected => showFormMessage "error" errorText p)

/-- Models `validateForm()` of `FormValidator` over the controls from the given
one on: whether all were valid, the controls and feedback texts as left, and the
exception if `validateField` threw. -/
def FormValidator.validateForm (v : FormValidator) :
    List Field → List (Option String) → Bool × List Field × List (Option String) × Option JsError
  | [], feedback => (true, [], feedback, none)
  | field :: fields, feedback =>
    match v.validateField field { invalid := field.invalid, feedback := feedback.head?.join } with
    | .error e => (true, field :: fields, feedback, some e)
    | .ok (valid, shown, _) =>
      let r := v.validateForm fields feedback.tail
      (valid && r.1, { field with invalid := shown.invalid } :: r.2.1,
        shown.feedback :: r.2.2.1, r.2.2.2)

/-- Models `handleSubmit(e)` of `FormValidator` with the `onSubmit` that
`initializeAdvancedForms` installs, up to its `await`: the form it leaves and the
exception if it threw. -/
def FormValidator.handleSubmit (v : FormValidator) (s : ContactFormDom) :
    ContactFormDom × Option JsError :=
  let r := v.validateForm s.page.fields s.feedback
  let s1 : ContactFormDom := { page := { s.page with fields := r.2.1 }, feedback := r.2.2.1 }
  match r.2.2.2 with
  | some e => (s1, some e)
  | none =>
    if r.1 then
      match setButtonLoading true s1.page with
      | .error e => (s1, some e)
      | .ok p2 => ({ s1 with page := simulateFormSubmission p2 }, none)
    else (s1, none)

/-- One `submit` event on the contact form: the listener `handleContactFormSubmit`
runs up to its `await`, then the listener of the `FormValidator`. The result is
the form they leave and the exceptions they threw. -/
def dispatchSubmit (v : FormValidator) (s : ContactFormDom) : ContactFormDom × List JsError :=
  let a := handleContactFormSubmitStart s.page
  let b := v.handleSubmit { s with page := a.1 }
  (b.1, a.2.2.toList ++ b.2.toList)

/-- A contact form with the six controls of the site, all but the phone number
required, holding the given values; nothing has been sent yet. -/
def contactFormWith (firstName lastName email phone subject message : String) :
    ContactFormDom :=
  { page :=
      { fields :=
          [⟨"firstName", true, firstName, "", false⟩, ⟨"lastName", true, lastName, "", false⟩,
           ⟨"email", true, email, "", false⟩, ⟨"phone", false, phone, "", false⟩,
           ⟨"subject", true, subject, "", false⟩, ⟨"message", true, message, "", false⟩]
        errorElements := []
        submitButton := some ⟨false, false, some false, some true⟩
        notices := []
        nextNoticeId := 0
        removalTimers := []
        sendsStarted := 0 }
    feedback := [none, none, none, none, none, none] }

/-! ## Regular expressions: the matcher decides the language -/

namespace Regex

theorem matches_nothing (s : List Char) : ¬ Matches nothing s := by
  intro h; cases h

theorem matches_eps_iff (s : List Char) : Matches eps s ↔ s = [] := by
  constructor
  · intro h; cases h; rfl
  · rintro rfl; exact Matches.eps

theorem matches_cls_iff (p : Char → Bool) (s : List Char) :
    Matches (cls p) s ↔ ∃ c, s = [c] ∧ p c = true := by
  constructor
  · intro h; cases h with | cls hc => exact ⟨_, rfl, hc⟩
  · rintro ⟨c, rfl, hc⟩; exact Matches.cls hc

theorem matches_seq_iff (a b : Regex) (s : List Char) :
    Matches (seq a b) s ↔ ∃ u v, s = u ++ v ∧ Matches a u ∧ Matches b v := by
  constructor
  · intro h; cases h with | seq h1 h2 => exact ⟨_, _, rfl, h1, h2⟩
  · rintro ⟨u, v, rfl, h1, h2⟩; exact Matches.seq h1 h2

theorem matches_alt_iff (a b : Regex) (s : List Char) :
    Matches (alt a b) s ↔ Matches a s ∨ Matches b s := by
  constructor
  · intro h
    cases h with
    | altL h => exact Or.inl h
    | altR h => exact Or.inr h
  · rintro (h | h)
    · exact Matches.altL h
    · exact Matches.altR h

theorem matches_star_cons_aux {r : Regex} {x : List Char} (h : Matches r x) :
    ∀ (a : Regex) (c : Char) (s : List Char), r = star a → x = c :: s →
      ∃ u v, s = u ++ v ∧ Matches a (c :: u) ∧ Matches (star a) v := by
  induction h with
  | eps => intro a c s hr; cases hr
  | cls _ => intro a c s hr; cases hr
  | seq _ _ _ _ => intro a c s hr; cases hr
  | altL _ _ => intro a c s hr; cases hr
  | altR _ _ => intro a c s hr; cases hr
  | starNil => intro a c s _ hx; cases hx
  | @starCons a0 s0 t0 h1 h2 _ ih2 =>
    intro a c s hr hx
    cases hr
    cases s0 with
    | nil => exact ih2 _ c s rfl (by simpa using hx)
    | cons d u =>
      simp only [List.cons_append, List.cons.injEq] at hx
      obtain ⟨rfl, rfl⟩ := hx
      exact ⟨u, t0, rfl, h1, h2⟩

theorem matches_star_cons_iff (a : Regex) (c : Char) (s : List Char) :
    Matches (star a) (c :: s) ↔
      ∃ u v, s = u ++ v ∧ Matches a (c :: u) ∧ Matches (star a) v := by
  constructor
  · intro h; exact matches_star_cons_aux h a c s rfl rfl
  · rintro ⟨u, v, rfl, h1, h2⟩
    have := Matches.starCons h1 h2
    simpa using this

theorem nullable_iff (r : Regex) : nullable r = true ↔ Matches r [] := by
  induction r with
  | nothing => simp [nullable, matches_nothing]
  | eps => simp [nullable, matches_eps_iff]
  | cls p => simp [nullable, matches_cls_iff]
  | seq a b iha ihb =>
    simp only [nullable, Bool.and_eq_true, iha, ihb, matches_seq_iff]
    constructor
    · rintro ⟨h1, h2⟩; exact ⟨[], [], rfl, h1, h2⟩
    · rintro ⟨u, v, huv, h1, h2⟩
      have hu : u = [] := by
        cases u with
        | nil => rfl
        | cons _ _ => simp at huv
      have hv : v = [] := by
        cases v with
        | nil => rfl
        | cons _ _ => simp at huv
      subst hu; subst hv; exact ⟨h1, h2⟩
  | alt a b iha ihb => simp [nullable, iha, ihb, matches_alt_iff]
  | star a _ => simp [nullable, Matches.starNil]

theorem deriv_iff (r : Regex) : ∀ (c : Char) (s : List Char),
    Matches (deriv r c) s ↔ Matches r (c :: s) := by
  induction r with
  | nothing => intro c s; simp [deriv, matches_nothing]
  | eps => intro c s; simp [deriv, matches_nothing, matches_eps_iff]
  | cls p =>
    intro c s
    by_cases hp : p c = true
    · rw [deriv, if_pos hp, matches_eps_iff, matches_cls_iff]
      constructor
      · rintro rfl; exact ⟨c, rfl, hp⟩
      · rintro ⟨d, hd, _⟩
        simp only [List.cons.injEq] at hd
        exact hd.2
    · rw [deriv, if_neg hp, matches_cls_iff]
      constructor
      · intro h; exact absurd h (matches_nothing s)
      · rintro ⟨d, hd, hpd⟩
        simp only [List.cons.injEq] at hd
        obtain ⟨rfl, _⟩ := hd
        exact absurd hpd hp
  | seq a b iha ihb =>
    intro c s
    have key : Matches (seq a b) (c :: s) ↔
        (∃ u v, s = u ++ v ∧ Matches a (c :: u) ∧ Matches b v) ∨
        (Matches a [] ∧ Matches b (c :: s)) := by
      rw [matches_seq_iff]
      constructor
      · rintro ⟨u, v, huv, h1, h2⟩
        cases u with
        | nil => right; simp at huv; subst huv; exact ⟨h1, h2⟩
        | cons d u =>
          simp only [List.cons_append, List.cons.injEq] at huv
          obtain ⟨rfl, rfl⟩ := huv
          exact Or.inl ⟨u, v, rfl, h1, h2⟩
      · rintro (⟨u, v, rfl, h1, h2⟩ | ⟨h1, h2⟩)
        · exact ⟨c :: u, v, rfl, h1, h2⟩
        · exact ⟨[], c :: s, rfl, h1, h2⟩
    rw [key]
    by_cases hn : nullable a = true
    · rw [deriv, if_pos hn, matches_alt_iff, matches_seq_iff, ihb]
      have h0 := (nullable_iff a).1 hn
      constructor
      · rintro (⟨u, v, rfl, h1, h2⟩ | h)
        · exact Or.inl ⟨u, v, rfl, (iha c u).1 h1, h2⟩
        · exact Or.inr ⟨h0, h⟩
      · rintro (⟨u, v, rfl, h1, h2⟩ | ⟨_, h⟩)
        · exact Or.inl ⟨u, v, rfl, (iha c u).2 h1, h2⟩
        · exact Or.inr h
    · rw [deriv, if_neg hn, matches_seq_iff]
      have h0 : ¬ Matches a [] := fun h => hn ((nullable_iff a).2 h)
      constructor
      · rintro ⟨u, v, rfl, h1, h2⟩
        exact Or.inl ⟨u, v, rfl, (iha c u).1 h1, h2⟩
      · rintro (⟨u, v, rfl, h1, h2⟩ | ⟨h, _⟩)
        · exact ⟨u, v, rfl, (iha c u).2 h1, h2⟩
        · exact absurd h h0
  | alt a b iha ihb => intro c s; simp [deriv, matches_alt_iff, iha, ihb]
  | star a iha =>
    intro c s
    simp only [deriv, matches_seq_iff, iha, matches_star_cons_iff]

theorem matchList_iff (s : List Char) : ∀ r : Regex, matchList r s = true ↔ Matches r s := by
  induction s with
  | nil => intro r; simpa [matchList] using nullable_iff r
  | cons c cs ih => intro r; simp only [matchList, ih, deriv_iff]

theorem matches_plus_cls_iff (p : Char → Bool) (s : List Char) :
    Matches (plus (cls p)) s ↔ s ≠ [] ∧ ∀ c ∈ s, p c = true := by
  have hstar : ∀ t : List Char, Matches (star (cls p)) t ↔ ∀ c ∈ t, p c = true := by
    intro t
    induction t with
    | nil => simp [Matches.starNil]
    | cons d t ih =>
      rw [matches_star_cons_iff]
      constructor
      · rintro ⟨u, v, rfl, h1, h2⟩
        rw [matches_cls_iff] at h1
        obtain ⟨e, he, hpe⟩ := h1
        simp only [List.cons.injEq] at he
        obtain ⟨rfl, rfl⟩ := he
        intro c hc
        simp only [List.nil_append, List.mem_cons] at hc
        rcases hc with rfl | hc
        · exact hpe
        · exact (ih.1 (by simpa using h2)) c hc
      · intro h
        refine ⟨[], t, rfl, (matches_cls_iff _ _).2 ⟨d, rfl, h d (List.mem_cons_self _ _)⟩, ?_⟩
        exact ih.2 (fun c hc => h c (List.mem_cons_of_mem _ hc))
  unfold plus
  rw [matches_seq_iff]
  constructor
  · rintro ⟨u, v, rfl, h1, h2⟩
    rw [matches_cls_iff] at h1
    obtain ⟨e, rfl, hpe⟩ := h1
    refine ⟨by simp, ?_⟩
    intro c hc
    simp only [List.singleton_append, List.mem_cons] at hc
    rcases hc with rfl | hc
    · exact hpe
    · exact (hstar v).1 h2 c hc
  · rintro ⟨hne, h⟩
    cases s with
    | nil => exact absurd rfl hne
    | cons d t =>
      exact ⟨[d], t, rfl, (matches_cls_iff _ _).2 ⟨d, rfl, h d (List.mem_cons_self _ _)⟩,
        (hstar t).2 (fun c hc => h c (List.mem_cons_of_mem _ hc))⟩

theorem matches_upTo_cls_iff (p : Char → Bool) (n : Nat) (s : List Char) :
    Matches (upTo n (cls p)) s ↔ s.length ≤ n ∧ ∀ c ∈ s, p c = true := by
  induction n generalizing s with
  | zero =>
    simp only [upTo, matches_eps_iff, Nat.le_zero, List.length_eq_zero]
    constructor
    · rintro rfl; simp
    · exact fun h => h.1
  | succ n ih =>
    simp only [upTo, opt, matches_alt_iff, matches_eps_iff, matches_seq_iff, matches_cls_iff, ih]
    constructor
    · rintro (rfl | ⟨u, v, rfl, ⟨c, rfl, hc⟩, hv, hall⟩)
      · simp
      · refine ⟨by simp; omega, ?_⟩
        intro d hd
        simp only [List.singleton_append, List.mem_cons] at hd
        rcases hd with rfl | hd
        · exact hc
        · exact hall d hd
    · rintro ⟨hlen, hall⟩
      cases s with
      | nil => exact Or.inl rfl
      | cons d t =>
        right
        refine ⟨[d], t, rfl, ⟨d, rfl, hall d (List.mem_cons_self _ _)⟩, ?_, ?_⟩
        · simp at hlen; omega
        · exact fun c hc => hall c (List.mem_cons_of_mem _ hc)

end Regex

/-! ## The two patterns -/

theorem emailRegex_matches_iff (l : List Char) :
    Regex.Matches emailRegex l ↔
      ∃ a b c, l = a ++ '@' :: (b ++ '.' :: c) ∧ a ≠ [] ∧ b ≠ [] ∧ c ≠ [] ∧
        (∀ x ∈ a, notSpaceAt x = true) ∧ (∀ x ∈ b, notSpaceAt x = true) ∧
        (∀ x ∈ c, notSpaceAt x = true) := by
  unfold emailRegex
  simp only [Regex.matches_seq_iff, Regex.matches_plus_cls_iff, Regex.matches_cls_iff,
    beq_iff_eq]
  constructor
  · rintro ⟨a, r1, rfl, ⟨ha, hall⟩, u1, r2, rfl, ⟨x, rfl, rfl⟩, b, r3, rfl, ⟨hb, hbll⟩,
      u2, c, rfl, ⟨y, rfl, rfl⟩, hc, hcll⟩
    exact ⟨a, b, c, by simp, ha, hb, hc, hall, hbll, hcll⟩
  · rintro ⟨a, b, c, rfl, ha, hb, hc, hall, hbll, hcll⟩
    exact ⟨a, _, rfl, ⟨ha, hall⟩, ['@'], _, rfl, ⟨'@', rfl, rfl⟩, b, _, rfl, ⟨hb, hbll⟩,
      ['.'], c, rfl, ⟨'.', rfl, rfl⟩, hc, hcll⟩

theorem phoneRegex_matches_iff (l : List Char) :
    Regex.Matches phoneRegex l ↔
      ∃ sign d rest, l = sign ++ d :: rest ∧ (sign = [] ∨ sign = ['+']) ∧
        isDigit19 d = true ∧ rest.length ≤ 15 ∧ ∀ c ∈ rest, isDigit c = true := by
  unfold phoneRegex
  simp only [Regex.matches_seq_iff, Regex.opt, Regex.matches_alt_iff, Regex.matches_eps_iff,
    Regex.matches_upTo_cls_iff, Regex.matches_cls_iff, beq_iff_eq]
  constructor
  · rintro ⟨sign, r1, rfl, hs, u, rest, rfl, ⟨d, rfl, hd⟩, hlen, hall⟩
    refine ⟨sign, d, rest, by simp, ?_, hd, hlen, hall⟩
    rcases hs with rfl | ⟨x, rfl, rfl⟩
    · exact Or.inl rfl
    · exact Or.inr rfl
  · rintro ⟨sign, d, rest, rfl, hs, hd, hlen, hall⟩
    refine ⟨sign, _, rfl, ?_, [d], rest, rfl, ⟨d, rfl, hd⟩, hlen, hall⟩
    rcases hs with rfl | rfl
    · exact Or.inl rfl
    · exact Or.inr ⟨'+', rfl, rfl⟩

theorem notSpaceAt_iff (x : Char) : notSpaceAt x = true ↔ isJsSpace x = false ∧ x ≠ '@' := by
  simp [notSpaceAt]

theorem localPart_append (a r : List Char) (ha : ∀ x ∈ a, x ≠ '@') :
    localPart (a ++ '@' :: r) = a := by
  induction a with
  | nil => simp [localPart]
  | cons c t ih =>
    have hc : c ≠ '@' := ha c (List.mem_cons_self _ _)
    have ht := ih (fun x hx => ha x (List.mem_cons_of_mem _ hx))
    simp only [localPart] at ht
    simp [localPart, List.takeWhile_cons, hc, ht]

theorem domainPart_append (a r : List Char) (ha : ∀ x ∈ a, x ≠ '@') :
    domainPart (a ++ '@' :: r) = r := by
  induction a with
  | nil => simp [domainPart]
  | cons c t ih =>
    have hc : c ≠ '@' := ha c (List.mem_cons_self _ _)
    have ht := ih (fun x hx => ha x (List.mem_cons_of_mem _ hx))
    simp only [domainPart] at ht
    simp [domainPart, List.dropWhile_cons, hc, ht]

theorem split_at_first_at (l : List Char) (h : '@' ∈ l) :
    l = localPart l ++ '@' :: domainPart l ∧ ∀ x ∈ localPart l, x ≠ '@' := by
  induction l with
  | nil => simp at h
  | cons c t ih =>
    by_cases hc : c = '@'
    · subst hc
      simp [localPart, domainPart]
    · have ht : '@' ∈ t := by
        rcases List.mem_cons.1 h with h1 | h1
        · exact absurd h1.symm hc
        · exact h1
      obtain ⟨h1, h2⟩ := ih ht
      have e1 : localPart (c :: t) = c :: localPart t := by
        simp [localPart, List.takeWhile_cons, hc]
      have e2 : domainPart (c :: t) = domainPart t := by
        simp [domainPart, List.dropWhile_cons, hc]
      rw [e1, e2]
      refine ⟨by rw [List.cons_append, ← h1], ?_⟩
      intro x hx
      rcases List.mem_cons.1 hx with rfl | hx
      · exact hc
      · exact h2 x hx

/-- C4: the email pattern accepts a string exactly when the string holds no
whitespace character, holds exactly one `@`, has a non-empty part before the `@`,
and the part after the `@` has a `.` that is neither its first nor its last
character. -/
theorem emailRegex_test_iff (s : String) :
    emailRegex.test s = true ↔
      (∀ c ∈ s.data, isJsSpace c = false) ∧ s.data.count '@' = 1 ∧ localPart s.data ≠ [] ∧
      ∃ i, 0 < i ∧ i + 1 < (domainPart s.data).length ∧ (domainPart s.data)[i]? = some '.' := by
  unfold Regex.test
  rw [Regex.matchList_iff, emailRegex_matches_iff]
  generalize s.data = l
  constructor
  · rintro ⟨a, b, c, rfl, ha, hb, hc, hall, hbll, hcll⟩
    have ha' : ∀ x ∈ a, x ≠ '@' := fun x hx => ((notSpaceAt_iff x).1 (hall x hx)).2
    have hb' : ∀ x ∈ b, x ≠ '@' := fun x hx => ((notSpaceAt_iff x).1 (hbll x hx)).2
    have hc' : ∀ x ∈ c, x ≠ '@' := fun x hx => ((notSpaceAt_iff x).1 (hcll x hx)).2
    refine ⟨?_, ?_, ?_, ?_⟩
    · intro x hx
      simp only [List.mem_append, List.mem_cons] at hx
      rcases hx with hx | rfl | hx | rfl | hx
      · exact ((notSpaceAt_iff x).1 (hall x hx)).1
      · decide
      · exact ((notSpaceAt_iff x).1 (hbll x hx)).1
      · decide
      · exact ((notSpaceAt_iff x).1 (hcll x hx)).1
    · have ca : a.count '@' = 0 := List.count_eq_zero.2 (fun h => ha' _ h rfl)
      have cb : b.count '@' = 0 := List.count_eq_zero.2 (fun h => hb' _ h rfl)
      have cc : c.count '@' = 0 := List.count_eq_zero.2 (fun h => hc' _ h rfl)
      have hdot : ('.' == '@') = false := by decide
      simp [List.count_append, List.count_cons, ca, cb, cc, hdot]
    · rw [localPart_append a _ ha']; exact ha
    · rw [domainPart_append a _ ha']
      refine ⟨b.length, List.length_pos.2 hb, ?_, ?_⟩
      · have := List.length_pos.2 hc
        simp only [List.length_append, List.length_cons]; omega
      · rw [List.getElem?_append_right (le_refl _)]
        simp
  · rintro ⟨hsp, hcount, hloc, i, hi0, hi1, hdot⟩
    have hmem : '@' ∈ l := by
      by_contra h
      rw [List.count_eq_zero.2 h] at hcount
      exact absurd hcount (by decide)
    obtain ⟨hsplit, hla⟩ := split_at_first_at l hmem
    have hcd : (domainPart l).count '@' = 0 := by
      have ca : (localPart l).count '@' = 0 := List.count_eq_zero.2 (fun h => hla _ h rfl)
      have := hcount
      rw [hsplit] at this
      simp only [List.count_append, List.count_cons, ca, beq_self_eq_true, if_true] at this
      omega
    have hd' : ∀ x ∈ domainPart l, x ≠ '@' := by
      intro x hx hxe
      subst hxe
      exact (List.count_eq_zero.1 hcd) hx
    have hlt : i < (domainPart l).length := by omega
    have hget : (domainPart l)[i] = '.' := by
      rw [List.getElem?_eq_getElem hlt] at hdot
      exact Option.some.inj hdot
    have hdsplit : domainPart l = (domainPart l).take i ++ '.' :: (domainPart l).drop (i + 1) := by
      conv_lhs => rw [← List.take_append_drop i (domainPart l)]
      rw [List.drop_eq_getElem_cons hlt, hget]
    have hspace : ∀ x ∈ l, isJsSpace x = false := hsp
    have hmemd : ∀ x ∈ domainPart l, x ∈ l := by
      intro x hx
      rw [hsplit]
      exact List.mem_append_right _ (List.mem_cons_of_mem _ hx)
    have hmema : ∀ x ∈ localPart l, x ∈ l := by
      intro x hx
      rw [hsplit]
      exact List.mem_append_left _ hx
    refine ⟨localPart l, (domainPart l).take i, (domainPart l).drop (i + 1), ?_, hloc, ?_, ?_,
      ?_, ?_, ?_⟩
    · rw [← hdsplit]; exact hsplit
    · intro h
      have := congrArg List.length h
      simp only [List.length_take, List.length_nil] at this
      omega
    · intro h
      have := congrArg List.length h
      simp only [List.length_drop, List.length_nil] at this
      omega
    · intro x hx
      exact (notSpaceAt_iff x).2 ⟨hspace x (hmema x hx), hla x hx⟩
    · intro x hx
      have hx' := List.mem_of_mem_take hx
      exact (notSpaceAt_iff x).2 ⟨hspace x (hmemd x hx'), hd' x hx'⟩
    · intro x hx
      have hx' := List.mem_of_mem_drop hx
      exact (notSpaceAt_iff x).2 ⟨hspace x (hmemd x hx'), hd' x hx'⟩


/-! ## Field validation -/

theorem validateFieldResult_false_iff (f : Field) :
    (validateFieldResult f).1 = false ↔
      (f.required = true ∧ truthy (jsTrim f.value) = false) ∨
      (f.name = "email" ∧ truthy (jsTrim f.value) = true ∧
        emailRegex.test (jsTrim f.value) = false) ∨
      (f.name = "phone" ∧ truthy (jsTrim f.value) = true ∧
        phoneRegex.test (stripPhoneSeparators (jsTrim f.value)) = false) := by
  have hne : ¬ ("email" = "phone") := by decide
  simp only [validateFieldResult]
  generalize truthy (jsTrim f.value) = tv
  generalize emailRegex.test (jsTrim f.value) = em
  generalize phoneRegex.test (stripPhoneSeparators (jsTrim f.value)) = ph
  generalize f.required = rq
  by_cases he : f.name = "email"
  · have hp : ¬ (f.name = "phone") := by rw [he]; exact hne
    cases rq <;> cases tv <;> cases em <;> simp [he, hne]
  · by_cases hp : f.name = "phone"
    · cases rq <;> cases tv <;> cases ph <;> simp [he, hp]
    · cases rq <;> cases tv <;> simp [he, hp]

theorem validation_rules_exclusive (f : Field) :
    ¬ ((f.required = true ∧ truthy (jsTrim f.value) = false) ∧
        (f.name = "email" ∧ truthy (jsTrim f.value) = true ∧
          emailRegex.test (jsTrim f.value) = false)) ∧
    ¬ ((f.required = true ∧ truthy (jsTrim f.value) = false) ∧
        (f.name = "phone" ∧ truthy (jsTrim f.value) = true ∧
          phoneRegex.test (stripPhoneSeparators (jsTrim f.value)) = false)) ∧
    ¬ ((f.name = "email" ∧ truthy (jsTrim f.value) = true ∧
          emailRegex.test (jsTrim f.value) = false) ∧
        (f.name = "phone" ∧ truthy (jsTrim f.value) = true ∧
          phoneRegex.test (stripPhoneSeparators (jsTrim f.value)) = false)) := by
  have hne : ¬ ("email" = "phone") := by decide
  refine ⟨?_, ?_, ?_⟩
  · rintro ⟨⟨_, h0⟩, _, h1, _⟩
    rw [h0] at h1
    exact absurd h1 (by decide)
  · rintro ⟨⟨_, h0⟩, _, h1, _⟩
    rw [h0] at h1
    exact absurd h1 (by decide)
  · rintro ⟨⟨he, _⟩, hp, _⟩
    exact hne (he.symm.trans hp)

theorem validateFieldResult_required_empty (f : Field) (hr : f.required = true)
    (hv : truthy (jsTrim f.value) = false) :
    validateFieldResult f = (false, getFieldLabel f.name ++ " is required.") := by
  simp only [validateFieldResult]
  simp [hr, hv]

theorem getFieldLabel_unknown (n : String) (h1 : labels.lookup n = none)
    (h2 : inheritedLabels.lookup n = none) : getFieldLabel n = n := by
  simp [getFieldLabel, h1, h2]

/-- C3, at the failing input: a required, empty field named `constructor` is
rejected, but the label in its message is not the raw field name; it is the text
of the member the object literal `labels` inherits under that name. -/
theorem validateField_label_inherited_member :
    validateFieldResult
        { name := "constructor", required := true, value := "", defaultValue := "",
          invalid := false } =
      (false, "function Object() \x7b [native code] \x7d is required.") ∧
    getFieldLabel "constructor" ≠ "constructor" ∧
    labels.lookup "constructor" = none := by
  decide

/-- C5: for a field named `phone` whose trimmed value is non-empty, validation
succeeds exactly when the value without whitespace, hyphens and parentheses is an
optional `+`, one digit 1-9 and at most 15 further decimal digits; a field named
`phone` that is not required and whose trimmed value is empty is accepted. -/
theorem phone_field_valid_iff (f : Field) (hname : f.name = "phone") :
    (truthy (jsTrim f.value) = true →
      ((validateFieldResult f).1 = true ↔
        ∃ sign d rest,
          (stripPhoneSeparators (jsTrim f.value)).data = sign ++ d :: rest ∧
          (sign = [] ∨ sign = ['+']) ∧ isDigit19 d = true ∧ rest.length ≤ 15 ∧
          ∀ c ∈ rest, isDigit c = true)) ∧
    (truthy (jsTrim f.value) = false → f.required = false →
      (validateFieldResult f).1 = true) := by
  have hne : ¬ ("phone" = "email") := by decide
  constructor
  · intro hv
    rw [← phoneRegex_matches_iff, ← Regex.matchList_iff]
    have h := validateFieldResult_false_iff f
    simp only [hname, hv, hne, false_and, and_false, true_and, or_false, false_or] at h
    unfold Regex.test at h
    cases hres : (validateFieldResult f).1 <;>
      cases hm : Regex.matchList phoneRegex (stripPhoneSeparators (jsTrim f.value)).data <;>
      simp_all
  · intro hv hr
    have h := validateFieldResult_false_iff f
    simp only [hname, hv, hr, hne, false_and, and_false, or_false] at h
    cases hres : (validateFieldResult f).1
    · exact absurd (h.1 hres) (by simp)
    · rfl

theorem phone_field_valid_iff_witness :
    (validateFieldResult ⟨"phone", false, "+1 (555) 123-4567", "", false⟩).1 = true ↔
      ∃ sign d rest,
        (stripPhoneSeparators (jsTrim "+1 (555) 123-4567")).data = sign ++ d :: rest ∧
        (sign = [] ∨ sign = ['+']) ∧ isDigit19 d = true ∧ rest.length ≤ 15 ∧
        ∀ c ∈ rest, isDigit c = true :=
  (phone_field_valid_iff ⟨"phone", false, "+1 (555) 123-4567", "", false⟩ rfl).1 (by decide)


/-! ## Validation leaves everything but the error markers alone -/

theorem setTextContent_erase (id text : String) (es : List (String × String)) :
    (setTextContent id text es).map (fun e => (e.1, "")) = es.map (fun e => (e.1, "")) := by
  induction es with
  | nil => rfl
  | cons e es ih =>
    unfold setTextContent
    split
    · simp
    · simp [ih]

theorem set_invalid_erase (l : List Field) (i : Nat) (f : Field) (b : Bool)
    (h : l[i]? = some f) :
    (l.set i { f with invalid := b }).map (fun f => { f with invalid := false }) =
      l.map (fun f => { f with invalid := false }) := by
  induction l generalizing i with
  | nil => rfl
  | cons g l ih =>
    cases i with
    | zero =>
      simp only [List.getElem?_cons_zero, Option.some.injEq] at h
      subst h
      simp
    | succ i =>
      simp only [List.getElem?_cons_succ] at h
      simp [ih i h]

theorem showFieldError_eraseMarkers (i : Nat) (m : String) (p : Page) :
    (showFieldError i m p).eraseMarkers = p.eraseMarkers := by
  unfold showFieldError
  cases h : p.fields[i]? with
  | none => rfl
  | some f =>
    simp only [Page.eraseMarkers, setTextContent_erase, set_invalid_erase _ _ _ _ h]

theorem clearFieldError_eraseMarkers (i : Nat) (p : Page) :
    (clearFieldError i p).eraseMarkers = p.eraseMarkers := by
  unfold clearFieldError
  cases h : p.fields[i]? with
  | none => rfl
  | some f =>
    simp only [Page.eraseMarkers, setTextContent_erase, set_invalid_erase _ _ _ _ h]

theorem validateField_eraseMarkers (i : Nat) (p : Page) :
    (validateField i p).2.eraseMarkers = p.eraseMarkers := by
  unfold validateField
  cases h : p.fields[i]? with
  | none => rfl
  | some f =>
    simp only []
    split
    · exact clearFieldError_eraseMarkers i p
    · exact showFieldError_eraseMarkers i _ p

theorem fieldVerdict_eq (p : Page) (i : Nat) :
    fieldVerdict p i =
      match p.fields[i]? with
      | none => true
      | some f => (validateFieldResult f).1 := by
  unfold fieldVerdict validateField
  cases h : p.fields[i]? with
  | none => rfl
  | some f =>
    simp only []
    split <;> simp_all

theorem fieldVerdict_congr (p q : Page) (h : p.eraseMarkers = q.eraseMarkers) (i : Nat) :
    fieldVerdict p i = fieldVerdict q i := by
  have hf : p.fields.map (fun f => { f with invalid := false }) =
      q.fields.map (fun f => { f with invalid := false }) := congrArg Page.fields h
  have hi := congrArg (fun l => l[i]?) hf
  simp only [List.getElem?_map] at hi
  rw [fieldVerdict_eq, fieldVerdict_eq]
  cases hp : p.fields[i]? with
  | none =>
    cases hq : q.fields[i]? with
    | none => rfl
    | some g => rw [hp, hq] at hi; simp at hi
  | some f =>
    cases hq : q.fields[i]? with
    | none => rw [hp, hq] at hi; simp at hi
    | some g =>
      rw [hp, hq] at hi
      simp only [Option.map_some', Option.some.injEq] at hi
      have e1 : validateFieldResult f = validateFieldResult { f with invalid := false } := rfl
      have e2 : validateFieldResult g = validateFieldResult { g with invalid := false } := rfl
      simp only [e1, e2, hi]

theorem validateEach_spec (is : List Nat) : ∀ (b : Bool) (p : Page),
    (validateEach is (b, p)).2.eraseMarkers = p.eraseMarkers ∧
    (validateEach is (b, p)).1 = (b && is.all (fieldVerdict p)) := by
  induction is with
  | nil => intro b p; simp [validateEach]
  | cons i is ih =>
    intro b p
    simp only [validateEach]
    obtain ⟨h1, h2⟩ := ih (if !(validateField i p).1 then false else b) (validateField i p).2
    have he := validateField_eraseMarkers i p
    refine ⟨h1.trans he, ?_⟩
    rw [h2]
    have hfun : fieldVerdict (validateField i p).2 = fieldVerdict p :=
      funext (fun j => fieldVerdict_congr _ _ he j)
    have hall : is.all (fieldVerdict (validateField i p).2) = is.all (fieldVerdict p) := by
      rw [hfun]
    rw [hall, List.all_cons]
    show _ = (b && (fieldVerdict p i && _))
    unfold fieldVerdict
    cases (validateField i p).1 <;> cases b <;> simp

theorem validateContactForm_eraseMarkers (p : Page) :
    (validateContactForm p).2.eraseMarkers = p.eraseMarkers :=
  (validateEach_spec (requiredFields p) true p).1

theorem validateContactForm_verdict (p : Page) :
    (validateContactForm p).1 = (requiredFields p).all (fieldVerdict p) := by
  have := (validateEach_spec (requiredFields p) true p).2
  simpa [validateContactForm] using this

theorem mem_requiredFields (p : Page) (i : Nat) :
    i ∈ requiredFields p ↔ ∃ f, p.fields[i]? = some f ∧ f.required = true := by
  unfold requiredFields
  simp only [List.mem_filter, List.mem_range]
  constructor
  · rintro ⟨hlt, hr⟩
    rw [List.getElem?_eq_getElem hlt] at hr
    exact ⟨p.fields[i], List.getElem?_eq_getElem hlt, by simpa using hr⟩
  · rintro ⟨f, hf, hr⟩
    obtain ⟨hlt, _⟩ := List.getElem?_eq_some.1 hf
    refine ⟨hlt, ?_⟩
    rw [hf]; simpa using hr

theorem validateContactForm_accepts_iff (p : Page) :
    (validateContactForm p).1 = true ↔
      ∀ i f, p.fields[i]? = some f → f.required = true → fieldVerdict p i = true := by
  rw [validateContactForm_verdict, List.all_eq_true]
  constructor
  · intro h i f hf hr
    exact h i ((mem_requiredFields p i).2 ⟨f, hf, hr⟩)
  · intro h i hi
    obtain ⟨f, hf, hr⟩ := (mem_requiredFields p i).1 hi
    exact h i f hf hr

/-- C2, as the code has it: the form is reported valid exactly when
`validateField` accepts every control that carries the `required` attribute;
controls without it (an optional phone field, an email field that is not
required) are not consulted. -/
theorem validateContactForm_true_iff (p : Page) :
    (validateContactForm p).1 = true ↔
      ∀ i f, p.fields[i]? = some f → f.required = true → (validateField i p).1 = true := by
  have h := validateContactForm_accepts_iff p
  unfold fieldVerdict at h
  exact h

/-- C2, counterexample: a form whose only control is an optional phone field
holding `abc` is reported valid although `validateField` rejects that field. -/
theorem validateContactForm_skips_optional_phone :
    (validateContactForm
      { fields := [⟨"phone", false, "abc", "", false⟩], errorElements := [],
        submitButton := none, notices := [], nextNoticeId := 0, removalTimers := [],
        sendsStarted := 0 }).1 = true ∧
    (validateField 0
      { fields := [⟨"phone", false, "abc", "", false⟩], errorElements := [],
        submitButton := none, notices := [], nextNoticeId := 0, removalTimers := [],
        sendsStarted := 0 }).1 = false := by
  decide


/-! ## Submission -/

theorem eraseMarkers_fields_value {p q : Page} (h : p.eraseMarkers = q.eraseMarkers) :
    p.fields.map Field.value = q.fields.map Field.value := by
  have hf := congrArg (fun r : Page => r.fields.map Field.value) h
  simpa [Page.eraseMarkers, List.map_map, Function.comp_def] using hf

theorem eraseMarkers_fields_defaultValue {p q : Page} (h : p.eraseMarkers = q.eraseMarkers) :
    p.fields.map Field.defaultValue = q.fields.map Field.defaultValue := by
  have hf := congrArg (fun r : Page => r.fields.map Field.defaultValue) h
  simpa [Page.eraseMarkers, List.map_map, Function.comp_def] using hf

theorem eraseMarkers_fields_name {p q : Page} (h : p.eraseMarkers = q.eraseMarkers) :
    p.fields.map Field.name = q.fields.map Field.name := by
  have hf := congrArg (fun r : Page => r.fields.map Field.name) h
  simpa [Page.eraseMarkers, List.map_map, Function.comp_def] using hf

theorem eraseMarkers_sendsStarted {p q : Page} (h : p.eraseMarkers = q.eraseMarkers) :
    p.sendsStarted = q.sendsStarted := by
  have hf := congrArg Page.sendsStarted h
  exact hf

theorem eraseMarkers_submitButton {p q : Page} (h : p.eraseMarkers = q.eraseMarkers) :
    p.submitButton = q.submitButton := by
  have hf := congrArg Page.submitButton h
  exact hf

theorem eraseMarkers_notices {p q : Page} (h : p.eraseMarkers = q.eraseMarkers) :
    p.notices = q.notices := by
  have hf := congrArg Page.notices h
  exact hf

theorem eraseMarkers_removalTimers {p q : Page} (h : p.eraseMarkers = q.eraseMarkers) :
    p.removalTimers = q.removalTimers := by
  have hf := congrArg Page.removalTimers h
  exact hf

theorem eraseMarkers_nextNoticeId {p q : Page} (h : p.eraseMarkers = q.eraseMarkers) :
    p.nextNoticeId = q.nextNoticeId := by
  have hf := congrArg Page.nextNoticeId h
  exact hf

/-- C1: when `validateField` rejects at least one required control, the submit
handler returns normally and the page differs from the page before in error
markers only: no send is started, the submit button is untouched, no notice is
shown or removed, and every control keeps its value. -/
theorem submit_blocked_when_required_field_invalid (outcome : SendOutcome) (p : Page)
    (h : ∃ i f, p.fields[i]? = some f ∧ f.required = true ∧ (validateField i p).1 = false) :
    ∃ p', handleContactFormSubmit outcome p = .ok p' ∧
      p'.eraseMarkers = p.eraseMarkers ∧
      p'.sendsStarted = p.sendsStarted ∧
      p'.submitButton = p.submitButton ∧
      p'.notices = p.notices ∧
      p'.removalTimers = p.removalTimers ∧
      p'.fields.map Field.value = p.fields.map Field.value := by
  have hv : (validateContactForm p).1 = false := by
    cases hc : (validateContactForm p).1
    · rfl
    · obtain ⟨i, f, hf, hr, hbad⟩ := h
      have := (validateContactForm_accepts_iff p).1 hc i f hf hr
      unfold fieldVerdict at this
      rw [hbad] at this
      exact absurd this (by decide)
  have he := validateContactForm_eraseMarkers p
  refine ⟨(validateContactForm p).2, ?_, he, ?_, ?_, ?_, ?_, eraseMarkers_fields_value he⟩
  · simp [handleContactFormSubmit, hv]
  · exact eraseMarkers_sendsStarted he
  · exact eraseMarkers_submitButton he
  · exact eraseMarkers_notices he
  · exact eraseMarkers_removalTimers he

theorem submit_blocked_when_required_field_invalid_witness :
    ∃ p', handleContactFormSubmit SendOutcome.resolved
        { fields := [⟨"email", true, "nobody", "", false⟩, ⟨"message", true, "hello", "", false⟩],
          errorElements := [("emailError", "")],
          submitButton := some ⟨false, false, some false, some true⟩,
          notices := [], nextNoticeId := 0, removalTimers := [], sendsStarted := 0 } = .ok p' ∧
      p'.eraseMarkers = Page.eraseMarkers
        { fields := [⟨"email", true, "nobody", "", false⟩, ⟨"message", true, "hello", "", false⟩],
          errorElements := [("emailError", "")],
          submitButton := some ⟨false, false, some false, some true⟩,
          notices := [], nextNoticeId := 0, removalTimers := [], sendsStarted := 0 } ∧
      p'.sendsStarted = 0 ∧
      p'.submitButton = some ⟨false, false, some false, some true⟩ ∧
      p'.notices = [] ∧
      p'.removalTimers = [] ∧
      p'.fields.map Field.value = ["nobody", "hello"] :=
  submit_blocked_when_required_field_invalid SendOutcome.resolved
    { fields := [⟨"email", true, "nobody", "", false⟩, ⟨"message", true, "hello", "", false⟩],
      errorElements := [("emailError", "")],
      submitButton := some ⟨false, false, some false, some true⟩,
      notices := [], nextNoticeId := 0, removalTimers := [], sendsStarted := 0 }
    ⟨0, ⟨"email", true, "nobody", "", false⟩, rfl, rfl, by decide⟩

/-- C6, as the code has it: an email field whose trimmed value is non-empty and
does not match the pattern is rejected with `Please enter a valid email address.`,
required or not; with an empty trimmed value the required rule alone decides: a
required email field is rejected with `Email Address is required.`, an optional
one is accepted. -/
theorem email_field_validation (p : Page) (i : Nat) (f : Field)
    (hf : p.fields[i]? = some f) (hname : f.name = "email") :
    (truthy (jsTrim f.value) = true → emailRegex.test (jsTrim f.value) = false →
      validateField i p =
        (false, showFieldError i "Please enter a valid email address." p)) ∧
    (truthy (jsTrim f.value) = false → f.required = true →
      validateField i p = (false, showFieldError i "Email Address is required." p)) ∧
    (truthy (jsTrim f.value) = false → f.required = false →
      validateField i p = (true, clearFieldError i p)) := by
  have hne : ¬ ("email" = "phone") := by decide
  have hlabel : getFieldLabel "email" = "Email Address" := by decide
  refine ⟨?_, ?_, ?_⟩
  · intro hv hm
    have hr : validateFieldResult f = (false, "Please enter a valid email address.") := by
      simp only [validateFieldResult]
      simp [hname, hv, hm, hne]
    simp [validateField, hf, hr]
  · intro hv hreq
    have hr : validateFieldResult f = (false, "Email Address is required.") := by
      simp only [validateFieldResult]
      simp [hname, hv, hreq, hne, hlabel]
    simp [validateField, hf, hr]
  · intro hv hreq
    have hr : validateFieldResult f = (true, "") := by
      simp only [validateFieldResult]
      simp [hname, hv, hreq, hne]
    simp [validateField, hf, hr]

theorem email_field_validation_witness :
    validateField 0
        { fields := [⟨"email", false, " nobody@nowhere ", "", false⟩],
          errorElements := [("emailError", "")], submitButton := none, notices := [],
          nextNoticeId := 0, removalTimers := [], sendsStarted := 0 } =
      (false, showFieldError 0 "Please enter a valid email address."
        { fields := [⟨"email", false, " nobody@nowhere ", "", false⟩],
          errorElements := [("emailError", "")], submitButton := none, notices := [],
          nextNoticeId := 0, removalTimers := [], sendsStarted := 0 }) :=
  (email_field_validation
    { fields := [⟨"email", false, " nobody@nowhere ", "", false⟩],
      errorElements := [("emailError", "")], submitButton := none, notices := [],
      nextNoticeId := 0, removalTimers := [], sendsStarted := 0 }
    0 ⟨"email", false, " nobody@nowhere ", "", false⟩ rfl rfl).1 (by decide) (by decide)

/-- C6, counterexample: the empty string does not match the email pattern, yet a
required email field holding it is rejected with the required-field message, not
the email message, and an optional email field holding it is accepted. -/
theorem email_empty_value_not_email_message :
    emailRegex.test "" = false ∧
    validateFieldResult ⟨"email", true, "", "", false⟩ =
      (false, "Email Address is required.") ∧
    (validateFieldResult ⟨"email", true, "", "", false⟩).2 ≠
      "Please enter a valid email address." ∧
    validateFieldResult ⟨"email", false, "", "", false⟩ = (true, "") := by
  decide

/-- C7: on a form with a submit button that `validateContactForm` reports valid,
when the simulated send resolves the handler returns normally with exactly one
notice, the success notice; every control holds the value `form.reset()` gives
it; and the button is enabled, without the loading class, its text shown and its
spinner hidden. One send was started. -/
theorem submit_success_final_state (p : Page) (b : Button)
    (hb : p.submitButton = some b) (hv : (validateContactForm p).1 = true) :
    ∃ p', handleContactFormSubmit SendOutcome.resolved p = .ok p' ∧
      p'.notices = [⟨p.nextNoticeId, "success", successText⟩] ∧
      p'.fields.map Field.value = p.fields.map Field.defaultValue ∧
      p'.fields.map Field.name = p.fields.map Field.name ∧
      p'.submitButton = some ⟨false, false, b.textHidden.map (fun _ => false),
        b.spinnerHidden.map (fun _ => true)⟩ ∧
      p'.sendsStarted = p.sendsStarted + 1 := by
  have he := validateContactForm_eraseMarkers p
  have hbtn : (validateContactForm p).2.submitButton = some b :=
    (eraseMarkers_submitButton he).trans hb
  have hid : (validateContactForm p).2.nextNoticeId = p.nextNoticeId :=
    eraseMarkers_nextNoticeId he
  have hsend : (validateContactForm p).2.sendsStarted = p.sendsStarted :=
    eraseMarkers_sendsStarted he
  have hdef := eraseMarkers_fields_defaultValue he
  have hnm := eraseMarkers_fields_name he
  simp only [handleContactFormSubmit, hv, setButtonLoading, hbtn, simulateFormSubmission,
    showFormMessage, formReset]
  refine ⟨_, rfl, ?_, ?_, ?_, ?_, ?_⟩
  · simp [hid]
  · simp only [List.map_map, Function.comp_def]
    exact hdef
  · simp only [List.map_map, Function.comp_def]
    exact hnm
  · cases b with
    | mk lc d th sh => cases th <;> cases sh <;> rfl
  · simp [hsend]


theorem submit_success_final_state_witness :
    ∃ p', handleContactFormSubmit SendOutcome.resolved
        { fields := [⟨"email", true, "a@b.c", "", false⟩, ⟨"phone", false, "", "", true⟩],
          errorElements := [("emailError", "old")],
          submitButton := some ⟨false, false, some false, none⟩,
          notices := [⟨3, "error", errorText⟩], nextNoticeId := 4, removalTimers := [3],
          sendsStarted := 1 } = .ok p' ∧
      p'.notices = [⟨4, "success", successText⟩] ∧
      p'.fields.map Field.value = ["", ""] ∧
      p'.fields.map Field.name = ["email", "phone"] ∧
      p'.submitButton = some ⟨false, false, some false, none⟩ ∧
      p'.sendsStarted = 2 :=
  submit_success_final_state
    { fields := [⟨"email", true, "a@b.c", "", false⟩, ⟨"phone", false, "", "", true⟩],
      errorElements := [("emailError", "old")],
      submitButton := some ⟨false, false, some false, none⟩,
      notices := [⟨3, "error", errorText⟩], nextNoticeId := 4, removalTimers := [3],
      sendsStarted := 1 }
    ⟨false, false, some false, none⟩ rfl (by decide)

/-- C8: on a form with a submit button that `validateContactForm` reports valid,
when the simulated send rejects the handler still returns normally (the rejection
is caught), with exactly one notice, the error notice; every control holds the
value it held; and the button is enabled, without the loading class, its text
shown and its spinner hidden. One send was started. -/
theorem submit_failure_final_state (p : Page) (b : Button)
    (hb : p.submitButton = some b) (hv : (validateContactForm p).1 = true) :
    ∃ p', handleContactFormSubmit SendOutcome.rejected p = .ok p' ∧
      p'.notices = [⟨p.nextNoticeId, "error", errorText⟩] ∧
      p'.fields.map Field.value = p.fields.map Field.value ∧
      p'.fields.map Field.name = p.fields.map Field.name ∧
      p'.submitButton = some ⟨false, false, b.textHidden.map (fun _ => false),
        b.spinnerHidden.map (fun _ => true)⟩ ∧
      p'.sendsStarted = p.sendsStarted + 1 := by
  have he := validateContactForm_eraseMarkers p
  have hbtn : (validateContactForm p).2.submitButton = some b :=
    (eraseMarkers_submitButton he).trans hb
  have hid : (validateContactForm p).2.nextNoticeId = p.nextNoticeId :=
    eraseMarkers_nextNoticeId he
  have hsend : (validateContactForm p).2.sendsStarted = p.sendsStarted :=
    eraseMarkers_sendsStarted he
  have hval := eraseMarkers_fields_value he
  have hnm := eraseMarkers_fields_name he
  simp only [handleContactFormSubmit, hv, setButtonLoading, hbtn, simulateFormSubmission,
    showFormMessage]
  refine ⟨_, rfl, ?_, hval, hnm, ?_, ?_⟩
  · simp [hid]
  · cases b with
    | mk lc d th sh => cases th <;> cases sh <;> rfl
  · simp [hsend]

theorem submit_failure_final_state_witness :
    ∃ p', handleContactFormSubmit SendOutcome.rejected
        { fields := [⟨"email", true, "a@b.c", "", false⟩, ⟨"phone", false, "", "", true⟩],
          errorElements := [("emailError", "old")],
          submitButton := some ⟨false, false, some false, none⟩,
          notices := [⟨3, "error", errorText⟩], nextNoticeId := 4, removalTimers := [3],
          sendsStarted := 1 } = .ok p' ∧
      p'.notices = [⟨4, "error", errorText⟩] ∧
      p'.fields.map Field.value = ["a@b.c", ""] ∧
      p'.fields.map Field.name = ["email", "phone"] ∧
      p'.submitButton = some ⟨false, false, some false, none⟩ ∧
      p'.sendsStarted = 2 :=
  submit_failure_final_state
    { fields := [⟨"email", true, "a@b.c", "", false⟩, ⟨"phone", false, "", "", true⟩],
      errorElements := [("emailError", "old")],
      submitButton := some ⟨false, false, some false, none⟩,
      notices := [⟨3, "error", errorText⟩], nextNoticeId := 4, removalTimers := [3],
      sendsStarted := 1 }
    ⟨false, false, some false, none⟩ rfl (by decide)


/-! ## Visibility observers fire once -/

theorem observerCallback_count (t : Nat) (es : List Entry) : ∀ o : Observer,
    (observerCallback es o).triggered.count t =
      o.triggered.count t + es.countP (fun e => e.isIntersecting && e.target == t) := by
  induction es with
  | nil => intro o; simp [observerCallback]
  | cons e es ih =>
    intro o
    rw [observerCallback, ih, List.countP_cons]
    cases hi : e.isIntersecting
    · simp
    · by_cases ht : e.target = t
      · simp [Observer.runEffect, Observer.unobserve, ht, List.count_append]
        omega
      · have hne : ¬ (t = e.target) := fun h => ht h.symm
        simp [Observer.runEffect, Observer.unobserve, ht, hne, List.count_append]

theorem observerCallback_targets (es : List Entry) : ∀ o : Observer,
    (observerCallback es o).targets =
      o.targets.filter (fun x => !(es.any (fun e => e.isIntersecting && e.target == x))) := by
  induction es with
  | nil => intro o; simp [observerCallback]
  | cons e es ih =>
    intro o
    rw [observerCallback, ih]
    cases hi : e.isIntersecting
    · simp [hi]
    · simp only [Observer.runEffect, Observer.unobserve, if_true, List.filter_filter]
      apply List.filter_congr
      intro x _
      by_cases hx : e.target = x
      · simp [hx, hi]
      · have hx' : ¬ (x = e.target) := fun h => hx h.symm
        have e1 : (x != e.target) = true := by simp [hx']
        have e2 : (e.target == x) = false := by simp [hx]
        simp [hi, e1, e2]

theorem entries_countP (report : Nat → Option Bool) (t : Nat) (ts : List Nat) :
    (ts.filterMap (fun x => (report x).map (fun b => Entry.mk x b))).countP
        (fun e => e.isIntersecting && e.target == t) =
      if report t = some true then ts.count t else 0 := by
  induction ts with
  | nil => simp
  | cons x ts ih =>
    cases hr : report x with
    | none =>
      rw [List.filterMap_cons_none (by simp [hr]), ih]
      by_cases hx : x = t
      · subst hx; simp [hr]
      · simp [List.count_cons, hx]
    | some b =>
      rw [List.filterMap_cons_some (by simp [hr]; rfl), List.countP_cons, ih]
      by_cases hx : x = t
      · subst hx
        cases b <;> simp [hr]
      · split <;> simp [List.count_cons, hx]

theorem entries_any (report : Nat → Option Bool) (t : Nat) (ts : List Nat) :
    (ts.filterMap (fun x => (report x).map (fun b => Entry.mk x b))).any
        (fun e => e.isIntersecting && e.target == t) =
      (decide (t ∈ ts) && (report t == some true)) := by
  induction ts with
  | nil => simp
  | cons x ts ih =>
    cases hr : report x with
    | none =>
      rw [List.filterMap_cons_none (by simp [hr]), ih]
      by_cases hx : t = x
      · subst hx; simp [hr]
      · simp [hx]
    | some b =>
      rw [List.filterMap_cons_some (by simp [hr]; rfl), List.any_cons, ih]
      by_cases hx : t = x
      · subst hx
        cases b <;> simp [hr]
      · have hx' : ¬ (x = t) := fun h => hx h.symm
        simp [hx, hx']

theorem notify_count (report : Nat → Option Bool) (t : Nat) (o : Observer)
    (hnd : o.targets.Nodup) :
    (notify report o).triggered.count t =
      o.triggered.count t + (if t ∈ o.targets ∧ report t = some true then 1 else 0) := by
  unfold notify
  rw [observerCallback_count, entries_countP]
  by_cases hr : report t = some true
  · by_cases hm : t ∈ o.targets
    · simp [hr, hm, List.count_eq_one_of_mem hnd hm]
    · simp [hr, hm, List.count_eq_zero_of_not_mem hm]
  · simp [hr]

theorem notify_targets (report : Nat → Option Bool) (o : Observer) :
    (notify report o).targets =
      o.targets.filter (fun x => !(report x == some true)) := by
  unfold notify
  rw [observerCallback_targets]
  apply List.filter_congr
  intro x hx
  rw [entries_any]
  simp [hx]

theorem notify_nodup (report : Nat → Option Bool) (o : Observer) (hnd : o.targets.Nodup) :
    (notify report o).targets.Nodup := by
  rw [notify_targets]
  exact hnd.filter _

theorem notifyAll_quiet (t : Nat) (reports : List (Nat → Option Bool)) :
    ∀ o : Observer, o.targets.Nodup → (∀ r ∈ reports, r t ≠ some true) →
      (notifyAll reports o).targets.Nodup ∧
      (t ∈ (notifyAll reports o).targets ↔ t ∈ o.targets) ∧
      (notifyAll reports o).triggered.count t = o.triggered.count t := by
  induction reports with
  | nil => intro o hnd _; exact ⟨hnd, Iff.rfl, rfl⟩
  | cons r rs ih =>
    intro o hnd hq
    have hr : r t ≠ some true := hq r (List.mem_cons_self _ _)
    obtain ⟨h1, h2, h3⟩ := ih (notify r o) (notify_nodup r o hnd)
      (fun r' hr' => hq r' (List.mem_cons_of_mem _ hr'))
    refine ⟨h1, ?_, ?_⟩
    · rw [notifyAll, h2, notify_targets]
      simp [hr]
    · rw [notifyAll, h3, notify_count r t o hnd]
      simp [hr]

theorem notifyAll_unobserved (t : Nat) (reports : List (Nat → Option Bool)) :
    ∀ o : Observer, o.targets.Nodup → t ∉ o.targets →
      (notifyAll reports o).triggered.count t = o.triggered.count t := by
  induction reports with
  | nil => intro o _ _; rfl
  | cons r rs ih =>
    intro o hnd hm
    have hm' : t ∉ (notify r o).targets := by
      rw [notify_targets]
      intro h
      exact hm (List.mem_filter.1 h).1
    rw [notifyAll, ih (notify r o) (notify_nodup r o hnd) hm', notify_count r t o hnd]
    simp [hm]

theorem foldl_observe_spec (ts : List Nat) : ∀ o : Observer, o.targets.Nodup →
    (ts.foldl (fun o element => o.observe element) o).targets.Nodup ∧
    (∀ x, x ∈ (ts.foldl (fun o element => o.observe element) o).targets ↔
      x ∈ o.targets ∨ x ∈ ts) ∧
    (ts.foldl (fun o element => o.observe element) o).triggered = o.triggered := by
  induction ts with
  | nil => intro o hnd; simp [hnd]
  | cons a ts ih =>
    intro o hnd
    have hnd' : (o.observe a).targets.Nodup := by
      unfold Observer.observe
      split
      · exact hnd
      · rename_i hna
        simp only []
        rw [List.nodup_append]
        refine ⟨hnd, List.nodup_singleton a, ?_⟩
        intro x hx hx'
        rw [List.mem_singleton] at hx'
        subst hx'
        exact hna hx
    obtain ⟨h1, h2, h3⟩ := ih (o.observe a) hnd'
    refine ⟨h1, ?_, ?_⟩
    · intro x
      rw [List.foldl_cons, h2]
      unfold Observer.observe
      split
      · rename_i hma
        simp only [List.mem_cons]
        constructor
        · rintro (h | h)
          · exact Or.inl h
          · exact Or.inr (Or.inr h)
        · rintro (h | rfl | h)
          · exact Or.inl h
          · exact Or.inl hma
          · exact Or.inr h
      · simp only [List.mem_append, List.mem_singleton, List.mem_cons]
        tauto
    · rw [List.foldl_cons, h3]
      unfold Observer.observe
      split <;> rfl

theorem newObserver_spec (ts : List Nat) :
    (newObserver ts).targets.Nodup ∧ (∀ x, x ∈ (newObserver ts).targets ↔ x ∈ ts) ∧
    (newObserver ts).triggered = [] := by
  obtain ⟨h1, h2, h3⟩ := foldl_observe_spec ts { targets := [], triggered := [] } List.nodup_nil
  exact ⟨h1, fun x => by simpa using h2 x, h3⟩

theorem notifyAll_append (xs ys : List (Nat → Option Bool)) :
    ∀ o : Observer, notifyAll (xs ++ ys) o = notifyAll ys (notifyAll xs o) := by
  induction xs with
  | nil => intro o; rfl
  | cons x xs ih => intro o; exact ih (notify x o)

/-- One observer that observes the elements `ts`: for a watched element the
effect has not run as long as no notification reported it intersecting, has run
once right after the first notification that does, and has still run once after
any further notifications. -/
theorem newObserver_fires_once (ts : List Nat) (t : Nat) (hts : t ∈ ts)
    (before after : List (Nat → Option Bool)) (first : Nat → Option Bool)
    (hbefore : ∀ r ∈ before, r t ≠ some true) (hfirst : first t = some true) :
    (notifyAll before (newObserver ts)).triggered.count t = 0 ∧
    (notifyAll (before ++ [first]) (newObserver ts)).triggered.count t = 1 ∧
    (notifyAll (before ++ first :: after) (newObserver ts)).triggered.count t = 1 := by
  obtain ⟨hnd, hmem, htr⟩ := newObserver_spec ts
  obtain ⟨q1, q2, q3⟩ := notifyAll_quiet t before (newObserver ts) hnd hbefore
  have hin : t ∈ (notifyAll before (newObserver ts)).targets := q2.2 ((hmem t).2 hts)
  have h0 : (notifyAll before (newObserver ts)).triggered.count t = 0 := by
    rw [q3, htr]; rfl
  have h1 : (notify first (notifyAll before (newObserver ts))).triggered.count t = 1 := by
    rw [notify_count first t _ q1, h0]
    simp [hin, hfirst]
  have hout : t ∉ (notify first (notifyAll before (newObserver ts))).targets := by
    rw [notify_targets]
    intro h
    have := (List.mem_filter.1 h).2
    simp [hfirst] at this
  refine ⟨h0, ?_, ?_⟩
  · rw [notifyAll_append]; exact h1
  · rw [notifyAll_append]
    show (notifyAll after (notify first _)).triggered.count t = 1
    rw [notifyAll_unobserved t after _ (notify_nodup first _ q1) hout, h1]

/-- One observer of `initializeProgressBars` or of `initializeSkills`, taken by
itself, runs its effect once for a watched element, at the first notification
that reports the element intersecting. -/
theorem observer_fires_once_for_its_target (elements : List Nat) (t : Nat)
    (ht : t ∈ elements) (before after : List (Nat → Option Bool))
    (first : Nat → Option Bool)
    (hbefore : ∀ r ∈ before, r t ≠ some true) (hfirst : first t = some true) :
    (notifyAll before (initializeProgressBars elements)).triggered.count t = 0 ∧
    (notifyAll (before ++ [first]) (initializeProgressBars elements)).triggered.count t = 1 ∧
    (notifyAll (before ++ first :: after)
      (initializeProgressBars elements)).triggered.count t = 1 ∧
    (notifyAll before (initializeSkills (some t))).triggered.count t = 0 ∧
    (notifyAll (before ++ [first]) (initializeSkills (some t))).triggered.count t = 1 ∧
    (notifyAll (before ++ first :: after) (initializeSkills (some t))).triggered.count t = 1 := by
  obtain ⟨a1, a2, a3⟩ := newObserver_fires_once elements t ht before after first hbefore hfirst
  obtain ⟨b1, b2, b3⟩ := newObserver_fires_once [t] t (List.mem_singleton_self t)
    before after first hbefore hfirst
  exact ⟨a1, a2, a3, b1, b2, b3⟩

theorem observer_fires_once_for_its_target_witness :
    (notifyAll [fun _ => some false, fun _ => none]
      (initializeProgressBars [4, 7, 4, 9])).triggered.count 7 = 0 ∧
    (notifyAll ([fun _ => some false, fun _ => none] ++ [fun _ => some true])
      (initializeProgressBars [4, 7, 4, 9])).triggered.count 7 = 1 ∧
    (notifyAll ([fun _ => some false, fun _ => none] ++
        (fun _ => some true) :: [fun _ => some false, fun _ => some true, fun _ => some true])
      (initializeProgressBars [4, 7, 4, 9])).triggered.count 7 = 1 ∧
    (notifyAll [fun _ => some false, fun _ => none]
      (initializeSkills (some 7))).triggered.count 7 = 0 ∧
    (notifyAll ([fun _ => some false, fun _ => none] ++ [fun _ => some true])
      (initializeSkills (some 7))).triggered.count 7 = 1 ∧
    (notifyAll ([fun _ => some false, fun _ => none] ++
        (fun _ => some true) :: [fun _ => some false, fun _ => some true, fun _ => some true])
      (initializeSkills (some 7))).triggered.count 7 = 1 :=
  observer_fires_once_for_its_target [4, 7, 4, 9] 7 (by decide)
    [fun _ => some false, fun _ => none]
    [fun _ => some false, fun _ => some true, fun _ => some true]
    (fun _ => some true)
    (by intro r hr; simp only [List.mem_cons, List.mem_singleton, List.not_mem_nil, or_false] at hr
        rcases hr with rfl | rfl <;> simp)
    rfl

/-! ## Counter animation -/

theorem roundTiesToEven_sub_le (y : ℚ) : |(roundTiesToEven y : ℚ) - y| ≤ 1 / 2 := by
  have h1 := Int.floor_le y
  have h2 := Int.lt_floor_add_one y
  unfold roundTiesToEven
  simp only
  rw [abs_le]
  split_ifs with ha hb hc
  · constructor <;> linarith
  · push_cast; constructor <;> linarith
  · constructor <;> linarith
  · push_cast; constructor <;> linarith

theorem quantum_pos (q : ℚ) : 0 < quantum q := by
  unfold quantum
  positivity

theorem nearestDouble_sub_le (q : ℚ) : |nearestDouble q - q| ≤ quantum q / 2 := by
  have hq := quantum_pos q
  have h := roundTiesToEven_sub_le (q / quantum q)
  unfold nearestDouble
  have e : (roundTiesToEven (q / quantum q) : ℚ) * quantum q - q =
      ((roundTiesToEven (q / quantum q) : ℚ) - q / quantum q) * quantum q := by
    field_simp
  rw [e, abs_mul, abs_of_pos hq]
  calc |(roundTiesToEven (q / quantum q) : ℚ) - q / quantum q| * quantum q
      ≤ 1 / 2 * quantum q := mul_le_mul_of_nonneg_right h hq.le
    _ = quantum q / 2 := by ring

theorem quantum_le (q : ℚ) (h : (2 : ℚ) ^ (-1022 : ℤ) ≤ |q|) :
    quantum q ≤ |q| * (2 : ℚ) ^ (-52 : ℤ) := by
  have hpos : (0 : ℚ) < |q| := lt_of_lt_of_le (by positivity) h
  have h1 : ((2 : ℕ) : ℚ) ^ Int.log 2 |q| ≤ |q| := Int.zpow_log_le_self (by norm_num) hpos
  have h2 : |q| < ((2 : ℕ) : ℚ) ^ (Int.log 2 |q| + 1) := Int.lt_zpow_succ_log_self (by norm_num) _
  rw [Nat.cast_ofNat] at h1 h2
  have h3 : (-1022 : ℤ) < Int.log 2 |q| + 1 := by
    have := lt_of_le_of_lt h h2
    exact (zpow_lt_zpow_iff_right₀ (by norm_num : (1 : ℚ) < 2)).1 this
  have h4 : max (Int.log 2 |q|) (-1022) = Int.log 2 |q| := max_eq_left (by omega)
  unfold quantum
  rw [h4, sub_eq_add_neg, zpow_add₀ (by norm_num : (2 : ℚ) ≠ 0)]
  exact mul_le_mul_of_nonneg_right h1 (by positivity)

/-- Relative error of rounding in the normal range. -/
theorem nearestDouble_rel (q : ℚ) (h : (2 : ℚ) ^ (-1022 : ℤ) ≤ |q|) :
    |nearestDouble q - q| ≤ |q| * (2 : ℚ) ^ (-53 : ℤ) := by
  have h1 := nearestDouble_sub_le q
  have h2 := quantum_le q h
  have e : |q| * (2 : ℚ) ^ (-53 : ℤ) = |q| * (2 : ℚ) ^ (-52 : ℤ) / 2 := by
    rw [show (-53 : ℤ) = -52 + -1 by norm_num, zpow_add₀ (by norm_num : (2 : ℚ) ≠ 0)]
    norm_num
    ring
  rw [e]
  exact h1.trans ((div_le_div_iff_of_pos_right (by norm_num : (0 : ℚ) < 2)).2 h2)

theorem tiny_le : (2 : ℚ) ^ (-1022 : ℤ) ≤ 1 / 256 := by
  have h : (2 : ℚ) ^ (-1022 : ℤ) ≤ (2 : ℚ) ^ (-8 : ℤ) :=
    zpow_le_zpow_right₀ (by norm_num) (by norm_num)
  have e : (2 : ℚ) ^ (-8 : ℤ) = 1 / 256 := by norm_num [zpow_neg]
  rw [e] at h
  exact h

theorem ulp_small : (0 : ℚ) < (2 : ℚ) ^ (-53 : ℤ) ∧ (2 : ℚ) ^ (-53 : ℤ) ≤ 1 / 1000000 := by
  constructor
  · positivity
  · have h : (2 : ℚ) ^ (-53 : ℤ) ≤ (2 : ℚ) ^ (-20 : ℤ) :=
      zpow_le_zpow_right₀ (by norm_num) (by norm_num)
    have e : (2 : ℚ) ^ (-20 : ℤ) = 1 / 1048576 := by norm_num [zpow_neg]
    rw [e] at h
    linarith

/-- Rounding a positive number of the normal range: the result is within the
relative error `2 ^ -53`, or `+Infinity` when it reaches `2 ^ 1024`. -/
theorem roundToDouble_of_pos (y : ℚ) (hy : 1 / 256 ≤ y) :
    y * (1 - (2 : ℚ) ^ (-53 : ℤ)) ≤ nearestDouble y ∧
    nearestDouble y ≤ y * (1 + (2 : ℚ) ^ (-53 : ℤ)) ∧
    roundToDouble y =
      if (2 : ℚ) ^ (1024 : ℕ) ≤ nearestDouble y then .posInf else .finite (nearestDouble y) := by
  have hy0 : 0 < y := lt_of_lt_of_le (by norm_num) hy
  have habs : |y| = y := abs_of_pos hy0
  have hn : (2 : ℚ) ^ (-1022 : ℤ) ≤ |y| := by rw [habs]; exact tiny_le.trans hy
  have h := nearestDouble_rel y hn
  rw [habs, abs_le] at h
  obtain ⟨hu0, hu1⟩ := ulp_small
  have hB : (0 : ℚ) < (2 : ℚ) ^ (1024 : ℕ) := by positivity
  unfold roundToDouble
  simp only
  generalize (2 : ℚ) ^ (-53 : ℤ) = u at *
  generalize (2 : ℚ) ^ (1024 : ℕ) = B at *
  have hlo : y * (1 - u) ≤ nearestDouble y := by linarith [h.1]
  have hhi : nearestDouble y ≤ y * (1 + u) := by linarith [h.2]
  refine ⟨hlo, hhi, ?_⟩
  have hpos : 0 < nearestDouble y := by
    have : 0 < y * (1 - u) := mul_pos hy0 (by linarith)
    linarith
  have h2 : ¬ (nearestDouble y ≤ -B) := by
    intro h2
    linarith
  rw [if_neg h2]

/-- Rounding a negative number of the normal range. -/
theorem roundToDouble_of_neg (y : ℚ) (hy : y ≤ -(1 / 256)) :
    y * (1 + (2 : ℚ) ^ (-53 : ℤ)) ≤ nearestDouble y ∧
    nearestDouble y ≤ y * (1 - (2 : ℚ) ^ (-53 : ℤ)) ∧
    roundToDouble y =
      if nearestDouble y ≤ -(2 : ℚ) ^ (1024 : ℕ) then .negInf else .finite (nearestDouble y) := by
  have hy0 : y < 0 := lt_of_le_of_lt hy (by norm_num)
  have habs : |y| = -y := abs_of_neg hy0
  have hn : (2 : ℚ) ^ (-1022 : ℤ) ≤ |y| := by rw [habs]; exact tiny_le.trans (by linarith)
  have h := nearestDouble_rel y hn
  rw [habs, abs_le] at h
  obtain ⟨hu0, hu1⟩ := ulp_small
  have hB : (0 : ℚ) < (2 : ℚ) ^ (1024 : ℕ) := by positivity
  unfold roundToDouble
  simp only
  generalize (2 : ℚ) ^ (-53 : ℤ) = u at *
  generalize (2 : ℚ) ^ (1024 : ℕ) = B at *
  have hlo : y * (1 + u) ≤ nearestDouble y := by linarith [h.1]
  have hhi : nearestDouble y ≤ y * (1 - u) := by linarith [h.2]
  refine ⟨hlo, hhi, ?_⟩
  have hneg : nearestDouble y < 0 := by
    have : y * (1 - u) < 0 := mul_neg_of_neg_of_pos hy0 (by linarith)
    linarith
  have h1 : ¬ (B ≤ nearestDouble y) := by
    intro h1
    linarith
  rw [if_neg h1]

theorem roundToDouble_zero : roundToDouble 0 = .finite 0 := by
  decide!

theorem ticks_per_run : duration.div (.finite 16) = .finite 125 := by
  decide!

theorem increment_finite (T : ℚ) : increment (.finite T) = roundToDouble (T / 125) := by
  unfold increment
  rw [ticks_per_run]
  simp [JsNumber.div]

/-- A number that rounds to itself lies strictly between `-2 ^ 1024` and `2 ^ 1024`. -/
theorem lt_of_roundToDouble_self (T : ℚ) (hT : roundToDouble T = .finite T) :
    -(2 : ℚ) ^ (1024 : ℕ) < T ∧ T < (2 : ℚ) ^ (1024 : ℕ) := by
  unfold roundToDouble at hT
  simp only at hT
  split_ifs at hT with h1 h2
  have e : nearestDouble T = T := by injection hT
  rw [e] at h1 h2
  exact ⟨not_le.1 h2, not_le.1 h1⟩

theorem tick_inactive (target : JsNumber) (c : Counter) (h : c.timerActive = false) :
    tick target c = c := by
  simp [tick, h]

theorem runTicks_after_stop (target : JsNumber) (n : Nat)
    (h : (runTicks target n).timerActive = false) :
    ∀ m, n ≤ m → runTicks target m = runTicks target n := by
  intro m hm
  induction m with
  | zero =>
    have : n = 0 := by omega
    subst this; rfl
  | succ m ih =>
    by_cases hn : n = m + 1
    · subst hn; rfl
    · have hle : n ≤ m := by omega
      rw [runTicks, ih hle, tick_inactive target _ h]

/-- The increment of a positive target: finite, positive and within the relative
error `2 ^ -53` of `T / 125`. -/
theorem increment_pos (T : ℚ) (hT1 : 1 ≤ T) (hTB : T < (2 : ℚ) ^ (1024 : ℕ)) :
    increment (.finite T) = .finite (nearestDouble (T / 125)) ∧
    T / 125 * (1 - (2 : ℚ) ^ (-53 : ℤ)) ≤ nearestDouble (T / 125) ∧
    nearestDouble (T / 125) ≤ T / 125 * (1 + (2 : ℚ) ^ (-53 : ℤ)) := by
  have hx : 1 / 256 ≤ T / 125 := by linarith
  obtain ⟨h1, h2, h3⟩ := roundToDouble_of_pos (T / 125) hx
  obtain ⟨hu0, hu1⟩ := ulp_small
  refine ⟨?_, h1, h2⟩
  rw [increment_finite, h3]
  generalize (2 : ℚ) ^ (-53 : ℤ) = u at *
  generalize (2 : ℚ) ^ (1024 : ℕ) = B at *
  have : ¬ (B ≤ nearestDouble (T / 125)) := by
    intro hB
    nlinarith
  rw [if_neg this]

/-- One tick of a running counter with a positive target: either the counter
stops and renders the target, or it goes on with a value that is larger by at
least `T / 126` and still below the target. -/
theorem tick_running (T : ℤ) (hT0 : 0 < T) (hTB : (T : ℚ) < (2 : ℚ) ^ (1024 : ℕ))
    (s : ℚ) (zs : List JsNumber) (hs0 : 0 ≤ s) (hsT : s < T) :
    tick (.finite T) ⟨.finite s, true, zs⟩ = ⟨.finite T, false, zs ++ [.finite T]⟩ ∨
    ∃ r : ℚ, tick (.finite T) ⟨.finite s, true, zs⟩ =
        ⟨.finite r, true, zs ++ [.finite ((⌊r⌋ : ℤ) : ℚ)]⟩ ∧
      s + (T : ℚ) / 126 ≤ r ∧ r < T := by
  have hT1 : (1 : ℚ) ≤ T := by exact_mod_cast hT0
  obtain ⟨hi, hilo, hihi⟩ := increment_pos (T : ℚ) hT1 hTB
  obtain ⟨hu0, hu1⟩ := ulp_small
  have hfl : (JsNumber.finite (T : ℚ)).floor = .finite (T : ℚ) := by
    simp [JsNumber.floor]
  have hy : 1 / 256 ≤ s + nearestDouble ((T : ℚ) / 125) := by
    generalize (2 : ℚ) ^ (-53 : ℤ) = u at *
    nlinarith
  obtain ⟨hrlo, -, hr⟩ := roundToDouble_of_pos _ hy
  simp only [tick, if_true, hi, JsNumber.add, hr, hfl]
  by_cases hB : (2 : ℚ) ^ (1024 : ℕ) ≤ nearestDouble (s + nearestDouble ((T : ℚ) / 125))
  · left
    simp [hB, JsNumber.ge]
  · rw [if_neg hB]
    by_cases hge : (T : ℚ) ≤ nearestDouble (s + nearestDouble ((T : ℚ) / 125))
    · left
      simp [JsNumber.ge, hge]
    · right
      refine ⟨nearestDouble (s + nearestDouble ((T : ℚ) / 125)), ?_, ?_, not_le.1 hge⟩
      · simp [JsNumber.ge, hge, JsNumber.floor]
      · generalize (2 : ℚ) ^ (-53 : ℤ) = u at *
        generalize nearestDouble ((T : ℚ) / 125) = i at *
        generalize nearestDouble (s + i) = r at *
        have h1 : (T : ℚ) / 125 * (1 - u) * (1 - u) ≤ i * (1 - u) :=
          mul_le_mul_of_nonneg_right hilo (by linarith)
        have h2 : s * u ≤ (T : ℚ) * u := mul_le_mul_of_nonneg_right hsT.le hu0.le
        have h3 : (T : ℚ) * u ≤ (T : ℚ) * (1 / 1000000) :=
          mul_le_mul_of_nonneg_left hu1 (by linarith)
        have h4 : (0 : ℚ) ≤ (T : ℚ) * (u * u) :=
          mul_nonneg (by linarith) (mul_self_nonneg u)
        clear hTB hB hr hi hy hge
        nlinarith

/-- A counter with a positive target, after `m` ticks: it is still running, has
rendered `m` integers in non-decreasing order and has advanced by at least
`T / 126` in every tick; or it has stopped at an earlier tick, rendering the
target last. -/
theorem runTicks_pos_progress (T : ℤ) (hT0 : 0 < T) (hTB : (T : ℚ) < (2 : ℚ) ^ (1024 : ℕ)) :
    ∀ m : Nat,
    (∃ (s : ℚ) (zs : List ℤ),
        runTicks (.finite T) m = ⟨.finite s, true, zs.map (fun (z : ℤ) => JsNumber.finite (z : ℚ))⟩ ∧
        zs.length = m ∧ zs.Pairwise (fun a b => a ≤ b) ∧ (∀ z ∈ zs, (z : ℚ) ≤ s) ∧
        (m : ℚ) * ((T : ℚ) / 126) ≤ s ∧ s < T ∧
        ∀ k, k ≤ m → (runTicks (.finite T) k).timerActive = true) ∨
    (∃ (n : Nat) (zs : List ℤ), 0 < n ∧ n ≤ m ∧
        (∀ k, k < n → (runTicks (.finite T) k).timerActive = true) ∧
        runTicks (.finite T) n = ⟨.finite T, false, zs.map (fun (z : ℤ) => JsNumber.finite (z : ℚ))⟩ ∧
        zs.length = n ∧ zs.Pairwise (fun a b => a ≤ b) ∧ zs.getLast? = some T) := by
  have hTq : (0 : ℚ) < T := by exact_mod_cast hT0
  intro m
  induction m with
  | zero =>
    left
    refine ⟨0, [], rfl, rfl, List.Pairwise.nil, ?_, ?_, hTq, ?_⟩
    · intro z hz; simp at hz
    · simp
    · intro k hk
      have : k = 0 := by omega
      subst this; rfl
  | succ m ih =>
    rcases ih with ⟨s, zs, hrun, hlen, hpw, hle, hprog, hsT, hact⟩ | ⟨n, zs, hn0, hnm, hact, hrun, hlen, hpw, hlast⟩
    · have hs0 : 0 ≤ s :=
        le_trans (mul_nonneg (Nat.cast_nonneg m) (div_nonneg hTq.le (by norm_num))) hprog
      rcases tick_running T hT0 hTB s (zs.map (fun (z : ℤ) => JsNumber.finite (z : ℚ))) hs0 hsT with
        hstop | ⟨r, hgo, hr1, hr2⟩
      · right
        refine ⟨m + 1, zs ++ [T], by omega, le_refl _, ?_, ?_, ?_, ?_, ?_⟩
        · intro k hk
          exact hact k (by omega)
        · rw [runTicks, hrun, hstop]
          simp
        · simp [hlen]
        · rw [List.pairwise_append]
          refine ⟨hpw, List.pairwise_singleton _ _, ?_⟩
          intro a ha b hb
          rw [List.mem_singleton] at hb
          subst hb
          have h1 : (a : ℚ) < (b : ℚ) := lt_of_le_of_lt (hle a ha) hsT
          have h2 : a < b := by exact_mod_cast h1
          exact h2.le
        · simp
      · left
        refine ⟨r, zs ++ [⌊r⌋], ?_, ?_, ?_, ?_, ?_, hr2, ?_⟩
        · rw [runTicks, hrun, hgo]
          simp
        · simp [hlen]
        · rw [List.pairwise_append]
          refine ⟨hpw, List.pairwise_singleton _ _, ?_⟩
          intro a ha b hb
          rw [List.mem_singleton] at hb
          subst hb
          apply Int.le_floor.2
          have : (0 : ℚ) ≤ (T : ℚ) / 126 := div_nonneg hTq.le (by norm_num)
          linarith [hle a ha]
        · intro z hz
          rw [List.mem_append, List.mem_singleton] at hz
          rcases hz with hz | hz
          · have : (0 : ℚ) ≤ (T : ℚ) / 126 := div_nonneg hTq.le (by norm_num)
            linarith [hle z hz]
          · subst hz
            exact Int.floor_le r
        · push_cast
          linarith
        · intro k hk
          by_cases hkm : k ≤ m
          · exact hact k hkm
          · have : k = m + 1 := by omega
            subst this
            rw [runTicks, hrun, hgo]
    · right
      exact ⟨n, zs, hn0, by omega, hact, hrun, hlen, hpw, hlast⟩

/-- The first tick of a counter whose target is not positive stops it and renders
the target. -/
theorem runTicks_nonpos (T : ℤ) (hT0 : T ≤ 0) (hTB : -(2 : ℚ) ^ (1024 : ℕ) < (T : ℚ)) :
    runTicks (.finite T) 1 = ⟨.finite T, false, [.finite (T : ℚ)]⟩ := by
  have hfl : (JsNumber.finite (T : ℚ)).floor = .finite (T : ℚ) := by
    simp [JsNumber.floor]
  rcases eq_or_lt_of_le hT0 with h0 | hneg
  · subst h0
    simp only [runTicks, tick, counterStart, if_true, increment_finite, hfl]
    norm_num [roundToDouble_zero, JsNumber.add, JsNumber.ge]
  · have hT1 : (T : ℚ) ≤ -1 := by
      have : T ≤ -1 := by omega
      exact_mod_cast this
    obtain ⟨hu0, hu1⟩ := ulp_small
    have hx : (T : ℚ) / 125 ≤ -(1 / 256) := by linarith
    obtain ⟨hilo, hihi, hi⟩ := roundToDouble_of_neg _ hx
    have hy : nearestDouble ((T : ℚ) / 125) ≤ -(1 / 256) := by
      generalize (2 : ℚ) ^ (-53 : ℤ) = u at *
      nlinarith
    obtain ⟨hrlo, hrhi, hr⟩ := roundToDouble_of_neg _ hy
    have hge : (T : ℚ) ≤ nearestDouble (nearestDouble ((T : ℚ) / 125)) := by
      generalize (2 : ℚ) ^ (-53 : ℤ) = u at *
      generalize nearestDouble ((T : ℚ) / 125) = i at *
      generalize nearestDouble i = r at *
      have h1 : (T : ℚ) / 125 * (1 + u) * (1 + u) ≤ i * (1 + u) :=
        mul_le_mul_of_nonneg_right hilo (by linarith)
      clear hTB hi hr
      nlinarith
    have hi2 : ¬ (nearestDouble ((T : ℚ) / 125) ≤ -(2 : ℚ) ^ (1024 : ℕ)) := by
      intro h
      generalize (2 : ℚ) ^ (-53 : ℤ) = u at *
      generalize (2 : ℚ) ^ (1024 : ℕ) = B at *
      nlinarith
    have hr2 : ¬ (nearestDouble (nearestDouble ((T : ℚ) / 125)) ≤ -(2 : ℚ) ^ (1024 : ℕ)) := by
      intro h
      linarith
    rw [if_neg hi2] at hi
    rw [if_neg hr2] at hr
    simp only [runTicks, tick, counterStart, if_true, increment_finite, hfl, hi, JsNumber.add,
      zero_add, hr, JsNumber.ge, hge, decide_True, List.nil_append]

/-- C10: for every integer target that is a value of the number type, the ticker,
computing in double precision, stops after at most 126 ticks: the timer is
running before that tick, cleared at it, and nothing changes afterwards; one
integer is rendered per tick, every rendered value is at most every later one,
and the last rendered value is the target. -/
theorem counter_stops_at_target (T : ℤ) (hT : roundToDouble (T : ℚ) = .finite (T : ℚ)) :
    ∃ n, 0 < n ∧ n ≤ 126 ∧
      (∀ m, m < n → (runTicks (.finite T) m).timerActive = true) ∧
      (runTicks (.finite T) n).timerActive = false ∧
      (∀ m, n ≤ m → runTicks (.finite T) m = runTicks (.finite T) n) ∧
      ∃ zs : List ℤ, (runTicks (.finite T) n).rendered = zs.map (fun (z : ℤ) => JsNumber.finite (z : ℚ)) ∧
        zs.length = n ∧ zs.Pairwise (fun a b => a ≤ b) ∧ zs.getLast? = some T := by
  obtain ⟨hlo, hhi⟩ := lt_of_roundToDouble_self (T : ℚ) hT
  rcases le_or_lt T 0 with hT0 | hT0
  · have h1 := runTicks_nonpos T hT0 hlo
    refine ⟨1, by norm_num, by norm_num, ?_, ?_, ?_, [T], ?_, rfl, List.pairwise_singleton _ _, rfl⟩
    · intro m hm
      have : m = 0 := by omega
      subst this; rfl
    · rw [h1]
    · exact runTicks_after_stop _ 1 (by rw [h1])
    · rw [h1]; rfl
  · have hTq : (0 : ℚ) < T := by exact_mod_cast hT0
    rcases runTicks_pos_progress T hT0 hhi 126 with
      ⟨s, zs, -, -, -, -, hprog, hsT, -⟩ | ⟨n, zs, hn0, hn, hact, hrun, hlen, hpw, hlast⟩
    · exfalso
      have : ((126 : ℕ) : ℚ) * ((T : ℚ) / 126) = T := by push_cast; field_simp
      rw [this] at hprog
      linarith
    · refine ⟨n, hn0, hn, hact, ?_, ?_, zs, ?_, hlen, hpw, hlast⟩
      · rw [hrun]
      · exact runTicks_after_stop _ n (by rw [hrun])
      · rw [hrun]

theorem counter_stops_at_target_witness :
    roundToDouble ((100 : ℤ) : ℚ) = .finite ((100 : ℤ) : ℚ) ∧
    ∃ n, 0 < n ∧ n ≤ 126 ∧
      (∀ m, m < n → (runTicks (.finite (100 : ℤ)) m).timerActive = true) ∧
      (runTicks (.finite (100 : ℤ)) n).timerActive = false ∧
      (∀ m, n ≤ m → runTicks (.finite (100 : ℤ)) m = runTicks (.finite (100 : ℤ)) n) ∧
      ∃ zs : List ℤ,
        (runTicks (.finite (100 : ℤ)) n).rendered = zs.map (fun (z : ℤ) => JsNumber.finite (z : ℚ)) ∧
        zs.length = n ∧ zs.Pairwise (fun a b => a ≤ b) ∧ zs.getLast? = some 100 :=
  ⟨by decide!, counter_stops_at_target 100 (by decide!)⟩

/-- With the target 100 the increment is the double nearest to 0.8, the tenth tick
renders 7 (the sum of ten increments is just below 8), the counter is still
running after 125 ticks and stops at tick 126. -/
theorem counter_hundred_runs_126_ticks :
    increment (.finite 100) = .finite (3602879701896397 / 4503599627370496) ∧
    (runTicks (.finite 100) 10).rendered.getLast? = some (.finite 7) ∧
    (runTicks (.finite 100) 125).timerActive = true ∧
    (runTicks (.finite 100) 126).timerActive = false ∧
    (runTicks (.finite 100) 126).rendered.getLast? = some (.finite 100) := by
  decide!

/-! ## Portfolio filter -/

theorem includes_iff_substring (haystack needle : List Char) :
    includes haystack needle = true ↔ needle <:+: haystack := by
  unfold includes
  rw [List.any_eq_true, List.infix_iff_prefix_suffix]
  constructor
  · rintro ⟨t, ht, hp⟩
    exact ⟨t, List.isPrefixOf_iff_prefix.1 hp, (List.mem_tails _ _).1 ht⟩
  · rintro ⟨t, hp, hs⟩
    exact ⟨t, (List.mem_tails _ _).2 hs, List.isPrefixOf_iff_prefix.2 hp⟩

theorem tagsFrom_substring (cs : List Char) : ∀ (current tag : List Char),
    tag ∈ tagsFrom cs current → tag <:+: current ++ cs := by
  induction cs with
  | nil =>
    intro current tag h
    unfold tagsFrom at h
    split at h
    · simp at h
    · rw [List.mem_singleton] at h
      subst h
      simp
  | cons c cs ih =>
    intro current tag h
    unfold tagsFrom at h
    have hsuffix : ∀ t : List Char, t <:+: cs → t <:+: current ++ c :: cs := by
      intro t ht
      exact ht.trans ((List.suffix_cons c cs).isInfix.trans (List.suffix_append _ _).isInfix)
    split at h
    · split at h
      · exact hsuffix tag (by simpa using ih [] tag h)
      · rcases List.mem_cons.1 h with h | h
        · subst h
          exact (List.prefix_append _ _).isInfix
        · exact hsuffix tag (by simpa using ih [] tag h)
    · have := ih (current ++ [c]) tag h
      simpa using this

theorem tag_is_substring (category tag : String) (h : tag ∈ categoryTags category) :
    includes category.data tag.data = true := by
  unfold categoryTags at h
  rw [List.mem_map] at h
  obtain ⟨t, ht, rfl⟩ := h
  rw [includes_iff_substring]
  simpa using tagsFrom_substring category.data [] t ht

theorem hideIfHidden_getElem? (i j : Nat) (items : List PortfolioItem) :
    (hideIfHidden i items)[j]? =
      items[j]?.map (fun item =>
        if item.hide = true ∧ j = i then { item with display := "none" } else item) := by
  unfold hideIfHidden
  cases hi : items[i]? with
  | none =>
    simp only []
    cases hj : items[j]? with
    | none => rfl
    | some item =>
      have hne : ¬ (j = i) := by
        rintro rfl
        rw [hi] at hj
        exact absurd hj (by simp)
      simp [hne]
  | some it =>
    simp only []
    split
    · rename_i hh
      rw [List.getElem?_set]
      have hlt : i < items.length := (List.getElem?_eq_some.1 hi).1
      by_cases hij : i = j
      · subst hij
        simp [hi, hh, hlt]
      · have hji : ¬ (j = i) := fun h => hij h.symm
        cases hj : items[j]? <;> simp [hij, hji]
    · rename_i hh
      cases hj : items[j]? with
      | none => rfl
      | some item =>
        by_cases hji : j = i
        · subst hji
          rw [hi] at hj
          obtain rfl := Option.some.inj hj
          simp [hh]
        · simp [hji]

theorem fireAll_getElem? (timers : List Nat) : ∀ (items : List PortfolioItem) (j : Nat),
    (fireAll timers items)[j]? =
      items[j]?.map (fun item =>
        if item.hide = true ∧ j ∈ timers then { item with display := "none" } else item) := by
  induction timers with
  | nil => intro items j; cases h : items[j]? <;> simp [fireAll, h]
  | cons i timers ih =>
    intro items j
    rw [fireAll, ih, hideIfHidden_getElem?]
    cases h : items[j]? with
    | none => rfl
    | some item =>
      simp only [Option.map_some', Option.some.injEq, List.mem_cons]
      by_cases hh : item.hide = true
      · by_cases hji : j = i
        · simp [hh, hji]
        · simp [hh, hji]
      · simp [hh]

theorem fireAll_length (timers : List Nat) : ∀ items : List PortfolioItem,
    (fireAll timers items).length = items.length := by
  induction timers with
  | nil => intro items; rfl
  | cons i timers ih =>
    intro items
    rw [fireAll, ih]
    unfold hideIfHidden
    cases items[i]? with
    | none => rfl
    | some item =>
      simp only []
      split
      · simp
      · rfl

theorem filterAccepts_ok (filter : Option String) (item : PortfolioItem) (c : String)
    (hc : item.category = some c) :
    filterAccepts filter item =
      .ok (decide (filter = some "all") || includes c.data (attrText filter).data) := by
  unfold filterAccepts
  by_cases hf : filter = some "all"
  · simp [hf]
  · simp [hf, hc]

theorem filterItems_ok (filter : Option String) (items : List PortfolioItem) :
    ∀ i : Nat, (∀ item ∈ items, item.category ≠ none) →
      ∃ items' timers, filterItems filter i items = .ok (items', timers) ∧
        items'.length = items.length ∧
        (∀ (j : Nat) (item : PortfolioItem) (c : String), items[j]? = some item → item.category = some c →
          (decide (filter = some "all") || includes c.data (attrText filter).data) = true →
            items'[j]? = some { item with hide := false, display := "block" }) ∧
        (∀ (j : Nat) (item : PortfolioItem) (c : String), items[j]? = some item → item.category = some c →
          (decide (filter = some "all") || includes c.data (attrText filter).data) = false →
            items'[j]? = some { item with hide := true } ∧ i + j ∈ timers) := by
  induction items with
  | nil => intro i _; exact ⟨[], [], rfl, rfl, by simp, by simp⟩
  | cons it items ih =>
    intro i hcat
    obtain ⟨c0, hc0⟩ : ∃ c, it.category = some c := by
      cases h : it.category with
      | none => exact absurd h (hcat it (List.mem_cons_self _ _))
      | some c => exact ⟨c, rfl⟩
    obtain ⟨items', timers, hok, hlen, hacc, hrej⟩ :=
      ih (i + 1) (fun item hm => hcat item (List.mem_cons_of_mem _ hm))
    rw [filterItems, filterAccepts_ok filter it c0 hc0]
    simp only [hok]
    cases hb : (decide (filter = some "all") || includes c0.data (attrText filter).data) with
    | true =>
      refine ⟨_, _, rfl, by simp [hlen], ?_, ?_⟩
      · intro j item c hj hc hv
        cases j with
        | zero =>
          simp only [List.getElem?_cons_zero, Option.some.injEq] at hj
          subst hj; simp
        | succ j =>
          simp only [List.getElem?_cons_succ] at hj ⊢
          exact hacc j item c hj hc hv
      · intro j item c hj hc hv
        cases j with
        | zero =>
          simp only [List.getElem?_cons_zero, Option.some.injEq] at hj
          subst hj
          rw [hc0] at hc
          obtain rfl := Option.some.inj hc
          rw [hb] at hv
          exact absurd hv (by decide)
        | succ j =>
          simp only [List.getElem?_cons_succ] at hj ⊢
          obtain ⟨h1, h2⟩ := hrej j item c hj hc hv
          exact ⟨h1, by rw [show i + (j + 1) = i + 1 + j by omega]; exact h2⟩
    | false =>
      refine ⟨_, _, rfl, by simp [hlen], ?_, ?_⟩
      · intro j item c hj hc hv
        cases j with
        | zero =>
          simp only [List.getElem?_cons_zero, Option.some.injEq] at hj
          subst hj
          rw [hc0] at hc
          obtain rfl := Option.some.inj hc
          rw [hb] at hv
          exact absurd hv (by decide)
        | succ j =>
          simp only [List.getElem?_cons_succ] at hj ⊢
          exact hacc j item c hj hc hv
      · intro j item c hj hc hv
        cases j with
        | zero =>
          simp only [List.getElem?_cons_zero, Option.some.injEq] at hj
          subst hj
          exact ⟨by simp, by simp⟩
        | succ j =>
          simp only [List.getElem?_cons_succ] at hj ⊢
          obtain ⟨h1, h2⟩ := hrej j item c hj hc hv
          exact ⟨h1, List.mem_cons_of_mem _
            (by rw [show i + (j + 1) = i + 1 + j by omega]; exact h2)⟩

/-- C11, as the code has it: when every item carries `data-category`, after
`filterPortfolio(F)` and once every pending hide timer has fired, an item is
visible (no class `hide`, display `block`) if `F` is `all` or `F` occurs as a
substring of the item's `data-category` value, and it is hidden (class `hide`,
display `none`) otherwise. Every item one of whose tags is `F` is among the
visible ones, since a tag is a substring. -/
theorem filterPortfolio_visible_iff_substring (g : Gallery) (F : String)
    (hcat : ∀ item ∈ g.portfolioItems, item.category ≠ none) :
    ∃ g1, filterPortfolio (some F) g = .ok g1 ∧
      g1.currentFilter = some F ∧
      (settle g1).hideTimers = [] ∧
      (settle g1).portfolioItems.length = g.portfolioItems.length ∧
      (∀ (i : Nat) (item : PortfolioItem) (c : String),
        g.portfolioItems[i]? = some item → item.category = some c →
          (settle g1).portfolioItems[i]? =
            some (if F = "all" ∨ includes c.data F.data = true
              then { item with hide := false, display := "block" }
              else { item with hide := true, display := "none" })) ∧
      (∀ c : String, F ∈ categoryTags c → includes c.data F.data = true) := by
  obtain ⟨items', timers, hok, hlen, hacc, hrej⟩ := filterItems_ok (some F) g.portfolioItems 0 hcat
  refine ⟨{ g with
      currentFilter := some F
      portfolioItems := items'
      hideTimers := g.hideTimers ++ timers
      refreshTimers := g.refreshTimers + 1 },
    by simp only [filterPortfolio, hok], rfl, rfl, ?_, ?_, ?_⟩
  · simp only [settle, fireAll_length, hlen]
  · intro i item c hi hc
    simp only [settle]
    rw [fireAll_getElem?]
    cases hb : (decide (some F = some "all") || includes c.data (attrText (some F)).data) with
    | true =>
      have hcond : F = "all" ∨ includes c.data F.data = true := by
        simpa [attrText] using hb
      rw [hacc i item c hi hc hb, if_pos hcond]
      simp
    | false =>
      have hcond : ¬ (F = "all" ∨ includes c.data F.data = true) := by
        intro h
        have : (decide (some F = some "all") || includes c.data (attrText (some F)).data)
            = true := by simpa [attrText] using h
        rw [hb] at this
        exact absurd this (by decide)
      obtain ⟨h1, h2⟩ := hrej i item c hi hc hb
      rw [h1, if_neg hcond]
      have hmem : i ∈ g.hideTimers ++ timers :=
        List.mem_append_right _ (by simpa using h2)
      simp [hmem]
  · intro c hc
    exact tag_is_substring c F hc

theorem filterPortfolio_visible_iff_substring_witness :
    ∃ g1, filterPortfolio (some "web")
        { portfolioItems := [⟨some "web design", true, "none"⟩, ⟨some "mobile", false, ""⟩],
          currentFilter := some "all", hideTimers := [0], refreshTimers := 0,
          filterButtons := [] } = .ok g1 ∧
      g1.currentFilter = some "web" ∧
      (settle g1).hideTimers = [] ∧
      (settle g1).portfolioItems.length = 2 ∧
      (∀ (i : Nat) (item : PortfolioItem) (c : String),
        [PortfolioItem.mk (some "web design") true "none", ⟨some "mobile", false, ""⟩][i]? =
            some item → item.category = some c →
          (settle g1).portfolioItems[i]? =
            some (if "web" = "all" ∨ includes c.data "web".data = true
              then { item with hide := false, display := "block" }
              else { item with hide := true, display := "none" })) ∧
      (∀ c : String, "web" ∈ categoryTags c → includes c.data "web".data = true) :=
  filterPortfolio_visible_iff_substring
    { portfolioItems := [⟨some "web design", true, "none"⟩, ⟨some "mobile", false, ""⟩],
      currentFilter := some "all", hideTimers := [0], refreshTimers := 0, filterButtons := [] }
    "web" (by decide)

/-- C11, counterexample: an item whose `data-category` is `webapp` has the single
tag `webapp`, so the filter `web` is not in its category set; yet after
`filterPortfolio('web')` and the hide delay the item is visible. -/
theorem filterPortfolio_shows_item_without_the_tag :
    categoryTags "webapp" = ["webapp"] ∧ "web" ∉ categoryTags "webapp" ∧ "web" ≠ "all" ∧
    (filterPortfolio (some "web")
        { portfolioItems := [⟨some "webapp", true, "none"⟩], currentFilter := some "all",
          hideTimers := [], refreshTimers := 0, filterButtons := [] }).map
      (fun g => (settle g).portfolioItems) =
      .ok [⟨some "webapp", false, "block"⟩] := by
  refine ⟨by decide, by decide, by decide, rfl⟩

theorem filterPortfolio_ok_of_categories (filter : Option String) (g : Gallery)
    (hcat : ∀ item ∈ g.portfolioItems, item.category ≠ none) :
    ∃ g1, filterPortfolio filter g = .ok g1 ∧ g1.currentFilter = filter ∧
      g1.filterButtons = g.filterButtons := by
  obtain ⟨items', timers, hok, _, _, _⟩ := filterItems_ok filter g.portfolioItems 0 hcat
  exact ⟨{ g with
      currentFilter := filter
      portfolioItems := items'
      hideTimers := g.hideTimers ++ timers
      refreshTimers := g.refreshTimers + 1 },
    by simp only [filterPortfolio, hok], rfl, rfl⟩

/-- C12: when every item carries `data-category` (so that `filterPortfolio` does
not throw), after a click on a filter button, whatever the buttons' classes and
the filter were before, a filter button is active exactly when it is the clicked
one, no `data-filter` has changed, and `currentFilter` is the `data-filter` of the
clicked button. -/
theorem click_marks_exactly_the_clicked_button (g : Gallery) (k : Nat) (button : FilterButton)
    (hk : g.filterButtons[k]? = some button)
    (hcat : ∀ item ∈ g.portfolioItems, item.category ≠ none) :
    ∃ g', clickFilterButton k g = .ok g' ∧
      g'.currentFilter = button.dataFilter ∧
      g'.filterButtons.map FilterButton.dataFilter =
        g.filterButtons.map FilterButton.dataFilter ∧
      g'.filterButtons[k]? = some { dataFilter := button.dataFilter, active := true } ∧
      (∀ (j : Nat) (b : FilterButton), g'.filterButtons[j]? = some b →
        (b.active = true ↔ j = k)) := by
  obtain ⟨g1, hok, hcur, hbtn⟩ := filterPortfolio_ok_of_categories button.dataFilter g hcat
  refine ⟨updateActiveFilter k g1, by simp only [clickFilterButton, hk, hok], hcur, ?_, ?_, ?_⟩
  · simp only [updateActiveFilter, hbtn]
    apply List.ext_getElem?
    intro j
    simp only [List.getElem?_map, List.getElem?_modify]
    cases g.filterButtons[j]? with
    | none => rfl
    | some b => by_cases hkj : k = j <;> simp [hkj]
  · simp only [updateActiveFilter, hbtn, List.getElem?_modify_eq, List.getElem?_map, hk]
    rfl
  · intro j b hj
    simp only [updateActiveFilter, hbtn, List.getElem?_modify, List.getElem?_map] at hj
    cases hg : g.filterButtons[j]? with
    | none => rw [hg] at hj; simp at hj
    | some b0 =>
      rw [hg] at hj
      by_cases hkj : k = j
      · simp only [hkj, if_true, Option.map_some', Option.map_eq_map, Option.some.injEq] at hj
        subst hj
        simp [hkj]
      · simp only [hkj, if_false, Option.map_some', Option.map_eq_map, Option.some.injEq] at hj
        subst hj
        have : ¬ (j = k) := fun h => hkj h.symm
        simp [this]

theorem click_marks_exactly_the_clicked_button_witness :
    ∃ g', clickFilterButton 1
        { portfolioItems := [⟨some "web design", false, ""⟩, ⟨some "mobile", false, ""⟩],
          currentFilter := some "all", hideTimers := [], refreshTimers := 0,
          filterButtons := [⟨some "all", true⟩, ⟨some "web", true⟩, ⟨none, true⟩] } = .ok g' ∧
      g'.currentFilter = some "web" ∧
      g'.filterButtons.map FilterButton.dataFilter = [some "all", some "web", none] ∧
      g'.filterButtons[1]? = some { dataFilter := some "web", active := true } ∧
      (∀ (j : Nat) (b : FilterButton), g'.filterButtons[j]? = some b →
        (b.active = true ↔ j = 1)) :=
  click_marks_exactly_the_clicked_button
    { portfolioItems := [⟨some "web design", false, ""⟩, ⟨some "mobile", false, ""⟩],
      currentFilter := some "all", hideTimers := [], refreshTimers := 0,
      filterButtons := [⟨some "all", true⟩, ⟨some "web", true⟩, ⟨none, true⟩] }
    1 ⟨some "web", true⟩ rfl (by decide)


/-! ## Theme -/

theorem toggleTheme_ok (s : ThemeState) (hw : s.storageFails = false)
    (hi : s.toggleIcon ≠ some none) :
    (toggleTheme s).2 = none ∧
    (toggleTheme s).1.currentTheme = (if s.currentTheme = "light" then "dark" else "light") ∧
    (toggleTheme s).1.dataTheme = some (if s.currentTheme = "light" then "dark" else "light") ∧
    (toggleTheme s).1.storedTheme = some (if s.currentTheme = "light" then "dark" else "light") ∧
    (toggleTheme s).1.storageFails = false ∧
    (toggleTheme s).1.toggleIcon ≠ some none ∧
    (toggleTheme s).1.toggleIcon =
      s.toggleIcon.map (fun _ => some
        (if (if s.currentTheme = "light" then "dark" else "light") = "dark"
          then "fas fa-sun" else "fas fa-moon")) := by
  cases hicon : s.toggleIcon with
  | none =>
    simp [toggleTheme, updateThemeToggle, hw, hicon]
  | some inner =>
    cases inner with
    | none => exact absurd hicon hi
    | some cls =>
      by_cases hl : s.currentTheme = "light"
      · simp [toggleTheme, updateThemeToggle, hw, hicon, hl]
      · have hd : ¬ ("light" = "dark") := by decide
        simp [toggleTheme, updateThemeToggle, hw, hicon, hl, hd]

/-- C13, as the code has it: in a state as start-up leaves it (the current theme
is `light` or `dark`, the attribute `data-theme` equals it, the storage write
works and the toggle has its icon), two calls of `toggleTheme` return normally
and restore the current theme and the attribute; the persisted entry is then the
current theme, so it is restored exactly if it was that before, and from the
state without an entry it becomes `light`, which the start-up read treats as it
treats the missing entry. -/
theorem toggleTheme_twice (s : ThemeState) (hw : s.storageFails = false)
    (hi : s.toggleIcon ≠ some none)
    (ht : s.currentTheme = "light" ∨ s.currentTheme = "dark")
    (ha : s.dataTheme = some s.currentTheme) :
    (toggleTheme s).2 = none ∧ (toggleTheme (toggleTheme s).1).2 = none ∧
    (toggleTheme (toggleTheme s).1).1.currentTheme = s.currentTheme ∧
    (toggleTheme (toggleTheme s).1).1.dataTheme = s.dataTheme ∧
    (toggleTheme (toggleTheme s).1).1.storedTheme = some s.currentTheme ∧
    (s.storedTheme = some s.currentTheme →
      (toggleTheme (toggleTheme s).1).1.storedTheme = s.storedTheme) ∧
    (s.currentTheme = startupTheme s.storedTheme →
      startupTheme (toggleTheme (toggleTheme s).1).1.storedTheme =
        startupTheme s.storedTheme) := by
  obtain ⟨a1, a2, _, _, a5, a6, _⟩ := toggleTheme_ok s hw hi
  obtain ⟨b1, b2, b3, b4, _, _, _⟩ := toggleTheme_ok (toggleTheme s).1 a5 a6
  have hd : ¬ ("dark" = "light") := by decide
  have hback : (if (toggleTheme s).1.currentTheme = "light" then "dark" else "light") =
      s.currentTheme := by
    rw [a2]
    rcases ht with h | h <;> simp [h, hd]
  rw [hback] at b2 b3 b4
  refine ⟨a1, b1, b2, by rw [b3, ha], b4, ?_, ?_⟩
  · intro h; rw [b4, h]
  · intro h
    rw [b4, ← h]
    rcases ht with h' | h' <;> rw [h'] <;> decide

theorem toggleTheme_twice_witness :
    (toggleTheme ⟨"dark", some "dark", some "dark", false, some (some "fas fa-sun"), 0⟩).2 = none ∧
    (toggleTheme (toggleTheme
      ⟨"dark", some "dark", some "dark", false, some (some "fas fa-sun"), 0⟩).1).2 = none ∧
    (toggleTheme (toggleTheme
      ⟨"dark", some "dark", some "dark", false, some (some "fas fa-sun"), 0⟩).1).1.currentTheme
      = "dark" ∧
    (toggleTheme (toggleTheme
      ⟨"dark", some "dark", some "dark", false, some (some "fas fa-sun"), 0⟩).1).1.dataTheme
      = some "dark" ∧
    (toggleTheme (toggleTheme
      ⟨"dark", some "dark", some "dark", false, some (some "fas fa-sun"), 0⟩).1).1.storedTheme
      = some "dark" ∧
    (some "dark" = some "dark" →
      (toggleTheme (toggleTheme
        ⟨"dark", some "dark", some "dark", false, some (some "fas fa-sun"), 0⟩).1).1.storedTheme
        = some "dark") ∧
    ("dark" = startupTheme (some "dark") →
      startupTheme (toggleTheme (toggleTheme
        ⟨"dark", some "dark", some "dark", false, some (some "fas fa-sun"), 0⟩).1).1.storedTheme
        = startupTheme (some "dark")) :=
  toggleTheme_twice ⟨"dark", some "dark", some "dark", false, some (some "fas fa-sun"), 0⟩
    rfl (by decide) (Or.inr rfl) rfl

/-- C13, counterexample: in the state start-up leaves when nothing has been
persisted (theme `light`, attribute `light`, no entry), two calls of
`toggleTheme` leave the entry `light`: the persisted state is not the original. -/
theorem toggleTheme_twice_creates_entry :
    startupTheme none = "light" ∧
    (toggleTheme (toggleTheme
      ⟨"light", some "light", none, false, some (some "fas fa-moon"), 0⟩).1).1.storedTheme
      = some "light" ∧
    (toggleTheme (toggleTheme
      ⟨"light", some "light", none, false, some (some "fas fa-moon"), 0⟩).1).1.storedTheme
      ≠ (none : Option String) := by
  decide

/-- C14: when the storage write works, the value `toggleTheme` writes is the new
current theme, it is `light` or `dark`, and the start-up read of an entry holding
it yields it again; the start-up read without an entry yields `light`. -/
theorem written_theme_reads_back (s : ThemeState) (hw : s.storageFails = false) :
    ∃ v, (toggleTheme s).1.storedTheme = some v ∧
      v = (toggleTheme s).1.currentTheme ∧
      (v = "light" ∨ v = "dark") ∧
      startupTheme (some v) = v ∧
      startupTheme none = "light" := by
  have hstore : (toggleTheme s).1.storedTheme =
        some (if s.currentTheme = "light" then "dark" else "light") ∧
      (toggleTheme s).1.currentTheme = (if s.currentTheme = "light" then "dark" else "light") := by
    cases hicon : s.toggleIcon with
    | none => simp [toggleTheme, updateThemeToggle, hw, hicon]
    | some inner =>
      cases inner with
      | none => simp [toggleTheme, updateThemeToggle, hw, hicon]
      | some cls =>
        by_cases hl : s.currentTheme = "light"
        · simp [toggleTheme, updateThemeToggle, hw, hicon, hl]
        · have hd : ¬ ("light" = "dark") := by decide
          simp [toggleTheme, updateThemeToggle, hw, hicon, hl, hd]
  refine ⟨_, hstore.1, hstore.2.symm, ?_, ?_, rfl⟩
  · by_cases hl : s.currentTheme = "light"
    · simp [hl]
    · simp [hl]
  · by_cases hl : s.currentTheme = "light"
    · rw [if_pos hl]; decide
    · rw [if_neg hl]; decide

theorem written_theme_reads_back_witness :
    ∃ v, (toggleTheme ⟨"light", some "light", none, false, none, 0⟩).1.storedTheme = some v ∧
      v = (toggleTheme ⟨"light", some "light", none, false, none, 0⟩).1.currentTheme ∧
      (v = "light" ∨ v = "dark") ∧
      startupTheme (some v) = v ∧
      startupTheme none = "light" :=
  written_theme_reads_back ⟨"light", some "light", none, false, none, 0⟩ rfl

/-- C15, at the failing input: with a storage whose write throws, `toggleTheme`
throws the storage exception; the current theme and the attribute are already
`dark`, nothing is stored, and the icon still is the one of the light theme. The
sibling `StorageManager.set` returns normally in the same state. -/
theorem toggleTheme_propagates_storage_failure :
    toggleTheme ⟨"light", some "light", none, true, some (some "fas fa-moon"), 0⟩ =
      (⟨"dark", some "dark", none, true, some (some "fas fa-moon"), 0⟩,
        some JsError.domException) ∧
    (storageManagerSet "dark"
      ⟨"light", some "light", none, true, some (some "fas fa-moon"), 0⟩).2 = none := by
  decide


/-! ## Rate limiters -/

theorem throttle_step (limit : Nat) (last : Option Nat) (log : List Nat) (t : Nat) :
    (!((Throttle.after limit last log).advance t).inThrottle) = spacedFrom limit last t ∧
    ((Throttle.after limit last log).advance t).call limit t =
      Throttle.after limit (if spacedFrom limit last t then some t else last)
        (if spacedFrom limit last t then log ++ [t] else log) := by
  cases last with
  | none => simp [Throttle.after, Throttle.advance, Throttle.call, spacedFrom]
  | some e =>
    by_cases h : e + limit ≤ t
    · have h' : ¬ (t < e + limit) := by omega
      simp [Throttle.after, Throttle.advance, Throttle.call, spacedFrom, h, h']
    · simp [Throttle.after, Throttle.advance, Throttle.call, spacedFrom, h]

theorem throttleDecisions_cons (limit : Nat) (last : Option Nat) (log : List Nat) (t : Nat)
    (ts : List Nat) :
    throttleDecisions limit (t :: ts) (Throttle.after limit last log) =
      spacedFrom limit last t ::
        throttleDecisions limit ts
          (Throttle.after limit (if spacedFrom limit last t then some t else last)
            (if spacedFrom limit last t then log ++ [t] else log)) := by
  rw [throttleDecisions, (throttle_step limit last log t).1, (throttle_step limit last log t).2]

theorem throttleDecisions_log (limit : Nat) (ts : List Nat) : ∀ (last : Option Nat)
    (log log' : List Nat),
    throttleDecisions limit ts (Throttle.after limit last log) =
      throttleDecisions limit ts (Throttle.after limit last log') := by
  induction ts with
  | nil => intro last log log'; rfl
  | cons t ts ih =>
    intro last log log'
    rw [throttleDecisions_cons, throttleDecisions_cons]
    congr 1
    exact ih _ _ _

theorem throttleDecisions_length (limit : Nat) (ts : List Nat) : ∀ s : Throttle,
    (throttleDecisions limit ts s).length = ts.length := by
  induction ts with
  | nil => intro s; rfl
  | cons t ts ih => intro s; simp [throttleDecisions, ih]

theorem throttleRun_executions (limit : Nat) (ts : List Nat) : ∀ (last : Option Nat)
    (log : List Nat),
    (throttleRun limit ts (Throttle.after limit last log)).executions =
      log ++ executedTimes ts (throttleDecisions limit ts (Throttle.after limit last log)) := by
  induction ts with
  | nil =>
    intro last log
    cases last <;> simp [throttleRun, throttleDecisions, executedTimes, Throttle.after]
  | cons t ts ih =>
    intro last log
    rw [throttleRun, (throttle_step limit last log t).2, ih, throttleDecisions_cons]
    cases hb : spacedFrom limit last t
    · simp [executedTimes]
    · simp [executedTimes]

theorem executedTimes_spaced (limit : Nat) (ts : List Nat) : ∀ (last : Option Nat)
    (log : List Nat),
    (executedTimes ts (throttleDecisions limit ts (Throttle.after limit last log))).Pairwise
        (fun a b => a + limit ≤ b) ∧
    ∀ x ∈ executedTimes ts (throttleDecisions limit ts (Throttle.after limit last log)),
      ∀ e, last = some e → e + limit ≤ x := by
  induction ts with
  | nil => intro last log; simp [throttleDecisions, executedTimes]
  | cons t ts ih =>
    intro last log
    rw [throttleDecisions_cons]
    cases hb : spacedFrom limit last t
    · simp only [executedTimes, Bool.false_eq_true, if_false]
      exact ih last log
    · simp only [executedTimes, if_true]
      obtain ⟨h1, h2⟩ := ih (some t) (log ++ [t])
      refine ⟨List.pairwise_cons.2 ⟨fun x hx => h2 x hx t rfl, h1⟩, ?_⟩
      intro x hx e he
      subst he
      have hle : e + limit ≤ t := by simpa [spacedFrom] using hb
      rcases List.mem_cons.1 hx with rfl | hx
      · exact hle
      · have := h2 x hx t rfl
        omega

theorem throttleDecisions_iff (limit : Nat) (ts : List Nat) : ∀ (last : Option Nat)
    (log : List Nat), ts.Pairwise (fun a b => a ≤ b) →
    (∀ e, last = some e → ∀ t ∈ ts, e ≤ t) →
    ∀ (i ti : Nat), ts[i]? = some ti →
      ((throttleDecisions limit ts (Throttle.after limit last log))[i]? = some true ↔
        (∀ e, last = some e → e + limit ≤ ti) ∧
        ∀ (j tj : Nat), j < i → ts[j]? = some tj →
          (throttleDecisions limit ts (Throttle.after limit last log))[j]? = some true →
          tj + limit ≤ ti) := by
  induction ts with
  | nil => intro last log _ _ i ti hi; simp at hi
  | cons t ts ih =>
    intro last log hsorted hlast i ti hi
    rw [throttleDecisions_cons]
    obtain ⟨hhead, htail⟩ := List.pairwise_cons.1 hsorted
    cases i with
    | zero =>
      simp only [List.getElem?_cons_zero, Option.some.injEq] at hi
      subst hi
      simp only [List.getElem?_cons_zero, Option.some.injEq, Nat.not_lt_zero, false_imp_iff,
        implies_true, and_true]
      cases last with
      | none => simp [spacedFrom]
      | some e => simp [spacedFrom]
    | succ i =>
      simp only [List.getElem?_cons_succ] at hi ⊢
      have hti : ti ∈ ts := by
        obtain ⟨hlt, hget⟩ := List.getElem?_eq_some.1 hi
        rw [← hget]
        exact List.getElem_mem hlt
      have htle : t ≤ ti := hhead ti hti
      cases hb : spacedFrom limit last t
      · simp only [Bool.false_eq_true, if_false]
        rw [ih last log htail (fun e he x hx => hlast e he x (List.mem_cons_of_mem _ hx)) i ti hi]
        constructor
        · rintro ⟨h1, h2⟩
          refine ⟨h1, ?_⟩
          intro j tj hj htj hdec
          cases j with
          | zero => simp at hdec
          | succ j =>
            simp only [List.getElem?_cons_succ] at htj hdec
            exact h2 j tj (by omega) htj hdec
        · rintro ⟨h1, h2⟩
          refine ⟨h1, ?_⟩
          intro j tj hj htj hdec
          exact h2 (j + 1) tj (by omega) (by simpa using htj) (by simpa using hdec)
      · simp only [if_true]
        rw [ih (some t) (log ++ [t]) htail (fun e he x hx => by
          obtain rfl := Option.some.inj he
          exact hhead x hx) i ti hi]
        constructor
        · rintro ⟨h1, h2⟩
          have h1' := h1 t rfl
          refine ⟨?_, ?_⟩
          · intro e he
            have := hlast e he t (List.mem_cons_self _ _)
            omega
          · intro j tj hj htj hdec
            cases j with
            | zero =>
              simp only [List.getElem?_cons_zero, Option.some.injEq] at htj
              subst htj
              exact h1'
            | succ j =>
              simp only [List.getElem?_cons_succ] at htj hdec
              exact h2 j tj (by omega) htj hdec
        · rintro ⟨_, h2⟩
          refine ⟨?_, ?_⟩
          · intro e he
            have het : t = e := Option.some.inj he
            rw [← het]
            exact h2 0 t (by omega) (by simp) (by simp)
          · intro j tj hj htj hdec
            exact h2 (j + 1) tj (by omega) (by simpa using htj) (by simpa using hdec)

/-- C16: for the function returned by `throttle(func, limit)` and calls at
non-decreasing times: the first call runs `func`; a call runs `func` exactly when
every earlier call that ran it lies at least `limit` before; the log of runs holds
exactly the times of the calls that ran `func` (a dropped call is never run
later); and any two runs are at least `limit` apart. -/
theorem throttle_runs_spaced (limit : Nat) (times : List Nat)
    (hsorted : times.Pairwise (fun a b => a ≤ b)) :
    (throttleDecisions limit times Throttle.fresh).length = times.length ∧
    (times ≠ [] → (throttleDecisions limit times Throttle.fresh)[0]? = some true) ∧
    (∀ (i ti : Nat), times[i]? = some ti →
      ((throttleDecisions limit times Throttle.fresh)[i]? = some true ↔
        ∀ (j tj : Nat), j < i → times[j]? = some tj →
          (throttleDecisions limit times Throttle.fresh)[j]? = some true → tj + limit ≤ ti)) ∧
    (throttleRun limit times Throttle.fresh).executions =
      executedTimes times (throttleDecisions limit times Throttle.fresh) ∧
    (throttleRun limit times Throttle.fresh).executions.Pairwise (fun a b => a + limit ≤ b) := by
  have hfresh : Throttle.fresh = Throttle.after limit none [] := rfl
  have hexec := throttleRun_executions limit times none []
  rw [List.nil_append] at hexec
  rw [hfresh]
  refine ⟨throttleDecisions_length limit times _, ?_, ?_, hexec, ?_⟩
  · intro hne
    cases times with
    | nil => exact absurd rfl hne
    | cons t ts => rw [throttleDecisions_cons]; simp [spacedFrom]
  · intro i ti hi
    rw [throttleDecisions_iff limit times none [] hsorted (by simp) i ti hi]
    simp
  · rw [hexec]
    exact (executedTimes_spaced limit times none []).1

theorem throttle_runs_spaced_witness :
    (throttleDecisions 100 [0, 50, 99, 100, 150, 260] Throttle.fresh).length = 6 ∧
    (([0, 50, 99, 100, 150, 260] : List Nat) ≠ [] →
      (throttleDecisions 100 [0, 50, 99, 100, 150, 260] Throttle.fresh)[0]? = some true) ∧
    (∀ (i ti : Nat), ([0, 50, 99, 100, 150, 260] : List Nat)[i]? = some ti →
      ((throttleDecisions 100 [0, 50, 99, 100, 150, 260] Throttle.fresh)[i]? = some true ↔
        ∀ (j tj : Nat), j < i → ([0, 50, 99, 100, 150, 260] : List Nat)[j]? = some tj →
          (throttleDecisions 100 [0, 50, 99, 100, 150, 260] Throttle.fresh)[j]? = some true →
          tj + 100 ≤ ti)) ∧
    (throttleRun 100 [0, 50, 99, 100, 150, 260] Throttle.fresh).executions =
      executedTimes [0, 50, 99, 100, 150, 260]
        (throttleDecisions 100 [0, 50, 99, 100, 150, 260] Throttle.fresh) ∧
    (throttleRun 100 [0, 50, 99, 100, 150, 260] Throttle.fresh).executions.Pairwise
      (fun a b => a + 100 ≤ b) :=
  throttle_runs_spaced 100 [0, 50, 99, 100, 150, 260] (by decide)

theorem debounce_burst_aux {α : Type} (wait : Nat) (cs : List (Nat × α)) :
    ∀ (c : Nat × α) (s : Debounce α), s.executions = [] →
      (∀ due args, s.timeout = some (due, args) → c.1 < due) →
      List.Chain' (fun a b : Nat × α => a.1 ≤ b.1 ∧ b.1 < a.1 + wait) (c :: cs) →
      (debounceRun wait false (c :: cs) s).executions = [] ∧
      (debounceRun wait false (c :: cs) s).timeout =
        some (((c :: cs).getLast (List.cons_ne_nil c cs)).1 + wait,
          ((c :: cs).getLast (List.cons_ne_nil c cs)).2) := by
  induction cs with
  | nil =>
    intro c s hex hdue _
    have hadv : s.advance false c.1 = s := by
      unfold Debounce.advance
      cases ht : s.timeout with
      | none => rfl
      | some p =>
        obtain ⟨due, args⟩ := p
        have := hdue due args ht
        have hn : ¬ (due ≤ c.1) := by omega
        simp [hn]
    simp [debounceRun, hadv, Debounce.call, hex]
  | cons d cs ih =>
    intro c s hex hdue hchain
    have hadv : s.advance false c.1 = s := by
      unfold Debounce.advance
      cases ht : s.timeout with
      | none => rfl
      | some p =>
        obtain ⟨due, args⟩ := p
        have := hdue due args ht
        have hn : ¬ (due ≤ c.1) := by omega
        simp [hn]
    obtain ⟨hrel, hrest⟩ := List.chain'_cons.1 hchain
    rw [debounceRun, hadv]
    have := ih d (s.call wait false c.1 c.2) (by simp [Debounce.call, hex])
      (by
        intro due args h
        simp only [Debounce.call, Option.some.injEq, Prod.mk.injEq] at h
        omega)
      hrest
    rw [List.getLast_cons (List.cons_ne_nil d cs)]
    exact this

/-- C17: for the function returned by `debounce(func, wait)` without `immediate`
and a burst of at least one call in which each call comes less than `wait` after
the one before: `func` has not run when the last call of the burst has been made,
nor at any time before `wait` has passed since that call; once `wait` has passed
since the last call, `func` has run exactly once, at `wait` after the last call
and with the arguments of the last call, and no timer is pending. -/
theorem debounce_runs_once_after_burst {α : Type} (wait : Nat)
    (calls : List (Nat × α)) (last : Nat × α)
    (hburst : List.Chain' (fun a b : Nat × α => a.1 ≤ b.1 ∧ b.1 < a.1 + wait)
      (calls ++ [last])) :
    (debounceRun wait false (calls ++ [last]) Debounce.fresh).executions = [] ∧
    (∀ now, now < last.1 + wait →
      ((debounceRun wait false (calls ++ [last]) Debounce.fresh).advance false now).executions
        = []) ∧
    (∀ now, last.1 + wait ≤ now →
      ((debounceRun wait false (calls ++ [last]) Debounce.fresh).advance false now).executions
        = [(last.1 + wait, last.2)] ∧
      ((debounceRun wait false (calls ++ [last]) Debounce.fresh).advance false now).timeout
        = none) := by
  have key : (debounceRun wait false (calls ++ [last]) Debounce.fresh).executions = [] ∧
      (debounceRun wait false (calls ++ [last]) Debounce.fresh).timeout =
        some (last.1 + wait, last.2) := by
    cases hc : calls ++ [last] with
    | nil => simp at hc
    | cons c cs =>
      rw [hc] at hburst
      have h := debounce_burst_aux wait cs c Debounce.fresh rfl
        (by intro due args h; simp [Debounce.fresh] at h) hburst
      have hl : (c :: cs).getLast (List.cons_ne_nil c cs) = last := by
        have : (calls ++ [last]).getLast (by simp) = last := List.getLast_append_singleton _
        simpa [hc] using this
      rw [hl] at h
      exact h
  obtain ⟨k1, k2⟩ := key
  refine ⟨k1, ?_, ?_⟩
  · intro now hnow
    have hn : ¬ (last.1 + wait ≤ now) := by omega
    simp [Debounce.advance, k2, hn, k1]
  · intro now hnow
    simp [Debounce.advance, k2, hnow, k1]

theorem debounce_runs_once_after_burst_witness :
    (debounceRun 250 false ([(0, "a"), (100, "b")] ++ [(349, "c")]) Debounce.fresh).executions
      = [] ∧
    (∀ now, now < 349 + 250 →
      ((debounceRun 250 false ([(0, "a"), (100, "b")] ++ [(349, "c")])
        Debounce.fresh).advance false now).executions = []) ∧
    (∀ now, 349 + 250 ≤ now →
      ((debounceRun 250 false ([(0, "a"), (100, "b")] ++ [(349, "c")])
        Debounce.fresh).advance false now).executions = [(349 + 250, "c")] ∧
      ((debounceRun 250 false ([(0, "a"), (100, "b")] ++ [(349, "c")])
        Debounce.fresh).advance false now).timeout = none) :=
  debounce_runs_once_after_burst 250 [(0, "a"), (100, "b")] (349, "c")
    (by simp)


/-! ## Smooth scroll -/

theorem easeInOutQuad_at_start (b c d : ℚ) (_hd : d ≠ 0) : easeInOutQuad 0 b c d = b := by
  simp [easeInOutQuad]

theorem easeInOutQuad_at_end (b c d : ℚ) (hd : 0 < d) : easeInOutQuad d b c d = b + c := by
  have h2 : d / (d / 2) = 2 := by field_simp
  simp only [easeInOutQuad, h2]
  norm_num
  ring

theorem easeInOutQuad_past_end (t b c d : ℚ) (hd : 0 < d) (ht : d ≤ t) :
    easeInOutQuad t b c d = b + c - 2 * c * ((t - d) / d) ^ 2 := by
  have hge : ¬ (t / (d / 2) < 1) := by
    rw [not_lt, le_div_iff₀ (by positivity)]
    linarith
  simp only [easeInOutQuad, if_neg hge]
  field_simp
  ring

theorem smoothScrollTo_first_frame (offsetTop pageYOffset duration t : ℚ)
    (_hd : duration ≠ 0) :
    (smoothScrollTo offsetTop pageYOffset duration [t]).scrolled = [pageYOffset] := by
  simp [smoothScrollTo, runFrames, animation, easeInOutQuad]

theorem smoothScrollTo_frame_at_duration (offsetTop pageYOffset duration t : ℚ)
    (hd : 0 < duration) :
    (smoothScrollTo offsetTop pageYOffset duration [t, t + duration]).scrolled =
      [pageYOffset, offsetTop - 80] ∧
    (smoothScrollTo offsetTop pageYOffset duration [t, t + duration]).frameRequested = false := by
  have h0 : easeInOutQuad 0 pageYOffset (offsetTop - 80 - pageYOffset) duration
      = pageYOffset := easeInOutQuad_at_start _ _ _ hd.ne'
  have h1 : easeInOutQuad duration pageYOffset (offsetTop - 80 - pageYOffset) duration
      = offsetTop - 80 := by
    rw [easeInOutQuad_at_end _ _ _ hd]; ring
  simp only [smoothScrollTo, runFrames, animation, if_true, List.nil_append, sub_self, hd,
    decide_True, List.singleton_append, add_sub_cancel_left, lt_self_iff_false,
    decide_False, h0, h1]
  exact ⟨trivial, trivial⟩

/-- C18, at the failing input: scrolling from offset 0 to a target with
`offsetTop` 1080 over 1000 ms with frames at 0, 500 and 1016 ms writes 0, 500 and,
on the last frame, where the elapsed time exceeds the duration, 999.488 instead of
the target position 1000; no further frame is requested. -/
theorem smoothScrollTo_late_frame_misses_target :
    (smoothScrollTo 1080 0 1000 [0, 500, 1016]).scrolled = [0, 500, 124936 / 125] ∧
    (smoothScrollTo 1080 0 1000 [0, 500, 1016]).frameRequested = false ∧
    (124936 / 125 : ℚ) ≠ 1080 - 80 := by
  refine ⟨?_, ?_, ?_⟩
  · norm_num [smoothScrollTo, runFrames, animation, easeInOutQuad]
  · norm_num [smoothScrollTo, runFrames, animation, easeInOutQuad]
  · norm_num

/-! ## Navigation highlighting -/

theorem cssPreprocess_plain (l : List Char) :
    ∀ afterCR : Bool, (∀ c ∈ l, c ≠ Char.ofNat 13 ∧ c ≠ Char.ofNat 10 ∧ c ≠ Char.ofNat 12 ∧
      c ≠ Char.ofNat 0) → cssPreprocess afterCR l = l := by
  induction l with
  | nil => intro _ _; rfl
  | cons c cs ih =>
    intro afterCR h
    obtain ⟨h1, h2, h3, h4⟩ := h c (List.mem_cons_self _ _)
    rw [cssPreprocess, if_neg h1, if_neg h2, if_neg h3, if_neg h4,
      ih false (fun x hx => h x (List.mem_cons_of_mem _ hx))]

theorem consumeString_plain (l : List Char) :
    ∀ (value rest : List Char), (∀ c ∈ l, c ≠ quotationMark ∧ c ≠ Char.ofNat 10 ∧
      c ≠ reverseSolidus) →
      consumeString .plain value (l ++ quotationMark :: rest) = .closed (value ++ l) rest := by
  induction l with
  | nil =>
    intro value rest _
    simp [consumeString]
  | cons c cs ih =>
    intro value rest h
    obtain ⟨h1, h2, h3⟩ := h c (List.mem_cons_self _ _)
    rw [List.cons_append, consumeString, if_neg h1, if_neg h2, if_neg h3,
      ih _ rest (fun x hx => h x (List.mem_cons_of_mem _ hx))]
    simp

theorem cssPlain_iff (id : String) : cssPlain id = true ↔
    ∀ c ∈ id.data, c ≠ quotationMark ∧ c ≠ reverseSolidus ∧ c ≠ Char.ofNat 10 ∧
      c ≠ Char.ofNat 13 ∧ c ≠ Char.ofNat 12 ∧ c ≠ Char.ofNat 0 := by
  simp [cssPlain, List.all_eq_true, and_assoc]

/-- The selector text built from a plain id says `href` equals `#` followed by the id. -/
theorem readNavSelector_plain (id : String) (h : cssPlain id = true) :
    readNavSelector id = .hrefEquals ("#" ++ id) := by
  rw [cssPlain_iff] at h
  have hq : quotationMark ≠ Char.ofNat 13 ∧ quotationMark ≠ Char.ofNat 10 ∧
      quotationMark ≠ Char.ofNat 12 ∧ quotationMark ≠ Char.ofNat 0 := by decide
  have hb : (']' : Char) ≠ Char.ofNat 13 ∧ (']' : Char) ≠ Char.ofNat 10 ∧
      (']' : Char) ≠ Char.ofNat 12 ∧ (']' : Char) ≠ Char.ofNat 0 := by decide
  have hh : ('#' : Char) ≠ Char.ofNat 13 ∧ ('#' : Char) ≠ Char.ofNat 10 ∧
      ('#' : Char) ≠ Char.ofNat 12 ∧ ('#' : Char) ≠ Char.ofNat 0 := by decide
  have hh2 : ('#' : Char) ≠ quotationMark ∧ ('#' : Char) ≠ Char.ofNat 10 ∧
      ('#' : Char) ≠ reverseSolidus := by decide
  have hpre : cssPreprocess false ('#' :: id.data ++ [quotationMark, ']']) =
      '#' :: id.data ++ [quotationMark, ']'] := by
    apply cssPreprocess_plain
    intro c hc
    simp only [List.cons_append, List.mem_cons, List.mem_append, List.mem_singleton,
      List.not_mem_nil, or_false] at hc
    rcases hc with rfl | hc | rfl | rfl
    · exact hh
    · obtain ⟨-, -, h3, h4, h5, h6⟩ := h c hc
      exact ⟨h4, h3, h5, h6⟩
    · exact hq
    · exact hb
  have hcons : consumeString .plain [] (('#' :: id.data) ++ quotationMark :: [']']) =
      .closed ([] ++ '#' :: id.data) [']'] := by
    apply consumeString_plain
    intro c hc
    rw [List.mem_cons] at hc
    rcases hc with rfl | hc
    · exact hh2
    · obtain ⟨h1, h2, h3, -⟩ := h c hc
      exact ⟨h1, h3, h2⟩
  have e : '#' :: id.data ++ [quotationMark, ']'] = ('#' :: id.data) ++ quotationMark :: [']'] :=
    rfl
  unfold readNavSelector
  rw [hpre, e, hcons]
  simp only [List.nil_append, if_true]
  congr 1

theorem findNavLink_plain (id : String) (links : List NavLink) (h : cssPlain id = true) :
    findNavLink id links =
      match firstIndexOf ("#" ++ id) (links.map NavLink.href) with
      | some k => .found k
      | none => .missing := by
  unfold findNavLink
  rw [readNavSelector_plain id h]

theorem updateActiveNavLink_href (k : Nat) (links : List NavLink) :
    (updateActiveNavLink k links).map NavLink.href = links.map NavLink.href := by
  unfold updateActiveNavLink
  apply List.ext_getElem?
  intro j
  simp only [List.getElem?_map, List.getElem?_modify]
  cases links[j]? with
  | none => rfl
  | some l => by_cases hkj : k = j <;> simp [hkj]

theorem updateActiveNavLink_congr (k : Nat) (links links' : List NavLink)
    (h : links'.map NavLink.href = links.map NavLink.href) :
    updateActiveNavLink k links' = updateActiveNavLink k links := by
  unfold updateActiveNavLink
  have hmap : links'.map (fun link => { link with active := false }) =
      links.map (fun link => { link with active := false }) := by
    have e : ∀ l : List NavLink, l.map (fun link => { link with active := false }) =
        (l.map NavLink.href).map (fun h => NavLink.mk h false) := by
      intro l; simp [List.map_map, Function.comp_def]
    rw [e, e, h]
  rw [hmap]

theorem updateActiveNavLink_active (k : Nat) (links : List NavLink) (j : Nat) (l : NavLink)
    (h : (updateActiveNavLink k links)[j]? = some l) : l.active = true ↔ j = k := by
  simp only [updateActiveNavLink, List.getElem?_modify, List.getElem?_map] at h
  cases hg : links[j]? with
  | none => rw [hg] at h; simp at h
  | some l0 =>
    rw [hg] at h
    by_cases hkj : k = j
    · simp only [hkj, if_true, Option.map_some', Option.map_eq_map, Option.some.injEq] at h
      subst h
      simp [hkj]
    · simp only [hkj, if_false, Option.map_some', Option.map_eq_map, Option.some.injEq] at h
      subst h
      have : ¬ (j = k) := fun h => hkj h.symm
      simp [this]

theorem firstIndexOf_lt (x : String) (ys : List String) :
    ∀ k, firstIndexOf x ys = some k → k < ys.length := by
  induction ys with
  | nil => intro k h; simp [firstIndexOf] at h
  | cons y ys ih =>
    intro k h
    unfold firstIndexOf at h
    split at h
    · obtain rfl := Option.some.inj h
      simp
    · cases hr : firstIndexOf x ys with
      | none => rw [hr] at h; simp at h
      | some k' =>
        rw [hr] at h
        simp only [Option.map_some', Option.some.injEq] at h
        subst h
        have := ih k' hr
        simp only [List.length_cons]
        omega

theorem firstIndexOf_getElem? (x : String) (ys : List String) :
    ∀ k, firstIndexOf x ys = some k → ys[k]? = some x := by
  induction ys with
  | nil => intro n h; simp [firstIndexOf] at h
  | cons y ys ih =>
    intro n h
    unfold firstIndexOf at h
    split at h
    · rename_i hy
      obtain rfl := Option.some.inj h
      simp [hy]
    · cases hr : firstIndexOf x ys with
      | none => rw [hr] at h; simp at h
      | some n' =>
        rw [hr] at h
        simp only [Option.map_some', Option.some.injEq] at h
        subst h
        simpa using ih n' hr

theorem firstIndexOf_eq_none_iff (x : String) (ys : List String) :
    firstIndexOf x ys = none ↔ x ∉ ys := by
  induction ys with
  | nil => simp [firstIndexOf]
  | cons y ys ih =>
    unfold firstIndexOf
    by_cases hy : y = x
    · simp [hy]
    · have hy' : ¬ (x = y) := fun h => hy h.symm
      simp [hy, hy', ih]

theorem findNavLink_congr (id : String) (links links' : List NavLink)
    (h : links'.map NavLink.href = links.map NavLink.href) :
    findNavLink id links' = findNavLink id links := by
  unfold findNavLink
  rw [h]

theorem forEachSection_unchanged (scrollY : ℤ) (links : List NavLink)
    (sections : List PageSection) :
    ∀ links' : List NavLink, links'.map NavLink.href = links.map NavLink.href →
      (∀ s ∈ sections, spanContains scrollY s = true → findNavLink s.id links = .missing) →
      forEachSection scrollY sections links' = .returned links' := by
  induction sections with
  | nil => intro links' _ _; rfl
  | cons s sections ih =>
    intro links' hh hnone
    have hstep : navStep scrollY links' s = .returned links' := by
      unfold navStep
      split
      · rename_i hspan
        rw [findNavLink_congr s.id links links' hh, hnone s (List.mem_cons_self _ _) hspan]
      · rfl
    rw [forEachSection, hstep]
    exact ih links' hh (fun s' hs' => hnone s' (List.mem_cons_of_mem _ hs'))

theorem navStep_hit (scrollY : ℤ) (links links' : List NavLink) (s : PageSection) (k : Nat)
    (hh : links'.map NavLink.href = links.map NavLink.href)
    (hspan : spanContains scrollY s = true) (hfind : findNavLink s.id links = .found k) :
    navStep scrollY links' s = .returned (updateActiveNavLink k links) := by
  unfold navStep
  rw [if_pos hspan, findNavLink_congr s.id links links' hh, hfind]
  simp only
  rw [updateActiveNavLink_congr k links links' hh]

/-- As long as every section in view has a plain id, the loop goes through the
sections without an exception and leaves the `href` attributes alone. -/
theorem forEachSection_returns (scrollY : ℤ) (links : List NavLink)
    (sections : List PageSection)
    (hplain : ∀ s ∈ sections, spanContains scrollY s = true → cssPlain s.id = true) :
    ∀ links' : List NavLink, links'.map NavLink.href = links.map NavLink.href →
      ∃ links1, forEachSection scrollY sections links' = .returned links1 ∧
        links1.map NavLink.href = links.map NavLink.href := by
  induction sections with
  | nil => intro links' hh; exact ⟨links', rfl, hh⟩
  | cons s sections ih =>
    intro links' hh
    have hrest := ih (fun s' hs' => hplain s' (List.mem_cons_of_mem _ hs'))
    by_cases hspan : spanContains scrollY s = true
    · have hp := hplain s (List.mem_cons_self _ _) hspan
      have hf := findNavLink_plain s.id links hp
      cases hfi : firstIndexOf ("#" ++ s.id) (links.map NavLink.href) with
      | none =>
        rw [hfi] at hf
        have hstep : navStep scrollY links' s = .returned links' := by
          unfold navStep
          rw [if_pos hspan, findNavLink_congr s.id links links' hh, hf]
        rw [forEachSection, hstep]
        exact hrest links' hh
      | some k =>
        rw [hfi] at hf
        rw [forEachSection, navStep_hit scrollY links links' s k hh hspan hf]
        exact hrest _ (updateActiveNavLink_href k links)
    · have hstep : navStep scrollY links' s = .returned links' := by
        unfold navStep
        rw [if_neg hspan]
      rw [forEachSection, hstep]
      exact hrest links' hh

theorem forEachSection_append (scrollY : ℤ) (a b : List PageSection) :
    ∀ (links links1 : List NavLink), forEachSection scrollY a links = .returned links1 →
      forEachSection scrollY (a ++ b) links = forEachSection scrollY b links1 := by
  induction a with
  | nil =>
    intro links links1 h
    simp only [forEachSection, NavResult.returned.injEq] at h
    rw [h]; rfl
  | cons s a ih =>
    intro links links1 h
    rw [List.cons_append, forEachSection]
    rw [forEachSection] at h
    cases hs : navStep scrollY links s with
    | returned l2 =>
      rw [hs] at h
      simp only at h ⊢
      exact ih l2 links1 h
    | threw e l2 => rw [hs] at h; simp at h
    | unread => rw [hs] at h; simp at h

/-- C19, as the code has it, for sections in view whose ids stand for themselves
in a double-quoted CSS string: the sections are visited in document order and the
last one whose span `[top, top + height)` contains `scrollY + 100` and that has a
link decides: its link (the first one whose `href` is `#` followed by the id) is
active and every other link is inactive. If no section containing
`scrollY + 100` has a link, the links are exactly as before. In particular, when
exactly one section's span contains `scrollY + 100` and it has a link, that link
alone is active. -/
theorem updateActiveNavOnScroll_last_match_decides (scrollY : ℤ)
    (sections : List PageSection) (links : List NavLink)
    (hplain : ∀ s ∈ sections, spanContains scrollY s = true → cssPlain s.id = true) :
    ((∀ s ∈ sections, spanContains scrollY s = true →
        ("#" ++ s.id) ∉ links.map NavLink.href) →
      updateActiveNavOnScroll scrollY sections links = .returned links) ∧
    (∀ (before after : List PageSection) (s : PageSection) (k : Nat),
      sections = before ++ s :: after → spanContains scrollY s = true →
      firstIndexOf ("#" ++ s.id) (links.map NavLink.href) = some k →
      (∀ s' ∈ after, spanContains scrollY s' = true →
        ("#" ++ s'.id) ∉ links.map NavLink.href) →
      updateActiveNavOnScroll scrollY sections links =
        .returned (updateActiveNavLink k links) ∧
      (∃ l, (updateActiveNavLink k links)[k]? = some l ∧
        l.active = true ∧ l.href = "#" ++ s.id) ∧
      (∀ (j : Nat) (l : NavLink),
        (updateActiveNavLink k links)[j]? = some l → (l.active = true ↔ j = k))) := by
  have hmiss : ∀ s ∈ sections, spanContains scrollY s = true →
      ("#" ++ s.id) ∉ links.map NavLink.href → findNavLink s.id links = .missing := by
    intro s hs hspan hno
    rw [findNavLink_plain s.id links (hplain s hs hspan),
      (firstIndexOf_eq_none_iff _ _).2 hno]
  refine ⟨fun h => forEachSection_unchanged scrollY links sections links rfl
    (fun s hs hspan => hmiss s hs hspan (h s hs hspan)), ?_⟩
  intro before after s k hsec hspan hfind hafter
  have hs : s ∈ sections := by rw [hsec]; simp
  have hfound : findNavLink s.id links = .found k := by
    rw [findNavLink_plain s.id links (hplain s hs hspan), hfind]
  have hres : updateActiveNavOnScroll scrollY sections links =
      .returned (updateActiveNavLink k links) := by
    unfold updateActiveNavOnScroll
    obtain ⟨links1, hb1, hb2⟩ := forEachSection_returns scrollY links before
      (fun s' hs' => hplain s' (by rw [hsec]; simp [hs'])) links rfl
    rw [hsec, forEachSection_append scrollY before (s :: after) links links1 hb1,
      forEachSection, navStep_hit scrollY links links1 s k hb2 hspan hfound]
    exact forEachSection_unchanged scrollY links after _ (updateActiveNavLink_href k links)
      (fun s' hs' hspan' => hmiss s' (by rw [hsec]; simp [hs']) hspan' (hafter s' hs' hspan'))
  refine ⟨hres, ?_, ?_⟩
  · have hk : k < (links.map NavLink.href).length := firstIndexOf_lt _ _ k hfind
    rw [List.length_map] at hk
    have hhref := firstIndexOf_getElem? _ _ k hfind
    rw [List.getElem?_map] at hhref
    cases hl : links[k]? with
    | none => rw [hl] at hhref; simp at hhref
    | some l0 =>
      rw [hl] at hhref
      simp only [Option.map_some', Option.some.injEq] at hhref
      refine ⟨{ l0 with active := true }, ?_, rfl, hhref⟩
      simp [updateActiveNavLink, List.getElem?_modify, List.getElem?_map, hl]
  · intro j l hj
    exact updateActiveNavLink_active k links j l hj

theorem updateActiveNavOnScroll_last_match_decides_witness :
    (∀ s ∈ [(⟨0, 1000, "about"⟩ : PageSection), ⟨0, 500, "skills"⟩, ⟨2000, 10, "contact"⟩],
      spanContains 0 s = true → cssPlain s.id = true) ∧
    updateActiveNavOnScroll 0 [⟨0, 1000, "about"⟩, ⟨0, 500, "skills"⟩, ⟨2000, 10, "contact"⟩]
        [⟨"#about", true⟩, ⟨"#skills", false⟩, ⟨"#contact", true⟩] =
      .returned (updateActiveNavLink 1
        [⟨"#about", true⟩, ⟨"#skills", false⟩, ⟨"#contact", true⟩]) ∧
    (∃ l, (updateActiveNavLink 1
        [⟨"#about", true⟩, ⟨"#skills", false⟩, ⟨"#contact", true⟩])[1]? = some l ∧
      l.active = true ∧ l.href = "#" ++ "skills") ∧
    (∀ (j : Nat) (l : NavLink), (updateActiveNavLink 1
        [⟨"#about", true⟩, ⟨"#skills", false⟩, ⟨"#contact", true⟩])[j]? = some l →
      (l.active = true ↔ j = 1)) :=
  ⟨by decide,
    (updateActiveNavOnScroll_last_match_decides 0
      [⟨0, 1000, "about"⟩, ⟨0, 500, "skills"⟩, ⟨2000, 10, "contact"⟩]
      [⟨"#about", true⟩, ⟨"#skills", false⟩, ⟨"#contact", true⟩] (by decide)).2
      [⟨0, 1000, "about"⟩] [⟨2000, 10, "contact"⟩] ⟨0, 500, "skills"⟩ 1
      rfl (by decide) (by decide) (by decide)⟩

/-- C19, counterexample: with two sections whose spans both contain
`scrollY + 100`, each with its link, the link of the first section is not active
after `updateActiveNavOnScroll`, although its span contains `scrollY + 100` and a
link for it exists. -/
theorem updateActiveNavOnScroll_overlapping_sections :
    spanContains 0 ⟨0, 1000, "about"⟩ = true ∧
    findNavLink "about" [⟨"#about", true⟩, ⟨"#skills", false⟩] = .found 0 ∧
    updateActiveNavOnScroll 0 [⟨0, 1000, "about"⟩, ⟨0, 500, "skills"⟩]
        [⟨"#about", true⟩, ⟨"#skills", false⟩] =
      .returned [⟨"#about", false⟩, ⟨"#skills", true⟩] := by
  decide

/-- A section id with a quotation mark in it, `a`, U+0022, `b`: in the selector text
the string ends at that quotation mark and `b` follows, so the text is not a
selector, `querySelector` throws and `updateActiveNavOnScroll` ends with the
exception, although a link whose `href` is `#` followed by the id exists; the
section after it is not looked at. -/
theorem updateActiveNavOnScroll_quote_in_id_throws :
    updateActiveNavOnScroll 0
        [⟨0, 1000, String.mk ['a', quotationMark, 'b']⟩, ⟨0, 500, "skills"⟩]
        [⟨String.mk ['#', 'a', quotationMark, 'b'], false⟩, ⟨"#skills", false⟩] =
      .threw .syntaxError [⟨String.mk ['#', 'a', quotationMark, 'b'], false⟩,
        ⟨"#skills", false⟩] := by
  decide

/-- A backslash in a section id starts an escape: the id `a\62 c` is looked up as
`#abc`. -/
theorem findNavLink_reads_escapes :
    findNavLink (String.mk ['a', reverseSolidus, '6', '2', ' ', 'c'])
        [⟨String.mk ['#', 'a', reverseSolidus, '6', '2', ' ', 'c'], false⟩, ⟨"#abc", false⟩] =
      .found 1 := by
  decide

/-! ## The class `FormValidator` -/

theorem firstFailing_none_iff (value : String) (field : Field) (rules : List Rule) :
    firstFailing value field rules = none ↔ ∀ rule ∈ rules, rule value field = true := by
  induction rules with
  | nil => simp [firstFailing]
  | cons r rs ih =>
    unfold firstFailing
    cases hr : r value field
    · simp [hr]
    · simp [hr, ih]

theorem firstFailing_some (value : String) (field : Field) (rules : List Rule) :
    ∀ k, firstFailing value field rules = some k →
      (∃ rule, rules[k]? = some rule ∧ rule value field = false) ∧
      ∀ (j : Nat) (rule : Rule), j < k → rules[j]? = some rule → rule value field = true := by
  induction rules with
  | nil => intro k h; simp [firstFailing] at h
  | cons r rs ih =>
    intro k h
    unfold firstFailing at h
    cases hr : r value field
    · simp only [hr, Bool.not_false, if_true, Option.some.injEq] at h
      subst h
      exact ⟨⟨r, by simp, hr⟩, fun j _ hj => absurd hj (Nat.not_lt_zero j)⟩
    · simp only [hr, Bool.not_true, Bool.false_eq_true, if_false] at h
      cases hrec : firstFailing value field rs with
      | none => rw [hrec] at h; simp at h
      | some k' =>
        rw [hrec] at h
        simp only [Option.map_some', Option.some.injEq] at h
        subst h
        obtain ⟨⟨rule, h1, h2⟩, h3⟩ := ih k' hrec
        refine ⟨⟨rule, by simpa using h1, h2⟩, ?_⟩
        intro j rule' hj hget
        cases j with
        | zero =>
          simp only [List.getElem?_cons_zero, Option.some.injEq] at hget
          subst hget
          exact hr
        | succ j =>
          simp only [List.getElem?_cons_succ] at hget
          exact h3 j rule' (by omega) hget

theorem formValidator_validateField_spec (v : FormValidator) (field : Field) (shown : Feedback)
    (rules : List Rule) (hrules : v.rules.lookup field.name = some rules) :
    ((∀ rule ∈ rules, rule (jsTrim field.value) field = true) →
      v.validateField field shown = .ok (true, clearError shown, rules.length)) ∧
    (∀ k, firstFailing (jsTrim field.value) field rules = some k →
      v.validateField field shown =
        .ok (false,
          { invalid := true, feedback := some ((v.messages.lookup field.name).getD "undefined") },
          k + 1)) := by
  constructor
  · intro h
    have := (firstFailing_none_iff (jsTrim field.value) field rules).2 h
    simp [FormValidator.validateField, hrules, this]
  · intro k hk
    simp [FormValidator.validateField, hrules, hk, showError]

theorem formValidator_no_rule (v : FormValidator) (field : Field) (shown : Feedback)
    (hrules : v.rules.lookup field.name = none)
    (hown : inheritedLabels.lookup field.name = none) :
    v.validateField field shown = .ok (true, shown, 0) := by
  simp [FormValidator.validateField, hrules, hown]

/-- C20, at the failing input: register for the field `username` first the rule
"at least 3 characters" with the message `Too short`, then the rule "at most 10
characters" with the message `Too long`, and validate the value `ab`. The first
rule is the one that rejects (the second accepts) and only it is evaluated, the
result is `false`, but the message shown is `Too long`, the one registered last:
`addRule` keeps a single message for each field name. -/
theorem formValidator_shows_last_registered_message :
    ∃ v1 v2,
      FormValidator.new.addRule "username" (fun value _ => decide (3 ≤ value.length))
        "Too short" = .ok v1 ∧
      v1.addRule "username" (fun value _ => decide (value.length ≤ 10)) "Too long" = .ok v2 ∧
      v2.messages = [("username", "Too long")] ∧
      (v2.rules.lookup "username").map List.length = some 2 ∧
      decide (3 ≤ (jsTrim "ab").length) = false ∧
      decide ((jsTrim "ab").length ≤ 10) = true ∧
      v2.validateField ⟨"username", false, "ab", "", false⟩ ⟨false, none⟩ =
        .ok (false, ⟨true, some "Too long"⟩, 1) := by
  refine ⟨_, _, rfl, rfl, rfl, rfl, by decide, by decide, rfl⟩


/-! ## The easing curve -/

theorem easeInOutQuad_mono_aux (b c u1 u2 : ℚ) (hc : 0 ≤ c) (h0 : 0 ≤ u1) (h12 : u1 ≤ u2)
    (h2 : u2 ≤ 2) :
    (if u1 < 1 then c / 2 * u1 * u1 + b else -c / 2 * ((u1 - 1) * (u1 - 1 - 2) - 1) + b) ≤
    (if u2 < 1 then c / 2 * u2 * u2 + b else -c / 2 * ((u2 - 1) * (u2 - 1 - 2) - 1) + b) := by
  by_cases h1 : u1 < 1
  · by_cases h2' : u2 < 1
    · rw [if_pos h1, if_pos h2']
      have hsq : u1 * u1 ≤ u2 * u2 := mul_le_mul h12 h12 h0 (le_trans h0 h12)
      nlinarith [mul_le_mul_of_nonneg_left hsq hc]
    · rw [if_pos h1, if_neg h2']
      have hu2 : 1 ≤ u2 := not_lt.1 h2'
      have hsq : u1 * u1 ≤ 1 := by nlinarith
      have hv : 0 ≤ (u2 - 1) * (2 - (u2 - 1)) := mul_nonneg (by linarith) (by linarith)
      nlinarith [mul_le_mul_of_nonneg_left hsq hc, mul_nonneg hc hv]
  · have hu1 : 1 ≤ u1 := not_lt.1 h1
    have h2' : ¬ (u2 < 1) := not_lt.2 (le_trans hu1 h12)
    rw [if_neg h1, if_neg h2']
    have hv : 0 ≤ (u2 - u1) * (2 - (u1 - 1) - (u2 - 1)) :=
      mul_nonneg (by linarith) (by linarith)
    nlinarith [mul_nonneg hc hv]

theorem easeInOutQuad_mono (b c d t1 t2 : ℚ) (hd : 0 < d) (hc : 0 ≤ c) (h0 : 0 ≤ t1)
    (h12 : t1 ≤ t2) (h2 : t2 ≤ d) :
    easeInOutQuad t1 b c d ≤ easeInOutQuad t2 b c d := by
  have hhalf : 0 < d / 2 := by positivity
  have hu0 : 0 ≤ t1 / (d / 2) := div_nonneg h0 hhalf.le
  have hu12 : t1 / (d / 2) ≤ t2 / (d / 2) := div_le_div_of_nonneg_right h12 hhalf.le
  have hu2 : t2 / (d / 2) ≤ 2 := by
    rw [div_le_iff₀ hhalf]; linarith
  exact easeInOutQuad_mono_aux b c _ _ hc hu0 hu12 hu2

theorem easeInOutQuad_at_half (b c d : ℚ) (hd : 0 < d) :
    easeInOutQuad (d / 2) b c d = b + c / 2 := by
  have h1 : d / 2 / (d / 2) = 1 := div_self (by positivity)
  simp only [easeInOutQuad, h1]
  norm_num
  ring

/-- C24: for exact `b`, `c` and `d > 0`, `easeInOutQuad` starts at `b`, is at
`b + c/2` half way and at `b + c` at the end; for `c ≥ 0` it is non-decreasing in
`t` on `[0, d]`, so that every value sampled there lies between `b` and `b + c`. -/
theorem easeInOutQuad_monotone_interpolation (b c d : ℚ) (hd : 0 < d) :
    easeInOutQuad 0 b c d = b ∧
    easeInOutQuad (d / 2) b c d = b + c / 2 ∧
    easeInOutQuad d b c d = b + c ∧
    (0 ≤ c → ∀ t1 t2 : ℚ, 0 ≤ t1 → t1 ≤ t2 → t2 ≤ d →
      easeInOutQuad t1 b c d ≤ easeInOutQuad t2 b c d) ∧
    (0 ≤ c → ∀ t : ℚ, 0 ≤ t → t ≤ d →
      b ≤ easeInOutQuad t b c d ∧ easeInOutQuad t b c d ≤ b + c) := by
  refine ⟨easeInOutQuad_at_start b c d hd.ne', easeInOutQuad_at_half b c d hd,
    easeInOutQuad_at_end b c d hd, ?_, ?_⟩
  · intro hc t1 t2 h0 h12 h2
    exact easeInOutQuad_mono b c d t1 t2 hd hc h0 h12 h2
  · intro hc t h0 h2
    constructor
    · have := easeInOutQuad_mono b c d 0 t hd hc (le_refl 0) h0 h2
      rwa [easeInOutQuad_at_start b c d hd.ne'] at this
    · have := easeInOutQuad_mono b c d t d hd hc h0 h2 (le_refl d)
      rwa [easeInOutQuad_at_end b c d hd] at this

theorem easeInOutQuad_monotone_interpolation_witness :
    easeInOutQuad 0 0 1000 1000 = 0 ∧
    easeInOutQuad (1000 / 2) 0 1000 1000 = 0 + 1000 / 2 ∧
    easeInOutQuad 1000 0 1000 1000 = 0 + 1000 ∧
    ((0 : ℚ) ≤ 1000 → ∀ t1 t2 : ℚ, 0 ≤ t1 → t1 ≤ t2 → t2 ≤ 1000 →
      easeInOutQuad t1 0 1000 1000 ≤ easeInOutQuad t2 0 1000 1000) ∧
    ((0 : ℚ) ≤ 1000 → ∀ t : ℚ, 0 ≤ t → t ≤ 1000 →
      0 ≤ easeInOutQuad t 0 1000 1000 ∧ easeInOutQuad t 0 1000 1000 ≤ 0 + 1000) :=
  easeInOutQuad_monotone_interpolation 0 1000 1000 (by norm_num)


/-! ## Portfolio filter: calls interleaved with timers -/

theorem hideIfHidden_category (i : Nat) (items : List PortfolioItem) :
    (hideIfHidden i items).map PortfolioItem.category = items.map PortfolioItem.category := by
  apply List.ext_getElem?
  intro j
  rw [List.getElem?_map, List.getElem?_map, hideIfHidden_getElem?]
  cases items[j]? with
  | none => rfl
  | some it =>
    simp only [Option.map_some']
    split <;> rfl

theorem filterPortfolio_categories (filter : Option String) (g : Gallery)
    (hcat : ∀ item ∈ g.portfolioItems, item.category ≠ none) :
    ∃ g1, filterPortfolio filter g = .ok g1 ∧
      g1.portfolioItems.map PortfolioItem.category =
        g.portfolioItems.map PortfolioItem.category ∧
      (∀ (i : Nat) (item : PortfolioItem) (c : String),
        g.portfolioItems[i]? = some item → item.category = some c →
        ((decide (filter = some "all") || includes c.data (attrText filter).data) = true →
          g1.portfolioItems[i]? = some ⟨some c, false, "block"⟩) ∧
        ((decide (filter = some "all") || includes c.data (attrText filter).data) = false →
          g1.portfolioItems[i]? = some ⟨some c, true, item.display⟩ ∧ i ∈ g1.hideTimers)) := by
  obtain ⟨items', timers, hok, hlen, hacc, hrej⟩ := filterItems_ok filter g.portfolioItems 0 hcat
  have hstate : ∀ (i : Nat) (item : PortfolioItem) (c : String),
      g.portfolioItems[i]? = some item → item.category = some c →
      ((decide (filter = some "all") || includes c.data (attrText filter).data) = true →
        items'[i]? = some ⟨some c, false, "block"⟩) ∧
      ((decide (filter = some "all") || includes c.data (attrText filter).data) = false →
        items'[i]? = some ⟨some c, true, item.display⟩ ∧ i ∈ timers) := by
    intro i item c hi hc
    constructor
    · intro hv
      rw [hacc i item c hi hc hv, hc]
    · intro hv
      obtain ⟨h1, h2⟩ := hrej i item c hi hc hv
      rw [h1, hc]
      exact ⟨rfl, by simpa using h2⟩
  refine ⟨{ g with
      currentFilter := filter
      portfolioItems := items'
      hideTimers := g.hideTimers ++ timers
      refreshTimers := g.refreshTimers + 1 },
    by simp only [filterPortfolio, hok], ?_, ?_⟩
  · apply List.ext_getElem?
    intro i
    simp only [List.getElem?_map]
    cases hi : g.portfolioItems[i]? with
    | none =>
      have hlt : g.portfolioItems.length ≤ i := List.getElem?_eq_none_iff.1 hi
      have : items'[i]? = none := List.getElem?_eq_none_iff.2 (by omega)
      rw [this]
    | some item =>
      cases hc : item.category with
      | none => exact absurd hc (hcat item (List.getElem?_mem hi))
      | some c =>
        obtain ⟨h1, h2⟩ := hstate i item c hi hc
        cases hv : (decide (filter = some "all") || includes c.data (attrText filter).data)
        · rw [(h2 hv).1]; simp [hc]
        · rw [h1 hv]; simp [hc]
  · intro i item c hi hc
    obtain ⟨h1, h2⟩ := hstate i item c hi hc
    exact ⟨h1, fun hv => ⟨(h2 hv).1, List.mem_append_right _ (h2 hv).2⟩⟩

theorem categories_some_of_map {items items' : List PortfolioItem}
    (h : items'.map PortfolioItem.category = items.map PortfolioItem.category)
    (hcat : ∀ item ∈ items, item.category ≠ none) :
    ∀ item ∈ items', item.category ≠ none := by
  intro item hm hnone
  have hmem : item.category ∈ items'.map PortfolioItem.category := List.mem_map_of_mem _ hm
  rw [h, List.mem_map] at hmem
  obtain ⟨it, hit, heq⟩ := hmem
  exact hcat it hit (heq.trans hnone)

theorem fireTimerAt_categories (k : Nat) (g : Gallery) :
    (fireTimerAt k g).portfolioItems.map PortfolioItem.category =
      g.portfolioItems.map PortfolioItem.category := by
  unfold fireTimerAt
  cases g.hideTimers[k]? with
  | none => rfl
  | some i => exact hideIfHidden_category i g.portfolioItems

theorem runFilterEvents_categories (events : List FilterEvent) : ∀ g : Gallery,
    (∀ item ∈ g.portfolioItems, item.category ≠ none) →
    ∃ g1, runFilterEvents events g = .ok g1 ∧
      g1.portfolioItems.map PortfolioItem.category =
        g.portfolioItems.map PortfolioItem.category := by
  induction events with
  | nil => intro g _; exact ⟨g, rfl, rfl⟩
  | cons ev events ih =>
    intro g hcat
    cases ev with
    | call filter =>
      obtain ⟨g1, hok, hc1, _⟩ := filterPortfolio_categories filter g hcat
      obtain ⟨g2, hok2, hc2⟩ := ih g1 (categories_some_of_map hc1 hcat)
      exact ⟨g2, by simp only [runFilterEvents, hok, hok2], hc2.trans hc1⟩
    | fire k =>
      have hc1 := fireTimerAt_categories k g
      obtain ⟨g2, hok2, hc2⟩ := ih (fireTimerAt k g) (categories_some_of_map hc1 hcat)
      exact ⟨g2, by simp only [runFilterEvents, hok2], hc2.trans hc1⟩

theorem runFilterEvents_append (a b : List FilterEvent) : ∀ g g1 : Gallery,
    runFilterEvents a g = .ok g1 → runFilterEvents (a ++ b) g = runFilterEvents b g1 := by
  induction a with
  | nil =>
    intro g g1 h
    simp only [runFilterEvents, Except.ok.injEq] at h
    subst h; rfl
  | cons ev a ih =>
    intro g g1 h
    cases ev with
    | call filter =>
      simp only [List.cons_append, runFilterEvents] at h ⊢
      cases hf : filterPortfolio filter g with
      | error e => rw [hf] at h; simp at h
      | ok g' =>
        rw [hf] at h
        simp only [] at h ⊢
        exact ih g' g1 h
    | fire k =>
      simp only [List.cons_append, runFilterEvents] at h ⊢
      exact ih _ g1 h

theorem mem_eraseIdx_or (l : List Nat) : ∀ (k i x : Nat), l[k]? = some i → x ∈ l →
    x ∈ l.eraseIdx k ∨ x = i := by
  induction l with
  | nil => intro k i x h; simp at h
  | cons a l ih =>
    intro k i x hk hx
    cases k with
    | zero =>
      simp only [List.getElem?_cons_zero, Option.some.injEq] at hk
      subst hk
      rcases List.mem_cons.1 hx with h | h
      · exact Or.inr h
      · exact Or.inl (by simpa using h)
    | succ k =>
      simp only [List.getElem?_cons_succ] at hk
      rcases List.mem_cons.1 hx with h | h
      · exact Or.inl (by simp [h])
      · rcases ih k i x hk h with h' | h'
        · exact Or.inl (by simp [h'])
        · exact Or.inr h'

theorem getElem?_of_map_category {items items' : List PortfolioItem}
    (h : items'.map PortfolioItem.category = items.map PortfolioItem.category)
    (i : Nat) (item : PortfolioItem) (c : String)
    (hi : items[i]? = some item) (hc : item.category = some c) :
    ∃ it, items'[i]? = some it ∧ it.category = some c := by
  have := congrArg (fun l => l[i]?) h
  simp only [List.getElem?_map, hi, Option.map_some'] at this
  cases h' : items'[i]? with
  | none => rw [h'] at this; simp at this
  | some it =>
    rw [h'] at this
    simp only [Option.map_some', Option.some.injEq] at this
    exact ⟨it, rfl, this.trans hc⟩

theorem awaitsTimers_of_call (filter : Option String) (orig : List PortfolioItem)
    (g g1 : Gallery)
    (hmap : g.portfolioItems.map PortfolioItem.category = orig.map PortfolioItem.category)
    (hcat : ∀ item ∈ g.portfolioItems, item.category ≠ none)
    (hok : filterPortfolio filter g = .ok g1) : AwaitsTimers filter orig g1 := by
  obtain ⟨g1', hok', _, hstate⟩ := filterPortfolio_categories filter g hcat
  rw [hok] at hok'
  obtain rfl : g1 = g1' := by simpa using hok'
  intro i item c hi hc
  obtain ⟨it0, hi0, hc0⟩ := getElem?_of_map_category hmap i item c hi hc
  obtain ⟨h1, h2⟩ := hstate i it0 c hi0 hc0
  cases hv : (decide (filter = some "all") || includes c.data (attrText filter).data)
  · obtain ⟨h3, h4⟩ := h2 hv
    exact ⟨_, h3, rfl, fun h => absurd h (by simp), fun _ => ⟨rfl, Or.inr h4⟩⟩
  · exact ⟨_, h1 hv, rfl, fun _ => ⟨rfl, rfl⟩, fun h => absurd h (by simp)⟩

theorem awaitsTimers_fire (filter : Option String) (orig : List PortfolioItem) (k : Nat)
    (g : Gallery) (h : AwaitsTimers filter orig g) :
    AwaitsTimers filter orig (fireTimerAt k g) := by
  unfold fireTimerAt
  cases hk : g.hideTimers[k]? with
  | none => exact h
  | some j =>
    intro i item c hi hc
    obtain ⟨it, hit, hcat, hacc, hrej⟩ := h i item c hi hc
    simp only []
    rw [hideIfHidden_getElem?, hit]
    simp only [Option.map_some']
    by_cases hcond : it.hide = true ∧ i = j
    · rw [if_pos hcond]
      refine ⟨_, rfl, hcat, ?_, ?_⟩
      · intro hv
        have := (hacc hv).1
        rw [hcond.1] at this
        exact absurd this (by decide)
      · intro _
        exact ⟨hcond.1, Or.inl rfl⟩
    · rw [if_neg hcond]
      refine ⟨_, rfl, hcat, hacc, ?_⟩
      intro hv
      obtain ⟨hh, hd⟩ := hrej hv
      refine ⟨hh, ?_⟩
      rcases hd with hd | hd
      · exact Or.inl hd
      · rcases mem_eraseIdx_or g.hideTimers k j i hk hd with h' | h'
        · exact Or.inr h'
        · exact absurd ⟨hh, h'⟩ hcond

theorem awaitsTimers_fires (filter : Option String) (orig : List PortfolioItem)
    (later : List Nat) : ∀ g : Gallery, AwaitsTimers filter orig g →
      ∃ g1, runFilterEvents (later.map FilterEvent.fire) g = .ok g1 ∧
        AwaitsTimers filter orig g1 := by
  induction later with
  | nil => intro g h; exact ⟨g, rfl, h⟩
  | cons k later ih =>
    intro g h
    obtain ⟨g1, hok, h1⟩ := ih (fireTimerAt k g) (awaitsTimers_fire filter orig k g h)
    exact ⟨g1, by simpa only [List.map_cons, runFilterEvents] using hok, h1⟩

theorem awaitsTimers_settle (filter : Option String) (orig : List PortfolioItem) (g : Gallery)
    (h : AwaitsTimers filter orig g) (i : Nat) (item : PortfolioItem) (c : String)
    (hi : orig[i]? = some item) (hc : item.category = some c) :
    (settle g).portfolioItems[i]? = some (settledItem filter c) := by
  obtain ⟨it, hit, hcat, hacc, hrej⟩ := h i item c hi hc
  simp only [settle]
  rw [fireAll_getElem?, hit]
  simp only [Option.map_some', Option.some.injEq]
  unfold settledItem
  cases hv : (decide (filter = some "all") || includes c.data (attrText filter).data)
  · obtain ⟨hh, hd⟩ := hrej hv
    simp only [Bool.false_eq_true, if_false]
    rcases hd with hd | hd
    · split
      · cases it; simp_all
      · cases it; simp_all
    · rw [if_pos ⟨hh, hd⟩]
      cases it; simp_all
  · obtain ⟨hh, hd⟩ := hacc hv
    simp only [if_true]
    have hn : ¬ (it.hide = true ∧ i ∈ g.hideTimers) := by
      rintro ⟨h1, _⟩
      rw [hh] at h1
      exact absurd h1 (by decide)
    rw [if_neg hn]
    cases it; simp_all

/-- C23: on a page whose items all carry `data-category`, let any sequence of
`filterPortfolio` calls and firings of pending hide timers (in any order) be
followed by a last call with the filter `F` and by further firings; it runs
without exception, and once every pending timer has fired, each item is as `F`
alone calls for: without `hide` and with display `block` if `F` accepts it, with
`hide` and display `none` otherwise. In particular two calls with the same filter
end in the same items as one call. -/
theorem last_filter_decides (g : Gallery) (events : List FilterEvent) (F : Option String)
    (later : List Nat) (hcat : ∀ item ∈ g.portfolioItems, item.category ≠ none) :
    (∃ g1, runFilterEvents (events ++ FilterEvent.call F :: later.map FilterEvent.fire) g
        = .ok g1 ∧
      (settle g1).hideTimers = [] ∧
      (settle g1).portfolioItems.length = g.portfolioItems.length ∧
      ∀ (i : Nat) (item : PortfolioItem) (c : String),
        g.portfolioItems[i]? = some item → item.category = some c →
        (settle g1).portfolioItems[i]? = some (settledItem F c)) ∧
    (∃ once twice, runFilterEvents [FilterEvent.call F] g = .ok once ∧
      runFilterEvents [FilterEvent.call F, FilterEvent.call F] g = .ok twice ∧
      (settle twice).portfolioItems = (settle once).portfolioItems) := by
  have main : ∀ (evs : List FilterEvent) (lat : List Nat),
      ∃ g1, runFilterEvents (evs ++ FilterEvent.call F :: lat.map FilterEvent.fire) g = .ok g1 ∧
        (settle g1).portfolioItems.length = g.portfolioItems.length ∧
        ∀ (i : Nat) (item : PortfolioItem) (c : String),
          g.portfolioItems[i]? = some item → item.category = some c →
          (settle g1).portfolioItems[i]? = some (settledItem F c) := by
    intro evs lat
    obtain ⟨ga, hoka, hca⟩ := runFilterEvents_categories evs g hcat
    have hcata := categories_some_of_map hca hcat
    obtain ⟨gb, hokb, hcb, _⟩ := filterPortfolio_categories F ga hcata
    have hJ : AwaitsTimers F g.portfolioItems gb :=
      awaitsTimers_of_call F g.portfolioItems ga gb hca hcata hokb
    obtain ⟨gc, hokc, hJc⟩ := awaitsTimers_fires F g.portfolioItems lat gb hJ
    obtain ⟨gc', hokc', hcc⟩ := runFilterEvents_categories (lat.map FilterEvent.fire) gb
      (categories_some_of_map hcb hcata)
    rw [hokc] at hokc'
    obtain rfl : gc = gc' := by simpa using hokc'
    refine ⟨gc, ?_, ?_, ?_⟩
    · rw [runFilterEvents_append evs _ g ga hoka]
      simp only [runFilterEvents, hokb]
      exact hokc
    · have hlen := congrArg List.length (hcc.trans (hcb.trans hca))
      simp only [List.length_map] at hlen
      simp only [settle, fireAll_length, hlen]
    · intro i item c hi hc
      exact awaitsTimers_settle F g.portfolioItems gc hJc i item c hi hc
  refine ⟨?_, ?_⟩
  · obtain ⟨g1, h1, h2, h3⟩ := main events later
    exact ⟨g1, h1, rfl, h2, h3⟩
  · obtain ⟨once, ho, hlo, hso⟩ := main [] []
    obtain ⟨twice, ht, hlt, hst⟩ := main [FilterEvent.call F] []
    refine ⟨once, twice, by simpa using ho, by simpa using ht, ?_⟩
    apply List.ext_getElem?
    intro i
    cases hi : g.portfolioItems[i]? with
    | none =>
      have hge : g.portfolioItems.length ≤ i := List.getElem?_eq_none_iff.1 hi
      rw [List.getElem?_eq_none_iff.2 (by omega), List.getElem?_eq_none_iff.2 (by omega)]
    | some item =>
      cases hc : item.category with
      | none => exact absurd hc (hcat item (List.getElem?_mem hi))
      | some c => rw [hso i item c hi hc, hst i item c hi hc]

theorem last_filter_decides_witness :
    (∃ g1, runFilterEvents
        ([FilterEvent.call (some "web"), FilterEvent.call (some "mobile"), FilterEvent.fire 0] ++
          FilterEvent.call (some "web") :: [1].map FilterEvent.fire)
        { portfolioItems := [⟨some "web design", false, ""⟩, ⟨some "mobile", false, ""⟩],
          currentFilter := some "all", hideTimers := [], refreshTimers := 0,
          filterButtons := [] } = .ok g1 ∧
      (settle g1).hideTimers = [] ∧
      (settle g1).portfolioItems.length = 2 ∧
      ∀ (i : Nat) (item : PortfolioItem) (c : String),
        [PortfolioItem.mk (some "web design") false "", ⟨some "mobile", false, ""⟩][i]? =
            some item → item.category = some c →
        (settle g1).portfolioItems[i]? = some (settledItem (some "web") c)) ∧
    (∃ once twice, runFilterEvents [FilterEvent.call (some "web")]
        { portfolioItems := [⟨some "web design", false, ""⟩, ⟨some "mobile", false, ""⟩],
          currentFilter := some "all", hideTimers := [], refreshTimers := 0,
          filterButtons := [] } = .ok once ∧
      runFilterEvents [FilterEvent.call (some "web"), FilterEvent.call (some "web")]
        { portfolioItems := [⟨some "web design", false, ""⟩, ⟨some "mobile", false, ""⟩],
          currentFilter := some "all", hideTimers := [], refreshTimers := 0,
          filterButtons := [] } = .ok twice ∧
      (settle twice).portfolioItems = (settle once).portfolioItems) :=
  last_filter_decides
    { portfolioItems := [⟨some "web design", false, ""⟩, ⟨some "mobile", false, ""⟩],
      currentFilter := some "all", hideTimers := [], refreshTimers := 0, filterButtons := [] }
    [FilterEvent.call (some "web"), FilterEvent.call (some "mobile"), FilterEvent.fire 0]
    (some "web") [1] (by decide)


/-! ## Start-up -/

/-- C21, at the failing input: when the script is evaluated while the document is
loading, `initializeApp` has been called twice once `DOMContentLoaded` has been
dispatched, by the listener of lines 8-10 and by the one of line 1447; when the
script is evaluated after parsing but before `DOMContentLoaded` (a deferred
script), twice as well, by line 1449 and by the listener of lines 8-10. Only a
script evaluated after `DOMContentLoaded` calls it once. The advanced features
are set up once in the first two cases. -/
theorem initializeApp_runs_twice :
    (pageLoad ReadyState.loading false).initializeAppCalls = 2 ∧
    (pageLoad ReadyState.interactive false).initializeAppCalls = 2 ∧
    (pageLoad ReadyState.interactive true).initializeAppCalls = 1 ∧
    (pageLoad ReadyState.complete true).initializeAppCalls = 1 ∧
    (pageLoad ReadyState.loading false).advancedFeaturesCalls = 1 ∧
    (pageLoad ReadyState.interactive false).advancedFeaturesCalls = 1 := by
  decide


/-! ## Submit event on the contact form -/

theorem handleContactFormSubmit_eq_start_then_settle (outcome : SendOutcome) (p : Page) :
    handleContactFormSubmit outcome p =
      match handleContactFormSubmitStart p with
      | (_, _, some e) => .error e
      | (p1, true, none) => sendSettled outcome p1
      | (p1, false, none) => .ok p1 := by
  unfold handleContactFormSubmit handleContactFormSubmitStart sendSettled
  cases hv : (validateContactForm p).1
  · simp [hv]
  · cases hb : setButtonLoading true (validateContactForm p).2 with
    | error e => simp [hv, hb]
    | ok p2 => cases outcome <;> simp [hv, hb]

/-- C22, at the failing inputs: with the validator `initializeAdvancedForms`
builds, one submit event on a contact form whose fields are all valid starts two
sends, one by each listener; and one submit event on a form whose first name has
a single character starts one send, by `handleContactFormSubmit`, which knows no
length minimum. No listener throws. -/
theorem submit_event_starts_two_sends :
    ∃ v, initializeAdvancedForms = .ok v ∧
      (dispatchSubmit v (contactFormWith "Ada" "Lovelace" "ada@example.com" ""
        "Hello there" "A message that is long enough.")).1.page.sendsStarted = 2 ∧
      (dispatchSubmit v (contactFormWith "Ada" "Lovelace" "ada@example.com" ""
        "Hello there" "A message that is long enough.")).2 = [] ∧
      (dispatchSubmit v (contactFormWith "A" "Lovelace" "ada@example.com" ""
        "Hello there" "A message that is long enough.")).1.page.sendsStarted = 1 ∧
      (dispatchSubmit v (contactFormWith "A" "Lovelace" "ada@example.com" ""
        "Hello there" "A message that is long enough.")).2 = [] := by
  refine ⟨_, rfl, ?_, ?_, ?_, ?_⟩ <;> rfl

theorem setButtonLoading_ok (isLoading : Bool) (p : Page) (b : Button)
    (hb : p.submitButton = some b) :
    ∃ p', setButtonLoading isLoading p = .ok p' ∧ p'.sendsStarted = p.sendsStarted ∧
      p'.fields = p.fields ∧ ∃ b', p'.submitButton = some b' := by
  unfold setButtonLoading
  rw [hb]
  cases isLoading
  · exact ⟨_, rfl, rfl, rfl, _, rfl⟩
  · exact ⟨_, rfl, rfl, rfl, _, rfl⟩

theorem dispatchSubmit_sendsStarted (v : FormValidator) (s : ContactFormDom) (b : Button)
    (hb : s.page.submitButton = some b)
    (hok : (v.validateForm (handleContactFormSubmitStart s.page).1.fields s.feedback).2.2.2
      = none) :
    (dispatchSubmit v s).1.page.sendsStarted =
      s.page.sendsStarted + (if (validateContactForm s.page).1 = true then 1 else 0) +
        (if (v.validateForm (handleContactFormSubmitStart s.page).1.fields s.feedback).1 = true
          then 1 else 0) := by
  have he := validateContactForm_eraseMarkers s.page
  have hbtn : (validateContactForm s.page).2.submitButton = some b :=
    (eraseMarkers_submitButton he).trans hb
  have hsend : (validateContactForm s.page).2.sendsStarted = s.page.sendsStarted :=
    eraseMarkers_sendsStarted he
  obtain ⟨p2, hp2, hs2, hf2, b2, hb2⟩ := setButtonLoading_ok true _ b hbtn
  have hstart : handleContactFormSubmitStart s.page =
      if (validateContactForm s.page).1 = true then (simulateFormSubmission p2, true, none)
      else ((validateContactForm s.page).2, false, none) := by
    unfold handleContactFormSubmitStart
    cases hv : (validateContactForm s.page).1 <;> simp [hv, hp2]
  have hfirst : ∃ b1, (handleContactFormSubmitStart s.page).1.submitButton = some b1 ∧
      (handleContactFormSubmitStart s.page).1.sendsStarted =
        s.page.sendsStarted + (if (validateContactForm s.page).1 = true then 1 else 0) := by
    rw [hstart]
    cases hv : (validateContactForm s.page).1
    · exact ⟨b, by simpa using hbtn, by simpa using hsend⟩
    · exact ⟨b2, by simpa [simulateFormSubmission] using hb2,
        by simp [simulateFormSubmission, hs2, hsend]⟩
  obtain ⟨b1, hb1, hs1⟩ := hfirst
  unfold dispatchSubmit FormValidator.handleSubmit
  simp only [hok]
  cases hr : (v.validateForm (handleContactFormSubmitStart s.page).1.fields s.feedback).1
  · simp [hs1]
  · obtain ⟨p3, hp3, hs3, _, _⟩ := setButtonLoading_ok true
      { (handleContactFormSubmitStart s.page).1 with
        fields := (v.validateForm (handleContactFormSubmitStart s.page).1.fields
          s.feedback).2.1 } b1 hb1
    dsimp only at hp3 hs3
    simp only [if_true, hp3]
    simp only [simulateFormSubmission, hs3, hs1]

/-! ## The observers of a loaded page -/

theorem notifyPageAll_eq (reports : List (ObserverKind → Nat → Option Bool)) :
    ∀ observers : List PageObserver, notifyPageAll reports observers =
      observers.map (fun o =>
        PageObserver.mk o.kind (notifyAll (reports.map (fun r => r o.kind)) o.observer)) := by
  induction reports with
  | nil =>
    intro observers
    simp [notifyPageAll, notifyAll]
  | cons r rs ih =>
    intro observers
    rw [notifyPageAll, ih, notifyPage, List.map_map]
    rfl

theorem effectRuns_notifyPageAll (kind : ObserverKind) (t : Nat)
    (reports : List (ObserverKind → Nat → Option Bool)) (observers : List PageObserver) :
    effectRuns kind t (notifyPageAll reports observers) =
      ((observers.filter (fun o => o.kind = kind)).map (fun o =>
        (notifyAll (reports.map (fun r => r kind)) o.observer).triggered.count t)).sum := by
  rw [notifyPageAll_eq]
  unfold effectRuns
  induction observers with
  | nil => rfl
  | cons o os ih =>
    by_cases hk : o.kind = kind
    · simp only [List.map_cons, List.filter_cons, hk, decide_True, if_true, List.sum_cons]
      simp only [List.map_cons, List.filter_cons, hk, decide_True, if_true, List.sum_cons] at ih
      rw [ih]
    · simp only [List.map_cons, List.filter_cons, hk, decide_False, if_false]
      simp only [Bool.false_eq_true, if_false]
      exact ih

theorem effectRuns_of_const (kind : ObserverKind) (t n : Nat)
    (reports : List (ObserverKind → Nat → Option Bool)) (observers : List PageObserver)
    (h : ∀ o ∈ observers, o.kind = kind →
      (notifyAll (reports.map (fun r => r kind)) o.observer).triggered.count t = n) :
    effectRuns kind t (notifyPageAll reports observers) =
      n * observers.countP (fun o => o.kind = kind) := by
  rw [effectRuns_notifyPageAll]
  induction observers with
  | nil => rfl
  | cons o os ih =>
    have ih1 := ih (fun o' ho' => h o' (List.mem_cons_of_mem _ ho'))
    by_cases hk : o.kind = kind
    · have hd : decide (o.kind = kind) = true := by simp [hk]
      simp only [List.filter_cons, List.countP_cons, hd, if_true, List.map_cons, List.sum_cons]
      rw [ih1, h o (List.mem_cons_self _ _) hk]
      ring
    · have hd : decide (o.kind = kind) = false := by simp [hk]
      simp only [List.filter_cons, List.countP_cons, hd, Bool.false_eq_true, if_false, add_zero]
      exact ih1

/-- Observers of one kind that all observe the element: the effect of the kind has
not run for it as long as no round reported it intersecting, and from the first
round that does it has run once for each of the observers. -/
theorem effectRuns_of_fresh (kind : ObserverKind) (t : Nat) (observers : List PageObserver)
    (hfresh : ∀ o ∈ observers, o.kind = kind → ∃ ts, o.observer = newObserver ts ∧ t ∈ ts)
    (before after : List (ObserverKind → Nat → Option Bool))
    (first : ObserverKind → Nat → Option Bool)
    (hbefore : ∀ r ∈ before, r kind t ≠ some true) (hfirst : first kind t = some true) :
    effectRuns kind t (notifyPageAll before observers) = 0 ∧
    effectRuns kind t (notifyPageAll (before ++ [first]) observers) =
      observers.countP (fun o => o.kind = kind) ∧
    effectRuns kind t (notifyPageAll (before ++ first :: after) observers) =
      observers.countP (fun o => o.kind = kind) := by
  have hb : ∀ r ∈ before.map (fun r => r kind), r t ≠ some true := by
    intro r hr
    rw [List.mem_map] at hr
    obtain ⟨r0, hr0, rfl⟩ := hr
    exact hbefore r0 hr0
  have hall : ∀ o ∈ observers, o.kind = kind →
      (notifyAll (before.map (fun r => r kind)) o.observer).triggered.count t = 0 ∧
      (notifyAll ((before ++ [first]).map (fun r => r kind)) o.observer).triggered.count t = 1 ∧
      (notifyAll ((before ++ first :: after).map (fun r => r kind))
        o.observer).triggered.count t = 1 := by
    intro o ho hk
    obtain ⟨ts, hts, hmem⟩ := hfresh o ho hk
    rw [hts, List.map_append, List.map_append, List.map_cons, List.map_cons, List.map_nil]
    exact newObserver_fires_once ts t hmem (before.map (fun r => r kind))
      (after.map (fun r => r kind)) (first kind) hb hfirst
  refine ⟨?_, ?_, ?_⟩
  · rw [effectRuns_of_const kind t 0 before observers (fun o ho hk => (hall o ho hk).1)]
    simp
  · rw [effectRuns_of_const kind t 1 _ observers (fun o ho hk => (hall o ho hk).2.1)]
    simp
  · rw [effectRuns_of_const kind t 1 _ observers (fun o ho hk => (hall o ho hk).2.2)]
    simp

theorem pageLoadObservers_loading (w : WatchedElements) :
    pageLoadObservers w .loading false =
      initializeAppObservers w ++ (advancedFeaturesObservers w ++ initializeAppObservers w) := by
  simp [pageLoadObservers, evaluateScript, Document.addEventListener, listenerObservers]

/-- C9, as the code has it on an ordinary page load (the script is evaluated while
the document is loading): for every element that the observers of a kind watch
and every sequence of rounds of intersection reports, the one-shot effect of that
kind has not run for the element as long as no round reported it intersecting,
and at the first round that does it runs once for each observer of the kind, with
no further run afterwards whatever is reported. `initializeApp` has run twice, so
for the skills section (start the skill bars and counters), for a progress bar
(set the width) and for a lazy image (load it, by `initializeLazyLoading`) that
is twice, not once; for the observers of the advanced features (add the
animation class, add the reveal class, load the image with a preloader) it is
once. -/
theorem one_shot_effect_runs_once_for_each_observer (w : WatchedElements)
    (kind : ObserverKind) (t : Nat) (hw : t ∈ w.watchedBy kind)
    (before after : List (ObserverKind → Nat → Option Bool))
    (first : ObserverKind → Nat → Option Bool)
    (hbefore : ∀ r ∈ before, r kind t ≠ some true) (hfirst : first kind t = some true) :
    effectRuns kind t (notifyPageAll before (pageLoadObservers w .loading false)) = 0 ∧
    effectRuns kind t
        (notifyPageAll (before ++ [first]) (pageLoadObservers w .loading false)) =
      (if kind = .skills ∨ kind = .progressBars ∨ kind = .lazyLoading then 2 else 1) ∧
    effectRuns kind t
        (notifyPageAll (before ++ first :: after) (pageLoadObservers w .loading false)) =
      (if kind = .skills ∨ kind = .progressBars ∨ kind = .lazyLoading then 2 else 1) := by
  have hfresh : ∀ o ∈ pageLoadObservers w .loading false, o.kind = kind →
      ∃ ts, o.observer = newObserver ts ∧ t ∈ ts := by
    intro o ho hk
    rw [pageLoadObservers_loading] at ho
    simp only [initializeAppObservers, advancedFeaturesObservers, List.mem_append,
      List.mem_cons, List.mem_singleton, List.not_mem_nil, or_false] at ho
    cases hs : w.skillsSection with
    | none =>
      rw [hs] at ho
      simp only [List.not_mem_nil, false_or] at ho
      rcases ho with (rfl | rfl) | (rfl | rfl | rfl) | (rfl | rfl) <;> subst hk <;>
        exact ⟨_, rfl, hw⟩
    | some e =>
      rw [hs] at ho
      simp only [List.mem_singleton] at ho
      rcases ho with (rfl | rfl | rfl) | (rfl | rfl | rfl) | (rfl | rfl | rfl) <;> subst hk
      all_goals first
        | exact ⟨_, rfl, hw⟩
        | (refine ⟨[e], rfl, ?_⟩
           simpa [WatchedElements.watchedBy, hs] using hw)
  have hcount : (pageLoadObservers w .loading false).countP (fun o => o.kind = kind) =
      (if kind = .skills ∨ kind = .progressBars ∨ kind = .lazyLoading then 2 else 1) := by
    rw [pageLoadObservers_loading]
    cases hs : w.skillsSection with
    | none =>
      cases kind
      · simp [WatchedElements.watchedBy, hs] at hw
      all_goals simp [initializeAppObservers, advancedFeaturesObservers, hs, List.countP_cons]
    | some e =>
      cases kind <;>
        simp [initializeAppObservers, advancedFeaturesObservers, hs, List.countP_cons]
  obtain ⟨h1, h2, h3⟩ := effectRuns_of_fresh kind t _ hfresh before after first hbefore hfirst
  rw [hcount] at h2 h3
  exact ⟨h1, h2, h3⟩

theorem one_shot_effect_runs_once_for_each_observer_witness :
    effectRuns .skills 7
      (notifyPageAll [fun _ _ => some false, fun _ _ => none]
        (pageLoadObservers ⟨some 7, [4, 9], [5], [7], []⟩ .loading false)) = 0 ∧
    effectRuns .skills 7
      (notifyPageAll ([fun _ _ => some false, fun _ _ => none] ++ [fun _ _ => some true])
        (pageLoadObservers ⟨some 7, [4, 9], [5], [7], []⟩ .loading false)) = 2 ∧
    effectRuns .skills 7
      (notifyPageAll ([fun _ _ => some false, fun _ _ => none] ++
          (fun _ _ => some true) :: [fun _ _ => some false, fun _ _ => some true])
        (pageLoadObservers ⟨some 7, [4, 9], [5], [7], []⟩ .loading false)) = 2 :=
  one_shot_effect_runs_once_for_each_observer ⟨some 7, [4, 9], [5], [7], []⟩ .skills 7
    (by decide) [fun _ _ => some false, fun _ _ => none]
    [fun _ _ => some false, fun _ _ => some true] (fun _ _ => some true)
    (by intro r hr; simp only [List.mem_cons, List.mem_singleton, List.not_mem_nil, or_false] at hr
        rcases hr with rfl | rfl <;> simp)
    rfl

/-- On an ordinary page load with a skills section (element 7), the first round
that reports the section intersecting starts the skill bars and counters twice:
once in each of the two observers that the two runs of `initializeApp` created. -/
theorem skills_effect_runs_twice :
    (pageLoad .loading false).initializeAppCalls = 2 ∧
    ((pageLoadObservers ⟨some 7, [], [], [], []⟩ .loading false).filter
      (fun o => o.kind = .skills)).length = 2 ∧
    effectRuns .skills 7
      (notifyPageAll [fun _ _ => some true]
        (pageLoadObservers ⟨some 7, [], [], [], []⟩ .loading false)) = 2 ∧
    effectRuns .skills 7
      (notifyPageAll [fun _ _ => some true, fun _ _ => some false, fun _ _ => some true]
        (pageLoadObservers ⟨some 7, [], [], [], []⟩ .loading false)) = 2 := by
  decide

end Portfolio
